import Mathlib

/-!
# ohm: clearance process

A shallow embedding of `ohm/ClearanceProcess.cpp` (data61/ohm): the per-region update
`ClearanceProcess::updateRegion`, the time sliced scheduler `ClearanceProcess::update`
and `ClearanceProcess::calculateForExtents`, with the CPU worker
`regionClearanceProcessCpu`.

Conventions.
* `int16_t` values are the integers of `[-32768, 32767]`; a conversion of an `int` to
  `int16_t` is `toI16` (two's complement wrap).
* `unsigned` values are naturals reduced modulo `2 ^ 32` where they are incremented.
* `uint64_t` touch stamps are naturals: the code only compares them and takes maxima.
* `float` configuration values are carried around, never computed with: their type is the
  parameter `F`.
* `double` values (wall clock readings in seconds, world coordinates) are exact rationals.
* Code of the repository that `ClearanceProcess.cpp` calls and that is not part of the
  translated sources is gathered in the structure `Externals`, a parameter of every
  definition that needs it.
-/

namespace ohm

/-! ## Machine integers and keys -/

/-- The values of `int16_t`. -/
abbrev I16 : Type := { v : Int // -32768 ≤ v ∧ v ≤ 32767 }

/-- Conversion of an `int` to `int16_t`: two's complement wrap into `[-32768, 32767]`. -/
def toI16 (v : Int) : I16 := ⟨(v + 32768) % 65536 - 32768, by omega⟩

/-- Wrap of an `unsigned` (32 bit) value. -/
def toU32 (v : Nat) : Nat := v % 4294967296

/-- Region key, `glm::i16vec3`. -/
structure I16Vec3 where
  x : I16
  y : I16
  z : I16
deriving DecidableEq

/-- The constructor `glm::i16vec3(x, y, z)` applied to `int` arguments. -/
def i16vec3 (x y z : Int) : I16Vec3 := ⟨toI16 x, toI16 y, toI16 z⟩

/-- Integer triple, `glm::ivec3`. -/
structure IVec3 where
  x : Int
  y : Int
  z : Int
deriving DecidableEq

/-- Triple of floats, `glm::vec3`. -/
structure Vec3 (F : Type) where
  x : F
  y : F
  z : F

/-- Modelled from the spec: `OccupancyKey` (Key.h is absent): a region key and the local
key of a voxel inside the region. -/
structure OccupancyKey where
  region_key : I16Vec3
  local_key : IVec3
deriving DecidableEq

/-- Modelled from the spec: `OccupancyKey::setRegionKey`. -/
def OccupancyKey.setRegionKey (k : OccupancyKey) (r : I16Vec3) : OccupancyKey :=
  { k with region_key := r }

/-- Modelled from the spec: `OccupancyKey::setLocalAxis(axis, value)`; an axis other than
0, 1, 2 leaves the key as it is. -/
def OccupancyKey.setLocalAxis (k : OccupancyKey) (axis : Nat) (v : Int) : OccupancyKey :=
  match axis with
  | 0 => { k with local_key := { k.local_key with x := v } }
  | 1 => { k with local_key := { k.local_key with y := v } }
  | 2 => { k with local_key := { k.local_key with z := v } }
  | _ => k

/-! ## Map data model -/

/-- Modelled from the spec: index of the occupancy layer in `touched_stamps`
(DefaultLayers.h is absent; only the distinctness of the two indices is used). -/
def kDlOccupancy : Nat := 0

/-- Modelled from the spec: index of the clearance layer in `touched_stamps`. -/
def kDlClearance : Nat := 1

/-- Modelled from the spec: `MapChunk` (MapChunk.h is absent): the touch stamp of every
layer and the voxel memory of the occupancy and clearance layers, indexed by local key. -/
structure MapChunk (F : Type) where
  touched_stamps : Nat → Nat
  occupancy : IVec3 → F
  clearance : IVec3 → F

/-- Modelled from the spec: the chunk store of `OccupancyMap` (OccupancyMapDetail.h is
absent): the resident chunks by region key, and the voxel dimensions of a region. -/
structure OccupancyMap (F : Type) where
  chunks : I16Vec3 → Option (MapChunk F)
  region_voxel_dimensions : IVec3

/-- Modelled from the spec: `RoiRangeFill`, the GPU clearance query held by the process
(RoiRangeFill.h is absent): whether its program is valid, and the three settings
`updateRegion` writes. -/
structure RoiRangeFill (F : Type) where
  valid : Bool
  axis_scaling : Vec3 F
  search_radius : F
  query_flags : Nat

/-- Modelled from the spec: `ClearanceProcessDetail` (ClearanceProcessDetail.h is absent).
The configuration fields are those `ClearanceProcess.cpp` reads. The working set is the
spec's "ordered work queue of dirty region keys plus a cursor". -/
structure ClearanceProcessDetail (F : Type) where
  gpu_query : RoiRangeFill F
  axis_scaling : Vec3 F
  search_radius : F
  query_flags : Nat
  queue : List I16Vec3
  cursor : Nat

/-- Observable events of the workers, in program order. -/
inductive Event (F : Type) where
  | gpuSetAxisScaling (v : Vec3 F)
  | gpuSetSearchRadius (r : F)
  | gpuSetQueryFlags (flags : Nat)
  | gpuCalculateForRegion (region_key : I16Vec3)
  | cerrGpuUnavailable
  | occupancyQueryRegions (region_key : I16Vec3)
  | regionClearanceProcessCpu (region_key : I16Vec3)

/-- Program state: the map, the process detail (`imp_`), the worker events so far and the
arguments of the calls of `updateRegion` so far (the last two are ghost state). -/
structure World (F : Type) where
  map : OccupancyMap F
  imp : ClearanceProcessDetail F
  events : List (Event F)
  calls : List (I16Vec3 × Bool)

/-- Code called by `ClearanceProcess.cpp` that is outside the translated sources. -/
structure Externals (F : Type) where
  /-- QueryFlag.h: the flag bits. -/
  kQfUnknownAsOccupied : Nat
  kQfGpuEvaluate : Nat
  kQfReportUnscaledResults : Nat
  kQfInstantiateUnknown : Nat
  /-- Allocation of a chunk by `OccupancyMap::region(key, true)`; `none` when the chunk
  cannot be obtained. -/
  newChunk : I16Vec3 → Option (MapChunk F)
  /-- `ohm::calculateNearestNeighbour` (OccupancyQueryAlg.h). -/
  calculateNearestNeighbour :
    OccupancyKey → OccupancyMap F → IVec3 → Bool → Bool → F → Vec3 F → Bool → F
  /-- `ohm::calculateVoxelSearchHalfExtents`. -/
  calculateVoxelSearchHalfExtents : OccupancyMap F → F → IVec3
  /-- The region keys `ohm::occupancyQueryRegions` visits for the box
  `regionSpatialMin(region_key) ± search_radius`, in visiting order. -/
  queryRegionKeys : OccupancyMap F → I16Vec3 → F → List I16Vec3
  /-- `RoiRangeFill::calculateForRegion`. -/
  gpuCalculateForRegion : RoiRangeFill F → OccupancyMap F → I16Vec3 → OccupancyMap F
  /-- Whether `gpumap::gpuCache(map)` is non-null. -/
  gpuCache : OccupancyMap F → Bool
  /-- The effect on the map of `syncToMainMemory()` followed by `clear()` on the clearance
  layer cache. -/
  syncClearanceCache : OccupancyMap F → OccupancyMap F
  /-- The stale region keys the scan of `ClearanceProcessDetail::getWork` finds, in the
  order it appends them. -/
  staleRegions : ClearanceProcessDetail F → OccupancyMap F → List I16Vec3
  /-- `OccupancyMap::regionKey(point)`: the key of the region that holds a world point. -/
  regionKey : OccupancyMap F → Vec3 Rat → I16Vec3

variable {F : Type}

/-- Lookup only: `OccupancyMapDetail::findRegion`. -/
def OccupancyMap.findRegion (map : OccupancyMap F) (region_key : I16Vec3) :
    Option (MapChunk F) :=
  map.chunks region_key

/-- Store `chunk` under `region_key`. -/
def OccupancyMap.insert (map : OccupancyMap F) (region_key : I16Vec3) (chunk : MapChunk F) :
    OccupancyMap F :=
  { map with chunks := fun k => if k = region_key then some chunk else map.chunks k }

/-- Modelled from the spec: `OccupancyMap::region(region_key, allow_create)`, "returns or
creates": the resident chunk; else, when `allow_create`, a new chunk, which becomes
resident; else null. The map is returned with the chunk. -/
def OccupancyMap.region (x : Externals F) (map : OccupancyMap F) (region_key : I16Vec3)
    (allow_create : Bool) : Option (MapChunk F) × OccupancyMap F :=
  match map.findRegion region_key with
  | some chunk => (some chunk, map)
  | none =>
    if allow_create then
      match x.newChunk region_key with
      | some chunk => (some chunk, map.insert region_key chunk)
      | none => (none, map)
    else (none, map)

/-- Write `value` to `touched_stamps[layer]` of the chunk of `region_key` (a write through
the chunk pointer the caller holds). -/
def OccupancyMap.setTouchedStamp (map : OccupancyMap F) (region_key : I16Vec3) (layer : Nat)
    (value : Nat) : OccupancyMap F :=
  { map with chunks := fun k =>
      if k = region_key then
        (map.chunks k).map fun c =>
          { c with touched_stamps := fun l => if l = layer then value else c.touched_stamps l }
      else map.chunks k }

/-- Modelled from the spec: `OccupancyNode::setClearance` on the voxel `key` (a write of one
voxel of the clearance layer; a voxel outside every chunk is not written). -/
def OccupancyMap.setClearance (map : OccupancyMap F) (key : OccupancyKey) (range : F) :
    OccupancyMap F :=
  { map with chunks := fun k =>
      if k = key.region_key then
        (map.chunks k).map fun c =>
          { c with clearance := fun l => if l = key.local_key then range else c.clearance l }
      else map.chunks k }

/-- The integers `lo, lo + 1, ..., hi - 1`: the values of `for (int i = lo; i < hi; ++i)`. -/
def intRange (lo hi : Int) : List Int :=
  (List.range (hi - lo).toNat).map fun (i : Nat) => lo + (i : Int)

/-! ## The CPU worker -/

/-- Modelled from the spec: `OccupancyKey(nullptr)`, the key before any component is set. -/
def OccupancyKey.null : OccupancyKey := ⟨i16vec3 0 0 0, ⟨0, 0, 0⟩⟩

/-- Modelled from the spec: `OccupancyNode(key, chunk, map).isNull()`: the accessor of a
voxel is null exactly when the voxel is outside any chunk, that is when `chunk` is null. -/
def OccupancyNode.isNull (chunk : Option (MapChunk F)) : Bool := chunk.isNone

/-- The body of the innermost loop of `regionClearanceProcessCpuBlock` for one voxel. -/
def regionClearanceProcessCpuVoxel (x : Externals F) (query : ClearanceProcessDetail F)
    (chunk : Option (MapChunk F)) (voxel_search_half_extents : IVec3)
    (map : OccupancyMap F) (node_key : OccupancyKey) : OccupancyMap F :=
  if !OccupancyNode.isNull chunk then
    let range := x.calculateNearestNeighbour node_key map voxel_search_half_extents
      ((query.query_flags &&& x.kQfUnknownAsOccupied) != 0) false query.search_radius
      query.axis_scaling ((query.query_flags &&& x.kQfReportUnscaledResults) != 0)
    map.setClearance node_key range
  else map

/-- The function `regionClearanceProcessCpuBlock`: the voxels of the block
`[block_start, block_end)` of the region, `z` outermost and `x` innermost. `chunk` is the
chunk pointer of the source (null or the chunk of `region_key`). -/
def regionClearanceProcessCpuBlock (x : Externals F) (map : OccupancyMap F)
    (query : ClearanceProcessDetail F) (block_start block_end : IVec3) (region_key : I16Vec3)
    (chunk : Option (MapChunk F)) (voxel_search_half_extents : IVec3) : OccupancyMap F :=
  let node_key := OccupancyKey.null.setRegionKey region_key
  (intRange block_start.z block_end.z).foldl (fun map z =>
    let node_key := node_key.setLocalAxis 2 z
    (intRange block_start.y block_end.y).foldl (fun map y =>
      let node_key := node_key.setLocalAxis 1 y
      (intRange block_start.x block_end.x).foldl (fun map xv =>
        let node_key := node_key.setLocalAxis 0 xv
        regionClearanceProcessCpuVoxel x query chunk voxel_search_half_extents map node_key)
        map) map) map

/-- Modelled from the spec: `OccupancyMap::regionVoxelVolume`. -/
def OccupancyMap.regionVoxelVolume (map : OccupancyMap F) : Nat :=
  (map.region_voxel_dimensions.x * map.region_voxel_dimensions.y *
    map.region_voxel_dimensions.z).toNat

/-- The function `regionClearanceProcessCpu` (the sequential variant, `OHM_THREADS` not
defined): the new map and the returned voxel count. -/
def regionClearanceProcessCpu (x : Externals F) (map : OccupancyMap F)
    (query : ClearanceProcessDetail F) (region_key : I16Vec3) : OccupancyMap F × Nat :=
  match map.findRegion region_key with
  | none => (map, 0)
  | some chunk =>
    let voxel_search_half_extents := x.calculateVoxelSearchHalfExtents map query.search_radius
    (regionClearanceProcessCpuBlock x map query ⟨0, 0, 0⟩ map.region_voxel_dimensions
        region_key (some chunk) voxel_search_half_extents,
      toU32 map.regionVoxelVolume)

/-- Modelled from the spec: `ohm::occupancyQueryRegions` (OccupancyQueryAlg.h is absent),
"visits every region whose AABB intersects the world box; calls worker(map, region_key)".
The box is the one `updateRegion` passes, `regionSpatialMin(region_key) ± search_radius`. -/
def occupancyQueryRegions (x : Externals F) (w : World F) (region_key : I16Vec3)
    (query_func : OccupancyMap F → ClearanceProcessDetail F → I16Vec3 → OccupancyMap F × Nat) :
    World F :=
  (x.queryRegionKeys w.map region_key w.imp.search_radius).foldl (fun w k =>
    { w with
      map := (query_func w.map w.imp k).1
      events := w.events ++ [Event.regionClearanceProcessCpu k] }) w

/-! ## `ClearanceProcess::updateRegion` -/

/-- The three values of the loops `for (int v = -1; v <= 1; ++v)`. -/
def neighbourOffsets : List Int := [-1, 0, 1]

/-- The neighbourhood loops of `updateRegion`: starting from `target_update_stamp`, the
maximum with the occupancy stamp of every resident chunk at
`neighbour_key = region_key + (x, y, z)`, each component converted to `int16_t`. -/
def targetUpdateStamp (x : Externals F) (map : OccupancyMap F) (region_key : I16Vec3)
    (target_update_stamp : Nat) : Nat :=
  neighbourOffsets.foldl (fun target z =>
    neighbourOffsets.foldl (fun target y =>
      neighbourOffsets.foldl (fun target xv =>
        let neighbour_key : I16Vec3 :=
          ⟨toI16 (region_key.x + xv), toI16 (region_key.y + y), toI16 (region_key.z + z)⟩
        match (OccupancyMap.region x map neighbour_key false).1 with
        | some neighbour => max target (neighbour.touched_stamps kDlOccupancy)
        | none => target) target) target) target_update_stamp

/-- The GPU branch of `updateRegion`. -/
def updateRegionGpu (x : Externals F) (w : World F) (region_key : I16Vec3) : World F :=
  let d := w.imp
  let gpu_query : RoiRangeFill F :=
    { d.gpu_query with
      axis_scaling := d.axis_scaling
      search_radius := d.search_radius
      query_flags := d.query_flags }
  { w with
    imp := { d with gpu_query := gpu_query }
    map := x.gpuCalculateForRegion gpu_query w.map region_key
    events := w.events ++
      [Event.gpuSetAxisScaling d.axis_scaling, Event.gpuSetSearchRadius d.search_radius,
        Event.gpuSetQueryFlags d.query_flags, Event.gpuCalculateForRegion region_key] }

/-- The CPU branch of `updateRegion`. -/
def updateRegionCpu (x : Externals F) (w : World F) (region_key : I16Vec3) : World F :=
  let w1 : World F :=
    if (w.imp.query_flags &&& x.kQfGpuEvaluate) != 0 then
      { w with events := w.events ++ [Event.cerrGpuUnavailable] }
    else w
  occupancyQueryRegions x
    { w1 with events := w1.events ++ [Event.occupancyQueryRegions region_key] } region_key
    (regionClearanceProcessCpu x)

/-- The recomputation of `updateRegion`: the GPU delegate when `kQfGpuEvaluate` is set and
the GPU query is valid, else the CPU region query. -/
def updateRegionWork (x : Externals F) (w : World F) (region_key : I16Vec3) : World F :=
  if (w.imp.query_flags &&& x.kQfGpuEvaluate) != 0 && w.imp.gpu_query.valid then
    updateRegionGpu x w region_key
  else
    updateRegionCpu x w region_key

/-- The method `ClearanceProcess::updateRegion(map, region_key, force)`: the returned flag
and the state on return. -/
def updateRegion (x : Externals F) (w : World F) (region_key : I16Vec3) (force : Bool) :
    Bool × World F :=
  let w : World F := { w with calls := w.calls ++ [(region_key, force)] }
  match OccupancyMap.region x w.map region_key
    ((w.imp.query_flags &&& x.kQfInstantiateUnknown) != 0) with
  | (none, _) => (false, w)
  | (some region, map) =>
    let w : World F := { w with map := map }
    let target_update_stamp :=
      targetUpdateStamp x map region_key (region.touched_stamps kDlOccupancy)
    if !force && decide (region.touched_stamps kDlClearance ≥ target_update_stamp) then
      (false, w)
    else
      let w2 := updateRegionWork x w region_key
      (true, { w2 with map := w2.map.setTouchedStamp region_key kDlClearance target_update_stamp })

/-! ## The work queue and `ClearanceProcess::update` -/

/-- Modelled from the spec: `ClearanceProcessDetail::haveWork`, the queue holds an entry
at the cursor. -/
def ClearanceProcessDetail.haveWork (d : ClearanceProcessDetail F) : Bool :=
  decide (d.cursor < d.queue.length)

/-- Modelled from the spec: the field `current_dirty_cursor`, the queue entry at the
cursor. -/
def ClearanceProcessDetail.current_dirty_cursor (d : ClearanceProcessDetail F) : I16Vec3 :=
  d.queue.getD d.cursor (i16vec3 0 0 0)

/-- Modelled from the spec: `ClearanceProcessDetail::stepCursor`, "advance". -/
def ClearanceProcessDetail.stepCursor (d : ClearanceProcessDetail F) :
    ClearanceProcessDetail F :=
  { d with cursor := d.cursor + 1 }

/-- Modelled from the spec: `ClearanceProcessDetail::getWork`, "scans touched regions and
appends stale ones". -/
def ClearanceProcessDetail.getWork (x : Externals F) (d : ClearanceProcessDetail F)
    (map : OccupancyMap F) : ClearanceProcessDetail F :=
  { d with queue := d.queue ++ x.staleRegions d map }

/-- Modelled from the spec: the result codes of `update`, "returns `{ UpToDate,
Progressing }`" (MappingProcess.h is absent). -/
inductive MappingProcessResult where
  | kMprUpToDate
  | kMprProgressing
deriving DecidableEq

/-- Modelled from the spec: `volumeOf(v)`, the number of regions in a box of extents `v`
(absent from the sources). -/
def volumeOf (v : I16Vec3) : Nat := (v.x.val * v.y.val * v.z.val).toNat

/-- The constant `const glm::i16vec3 step(1)` of `update`. -/
def step : I16Vec3 := i16vec3 1 1 1

/-- The flush of the GPU clearance cache at the start of `update` and of
`calculateForExtents`. -/
def flushClearanceCache (x : Externals F) (map : OccupancyMap F) : OccupancyMap F :=
  if x.gpuCache map then x.syncClearanceCache map else map

/-- The condition of the `while` loop of `update`. -/
def updateLoopCondition (time_slice elapsed_sec : Rat) (w : World F) : Bool :=
  w.imp.haveWork && (decide (time_slice ≤ 0) || decide (elapsed_sec < time_slice))

/-- One pass through the body of the `while` loop of `update`, the clock reading apart:
the new `total_processed` and the new state. -/
def updateLoopBody (x : Externals F) (total_processed : Nat) (w : World F) : Nat × World F :=
  let w1 := (updateRegion x w w.imp.current_dirty_cursor false).2
  let w2 : World F := { w1 with imp := w1.imp.stepCursor }
  let total_processed := toU32 (total_processed + volumeOf step)
  let w3 : World F :=
    if !w2.imp.haveWork then { w2 with imp := w2.imp.getWork x w2.map } else w2
  (total_processed, w3)

/-- The `while` loop of `update`. `clock i` is the value of `elapsed_sec` the `i`-th reading
of the clock in this call gives; `reads` counts the readings so far. The loop is cut after
`fuel` passes (`none`). -/
def updateLoop (x : Externals F) (time_slice : Rat) (clock : Nat → Rat) :
    Nat → Nat → Rat → Nat → World F → Option (Nat × World F)
  | 0, _, elapsed_sec, total_processed, w =>
    if updateLoopCondition time_slice elapsed_sec w then none else some (total_processed, w)
  | fuel + 1, reads, elapsed_sec, total_processed, w =>
    if updateLoopCondition time_slice elapsed_sec w then
      let r := updateLoopBody x total_processed w
      updateLoop x time_slice clock fuel (reads + 1) (clock reads) r.1 r.2
    else some (total_processed, w)

/-- The state of `update` when it reaches the `while` loop: the readings of the clock so
far, `elapsed_sec`, and the state. -/
def updateEntry (x : Externals F) (clock : Nat → Rat) (w : World F) : Nat × Rat × World F :=
  let r : Nat × Rat × World F :=
    if !w.imp.haveWork then (1, clock 0, { w with imp := w.imp.getWork x w.map })
    else (0, 0, w)
  (r.1, r.2.1, { r.2.2 with map := flushClearanceCache x r.2.2.map })

/-- The method `ClearanceProcess::update(map, time_slice)`: the returned code and the state
on return, `none` when the loop does not end within `fuel` passes. -/
def update (x : Externals F) (fuel : Nat) (time_slice : Rat) (clock : Nat → Rat) (w : World F) :
    Option (MappingProcessResult × World F) :=
  let e := updateEntry x clock w
  match updateLoop x time_slice clock fuel e.1 e.2.1 0 e.2.2 with
  | none => none
  | some (total_processed, w) =>
    some (if total_processed != 0 || w.imp.haveWork then MappingProcessResult.kMprProgressing
      else MappingProcessResult.kMprUpToDate, w)

/-- Consecutive calls of `update`, each with its own time slice and clock: the returned
codes in order and the final state. -/
def updateCalls (x : Externals F) (fuel : Nat) :
    List (Rat × (Nat → Rat)) → World F → Option (List MappingProcessResult × World F)
  | [], w => some ([], w)
  | c :: cs, w =>
    match update x fuel c.1 c.2 w with
    | none => none
    | some (r, w1) =>
      match updateCalls x fuel cs w1 with
      | none => none
      | some (rs, w2) => some (r :: rs, w2)

/-! ## `ClearanceProcess::calculateForExtents` -/

/-- The three nested loops of `calculateForExtents` over the region keys from `min_region`
to `max_region`, both inclusive, `z` outermost and `x` innermost. -/
def calculateForExtentsLoop (x : Externals F) (w : World F) (min_region max_region : I16Vec3)
    (force : Bool) : World F :=
  (intRange min_region.z (max_region.z + 1)).foldl (fun w z =>
    (intRange min_region.y (max_region.y + 1)).foldl (fun w y =>
      (intRange min_region.x (max_region.x + 1)).foldl (fun w xv =>
        (updateRegion x w ⟨toI16 xv, toI16 y, toI16 z⟩ force).2) w) w) w

/-- The method `ClearanceProcess::calculateForExtents(map, min_extents, max_extents,
force)`. -/
def calculateForExtents (x : Externals F) (w : World F) (min_extents max_extents : Vec3 Rat)
    (force : Bool) : World F :=
  let min_region := x.regionKey w.map min_extents
  let max_region := x.regionKey w.map max_extents
  calculateForExtentsLoop x { w with map := flushClearanceCache x w.map } min_region max_region
    force

/-! ## The staleness rule of the specification -/

/-- The region key at offset `(dx, dy, dz)` from `r`, in the arithmetic of the key type. -/
def I16Vec3.offset (r : I16Vec3) (dx dy dz : Int) : I16Vec3 :=
  ⟨toI16 (r.x + dx), toI16 (r.y + dy), toI16 (r.z + dz)⟩

/-- The 26 offsets of the neighbours of a region: -1..1 on each axis, not all zero. -/
def neighbourOffsets26 : List (Int × Int × Int) :=
  [(-1, -1, -1), (0, -1, -1), (1, -1, -1), (-1, 0, -1), (0, 0, -1), (1, 0, -1),
   (-1, 1, -1), (0, 1, -1), (1, 1, -1),
   (-1, -1, 0), (0, -1, 0), (1, -1, 0), (-1, 0, 0), (1, 0, 0),
   (-1, 1, 0), (0, 1, 0), (1, 1, 0),
   (-1, -1, 1), (0, -1, 1), (1, -1, 1), (-1, 0, 1), (0, 0, 1), (1, 0, 1),
   (-1, 1, 1), (0, 1, 1), (1, 1, 1)]

/-- The 26 neighbouring region keys of `r`. -/
def neighbourKeys (r : I16Vec3) : List I16Vec3 :=
  neighbourOffsets26.map fun o => r.offset o.1 o.2.1 o.2.2

/-- The occupancy stamps of those of `keys` that are resident. -/
def residentOccupancyStamps (map : OccupancyMap F) (keys : List I16Vec3) : List Nat :=
  keys.filterMap fun k => (map.chunks k).map fun c => c.touched_stamps kDlOccupancy

/-- The stamp `T_occ(r)` of the specification: the maximum of `touched_stamps[occupancy]`
over `r` and those of its 26 neighbours that are resident. -/
def T_occ (map : OccupancyMap F) (r : I16Vec3) : Nat :=
  (residentOccupancyStamps map (r :: neighbourKeys r)).foldr max 0

/-- The clearance stamp of region `r`, when resident. -/
def clearanceStamp (map : OccupancyMap F) (r : I16Vec3) : Option Nat :=
  (map.chunks r).map fun c => c.touched_stamps kDlClearance

/-- The occupancy stamp of region `r`, when resident. -/
def occupancyStamp (map : OccupancyMap F) (r : I16Vec3) : Option Nat :=
  (map.chunks r).map fun c => c.touched_stamps kDlOccupancy

/-! ## Properties of the external workers used as hypotheses -/

/-- The touch stamps of the resident chunks, by region key. -/
def touchStamps (map : OccupancyMap F) : I16Vec3 → Option (Nat → Nat) :=
  fun k => (map.chunks k).map fun c => c.touched_stamps

/-- Every chunk resident in `m` is resident in `m2` with touch stamps at least as large. -/
def StampsLe (m m2 : OccupancyMap F) : Prop :=
  ∀ k c, m.chunks k = some c →
    ∃ c2, m2.chunks k = some c2 ∧ ∀ l, c.touched_stamps l ≤ c2.touched_stamps l

/-- The GPU delegate removes no chunk from the map. -/
def Externals.GpuKeepsChunks (x : Externals F) : Prop :=
  ∀ q m k r, (m.chunks r).isSome = true → ((x.gpuCalculateForRegion q m k).chunks r).isSome = true

/-- The GPU delegate removes no chunk and lowers no touch stamp. -/
def Externals.GpuStampsMonotone (x : Externals F) : Prop :=
  ∀ q m k, StampsLe m (x.gpuCalculateForRegion q m k)

/-- The GPU delegate changes neither the set of resident chunks nor a touch stamp. -/
def Externals.GpuKeepsStamps (x : Externals F) : Prop :=
  ∀ q m k, touchStamps (x.gpuCalculateForRegion q m k) = touchStamps m

/-- The flush of the GPU clearance cache changes neither the set of resident chunks nor a
touch stamp. -/
def Externals.FlushKeepsStamps (x : Externals F) : Prop :=
  ∀ m, touchStamps (flushClearanceCache x m) = touchStamps m

/-- The map at entry to `updateRegion(map, region_key, force)` with the chunk of
`region_key` resolved: the map itself when the chunk is resident (or cannot be obtained),
the map with the new chunk when the first statement of `updateRegion` instantiates it. -/
def entryMap (x : Externals F) (w : World F) (region_key : I16Vec3) : OccupancyMap F :=
  (OccupancyMap.region x w.map region_key
    ((w.imp.query_flags &&& x.kQfInstantiateUnknown) != 0)).2

/-! ## Auxiliary definitions for the scheduler -/

/-- The state after `k` passes through the body of the loop of `update`, each started with
work in the queue (`none` when the queue runs empty before). -/
def bodySteps (x : Externals F) : Nat → World F → Option (World F)
  | 0, w => some w
  | k + 1, w => if w.imp.haveWork then bodySteps x k (updateLoopBody x 0 w).2 else none

/-- The cursor is inside the queue or at its end, and when no work is queued the stale
scan finds nothing. -/
def Settled (x : Externals F) (w : World F) : Prop :=
  w.imp.cursor ≤ w.imp.queue.length ∧
    (w.imp.haveWork = false → x.staleRegions w.imp w.map = [])

/-- The counter `total_processed` after `n` passes. -/
def totalAfter (n t : Nat) : Nat := (fun t => toU32 (t + 1))^[n] t

/-- The code `update` returns for a final counter and state. -/
def resultCode (total_processed : Nat) (w : World F) : MappingProcessResult :=
  if total_processed != 0 || w.imp.haveWork then MappingProcessResult.kMprProgressing
  else MappingProcessResult.kMprUpToDate

/-- The keys of a list of queue entries as calls of `updateRegion` with `force = false`. -/
def unforcedCalls (keys : List I16Vec3) : List (I16Vec3 × Bool) :=
  keys.map fun k => (k, false)

/-! ## Auxiliary definitions for `calculateForExtents` -/

/-- The region keys the loops of `calculateForExtents` visit, in visiting order. -/
def boxKeys (min_region max_region : I16Vec3) : List I16Vec3 :=
  (intRange min_region.z (max_region.z + 1)).flatMap fun z =>
    (intRange min_region.y (max_region.y + 1)).flatMap fun y =>
      (intRange min_region.x (max_region.x + 1)).map fun xv => ⟨toI16 xv, toI16 y, toI16 z⟩

/-- The region key `r` lies between `min_region` and `max_region` on every axis. -/
def inBox (min_region max_region r : I16Vec3) : Prop :=
  (min_region.x.val ≤ r.x.val ∧ r.x.val ≤ max_region.x.val) ∧
    (min_region.y.val ≤ r.y.val ∧ r.y.val ≤ max_region.y.val) ∧
    (min_region.z.val ≤ r.z.val ∧ r.z.val ≤ max_region.z.val)

/-- Every chunk resident in `m` is resident in `m2` with the same occupancy stamp. -/
def OccKeep (m m2 : OccupancyMap F) : Prop :=
  ∀ k s, occupancyStamp m k = some s → occupancyStamp m2 k = some s

/-! ## Worked examples -/

/-- Externals of the worked examples: the flag bits, no chunk allocation, workers and
cache flush that leave the map as it is, a stale scan that finds nothing. -/
def exampleExternals : Externals Nat where
  kQfUnknownAsOccupied := 1
  kQfGpuEvaluate := 8
  kQfReportUnscaledResults := 32
  kQfInstantiateUnknown := 64
  newChunk := fun _ => none
  calculateNearestNeighbour := fun _ _ _ _ _ r _ _ => r
  calculateVoxelSearchHalfExtents := fun _ _ => ⟨1, 1, 1⟩
  queryRegionKeys := fun _ k _ => [k]
  gpuCalculateForRegion := fun _ m _ => m
  gpuCache := fun _ => false
  syncClearanceCache := fun m => m
  staleRegions := fun _ _ => []
  regionKey := fun _ p => i16vec3 p.x.floor p.y.floor p.z.floor

/-- A chunk with the given occupancy and clearance stamps. -/
def exampleChunk (occupancy_stamp clearance_stamp : Nat) : MapChunk Nat where
  touched_stamps := fun l =>
    if l = kDlOccupancy then occupancy_stamp else if l = kDlClearance then clearance_stamp else 0
  occupancy := fun _ => 0
  clearance := fun _ => 0

/-- A process detail with the given flags and work queue, the cursor at the start. -/
def exampleDetail (query_flags : Nat) (queue : List I16Vec3) : ClearanceProcessDetail Nat where
  gpu_query := ⟨false, ⟨1, 1, 1⟩, 0, 0⟩
  axis_scaling := ⟨1, 1, 1⟩
  search_radius := 3
  query_flags := query_flags
  queue := queue
  cursor := 0

/-- A map of one voxel per region with two resident regions: `(0, 0, 0)` with occupancy
stamp 1 and clearance stamp 1, and its neighbour `(1, 0, 0)` with occupancy stamp 5 and
clearance stamp 0. -/
def exampleMap : OccupancyMap Nat where
  chunks := fun k =>
    if k = i16vec3 0 0 0 then some (exampleChunk 1 1)
    else if k = i16vec3 1 0 0 then some (exampleChunk 5 0)
    else none
  region_voxel_dimensions := ⟨1, 1, 1⟩

/-- A map of one voxel per region with the single resident region `(0, 0, 0)`, of
occupancy stamp 5 and clearance stamp 10. -/
def exampleMapAhead : OccupancyMap Nat where
  chunks := fun k => if k = i16vec3 0 0 0 then some (exampleChunk 5 10) else none
  region_voxel_dimensions := ⟨1, 1, 1⟩

/-- The state of the worked examples: a map, no GPU, the given flags and queue. -/
def exampleWorld (map : OccupancyMap Nat) (query_flags : Nat) (queue : List I16Vec3) :
    World Nat where
  map := map
  imp := exampleDetail query_flags queue
  events := []
  calls := []

/-- A work queue of `2 ^ 32` entries, each the key of the region `(7, 7, 7)`. -/
def exampleLongQueue : List I16Vec3 := List.replicate 4294967296 (i16vec3 7 7 7)

/-- Externals of the worked examples with a stale scan: of the regions `(0, 0, 0)` and
`(1, 0, 0)`, those that are resident with a clearance stamp below `T_occ`. -/
def exampleScanExternals : Externals Nat :=
  { exampleExternals with
    staleRegions := fun _ m =>
      [i16vec3 0 0 0, i16vec3 1 0 0].filter fun k =>
        match clearanceStamp m k with
        | some stamp => decide (stamp < T_occ m k)
        | none => false }

/-- The state after the two regions the stale scan finds in `exampleMap` have gone through
the loop body of `update`. -/
def exampleDrained : World Nat :=
  (updateLoopBody exampleScanExternals 0 (updateLoopBody exampleScanExternals 0
    (updateEntry exampleScanExternals (fun _ => 0) (exampleWorld exampleMap 0 [])).2.2).2).2

/-- Three calls of `update` with a time slice of one second: in the first the clock shows
two seconds after the first region, the second takes the remaining region, the third finds
nothing to do. -/
def exampleSlices : List (Rat × (Nat → Rat)) :=
  [(1, fun i => if i = 0 then 0 else 2), (1, fun _ => 0), (1, fun _ => 0)]

/-- A map of one voxel per region in which the 27 regions with key components in -1..1 are
resident: `(1, 0, 0)` with occupancy stamp 5, the others with occupancy stamp 1, all with
clearance stamp 0. -/
def exampleMapFull : OccupancyMap Nat where
  chunks := fun k =>
    if -1 ≤ k.x.val ∧ k.x.val ≤ 1 ∧ -1 ≤ k.y.val ∧ k.y.val ≤ 1 ∧ -1 ≤ k.z.val ∧ k.z.val ≤ 1 then
      some (exampleChunk (if k = i16vec3 1 0 0 then 5 else 1) 0)
    else none
  region_voxel_dimensions := ⟨1, 1, 1⟩

/-! ## `GpuProgramRef` (ohm/private/GpuProgramRef.cpp) -/

/-- The source kinds of a GPU program, `GpuProgramRef::SourceType`. -/
inductive SourceType where
  | kSourceFile
  | kSourceString
deriving DecidableEq

/-- Code of `gputil` and `OhmGpu.h` that `GpuProgramRef.cpp` calls and that is outside the
translated sources. `P` is the type of `gputil::Program` objects, `Dev` of
`gputil::Device`, `A` of `gputil::BuildArgs`. A build returns its error code (0 for
success) and the program object after the build. -/
structure Gputil (Dev P A : Type) where
  /-- `gputil::Program()`: the default (null) program. -/
  defaultProgram : P
  /-- `gputil::Program(gpu, name)`. -/
  newProgram : Dev → String → P
  /-- `gputil::BuildArgs build_args;` -/
  defaultBuildArgs : A
  /-- `ohm::setGpuBuildVersion(build_args)`. -/
  setGpuBuildVersion : A → A
  /-- `build_args.args = nullptr`. -/
  clearArgs : A → A
  /-- `Program::buildFromFile(file_name, build_args)`. -/
  buildFromFile : P → String → A → Int × P
  /-- `Program::buildFromSource(source, source_length, build_args)`. -/
  buildFromSource : P → String → Nat → A → Int × P

/-- The fields of `GpuProgramRef` (GpuProgramRef.h is absent: the reference count
`program_ref_` is a counter that starts at zero, modelled from the spec as a natural
number). -/
structure GpuProgramRef (P : Type) where
  program_ : P
  program_ref_ : Nat
  name_ : String
  source_str_ : String
  source_type_ : SourceType

/-- The constructor `GpuProgramRef(name, source_type, source_str, source_str_length)`. -/
def GpuProgramRef.new {Dev P A : Type} (g : Gputil Dev P A) (name : String)
    (source_type : SourceType) (source_str : String) (source_str_length : Nat) :
    GpuProgramRef P where
  program_ := g.defaultProgram
  program_ref_ := 0
  name_ := name
  source_str_ := if source_str_length = 0 then source_str else source_str.take source_str_length
  source_type_ := source_type

/-- The method `GpuProgramRef::addReference(gpu)`: the returned flag, the object on return
and, as ghost output, the builds attempted during the call (by source kind). -/
def GpuProgramRef.addReference {Dev P A : Type} (g : Gputil Dev P A) (self : GpuProgramRef P)
    (gpu : Dev) : Bool × GpuProgramRef P × List SourceType :=
  if self.program_ref_ = 0 then
    let build_args := g.clearArgs (g.setGpuBuildVersion g.defaultBuildArgs)
    let err : Int := 0
    let program := g.newProgram gpu self.name_
    let r : Int × P × List SourceType :=
      if self.source_type_ = SourceType.kSourceFile then
        let b := g.buildFromFile program self.source_str_ build_args
        (b.1, b.2, [SourceType.kSourceFile])
      else
        let b := g.buildFromSource program self.source_str_ self.source_str_.utf8ByteSize
          build_args
        (err, b.2, [SourceType.kSourceString])
    if r.1 ≠ 0 then
      (false, { self with program_ := g.defaultProgram }, r.2.2)
    else
      (true, { self with program_ := r.2.1, program_ref_ := self.program_ref_ + 1 }, r.2.2)
  else
    (true, { self with program_ref_ := self.program_ref_ + 1 }, [])

/-- The method `GpuProgramRef::releaseReference()`. -/
def GpuProgramRef.releaseReference {Dev P A : Type} (g : Gputil Dev P A)
    (self : GpuProgramRef P) : GpuProgramRef P :=
  if self.program_ref_ > 0 then
    let s : GpuProgramRef P := { self with program_ref_ := self.program_ref_ - 1 }
    if s.program_ref_ = 0 then { s with program_ := g.defaultProgram } else s
  else self

/-- The method `GpuProgramRef::isValid()`. -/
def GpuProgramRef.isValid {P : Type} (self : GpuProgramRef P) : Bool :=
  decide (self.program_ref_ > 0)

/-- Consecutive calls of `addReference`, one for each device of the list: the returned
flags in order and the object after the last call. -/
def GpuProgramRef.addReferences {Dev P A : Type} (g : Gputil Dev P A) :
    List Dev → GpuProgramRef P → List Bool × GpuProgramRef P
  | [], self => ([], self)
  | gpu :: gpus, self =>
    let r := GpuProgramRef.addReference g self gpu
    let rs := GpuProgramRef.addReferences g gpus r.2.1
    (r.1 :: rs.1, rs.2)

/-- A `gputil` for the worked examples: programs are numbers (0 the default program, 1 a
program object for a device, 2 a built program), the only device is `()`, and a build
succeeds exactly when the source text is `"good"`, else returns the error code -11. -/
def exampleGputil : Gputil Unit Nat Unit where
  defaultProgram := 0
  newProgram := fun _ _ => 1
  defaultBuildArgs := ()
  setGpuBuildVersion := fun a => a
  clearArgs := fun a => a
  buildFromFile := fun p s _ => if s = "good" then (0, 2) else (-11, p)
  buildFromSource := fun p s _ _ => if s = "good" then (0, 2) else (-11, p)

/-! ## `MapProbability.h` -/

/-- The function `valueToProbability(value)` over an ordered field `R` with exponential
function `exp`, extended with minus infinity (`⊥`): the test
`value == -std::numeric_limits<real>::infinity()` is the match on `⊥`. -/
def valueToProbability {R : Type} [Field R] (exp : R → R) (value : WithBot R) : R :=
  match value with
  | none => 0
  | some v => 1 - 1 / (1 + exp v)

/-! ## Classification of the worker events -/

/-- The events of the GPU delegate. -/
def Event.isGpu : Event F → Bool
  | Event.gpuSetAxisScaling _ => true
  | Event.gpuSetSearchRadius _ => true
  | Event.gpuSetQueryFlags _ => true
  | Event.gpuCalculateForRegion _ => true
  | _ => false

/-- The message "ClearanceProcess requested GPU unavailable. Using CPU." on `std::cerr`. -/
def Event.isCerr : Event F → Bool
  | Event.cerrGpuUnavailable => true
  | _ => false

/-- A run of the CPU region query, `ohm::occupancyQueryRegions`. -/
def Event.isCpuQuery : Event F → Bool
  | Event.occupancyQueryRegions _ => true
  | _ => false

/-- The condition of the GPU branch of `updateRegion`: `kQfGpuEvaluate` is set and the GPU
query is valid. -/
def gpuSelected (x : Externals F) (d : ClearanceProcessDetail F) : Bool :=
  (d.query_flags &&& x.kQfGpuEvaluate) != 0 && d.gpu_query.valid

/-- The state after the two stale regions of `exampleMap` have gone through the loop body
of `update` with `kQfGpuEvaluate` set (flags 8) and an invalid GPU query. -/
def exampleFallback : World Nat :=
  (updateLoopBody exampleScanExternals 0 (updateLoopBody exampleScanExternals 0
    (updateEntry exampleScanExternals (fun _ => 0) (exampleWorld exampleMap 8 [])).2.2).2).2

/-! ## Clearance writes -/

/-- The voxels of the block `[block_start, block_end)`. -/
def inBlock (block_start block_end l : IVec3) : Bool :=
  decide ((block_start.x ≤ l.x ∧ l.x < block_end.x) ∧ (block_start.y ≤ l.y ∧ l.y < block_end.y) ∧
    (block_start.z ≤ l.z ∧ l.z < block_end.z))

/-- The local keys the loops of `regionClearanceProcessCpuBlock` visit, in visiting order. -/
def blockKeys (block_start block_end : IVec3) : List IVec3 :=
  (intRange block_start.z block_end.z).flatMap fun z =>
    (intRange block_start.y block_end.y).flatMap fun y =>
      (intRange block_start.x block_end.x).map fun xv => ⟨xv, y, z⟩

/-- What a chunk holds apart from the clearance layer: the occupancy voxels and the touch
stamps of the layers other than clearance. -/
def chunkView (c : MapChunk F) : (IVec3 → F) × (Nat → Nat) :=
  (c.occupancy, fun l => if l = kDlClearance then 0 else c.touched_stamps l)

/-- What a map holds apart from the clearance layer: the region dimensions and the view of
every resident chunk. -/
def occupancyView (m : OccupancyMap F) :
    IVec3 × (I16Vec3 → Option ((IVec3 → F) × (Nat → Nat))) :=
  (m.region_voxel_dimensions, fun k => (m.chunks k).map chunkView)

/-- The chunk `OccupancyMap::region(region_key, allow_create)` gives for the region, without
the change of the map. -/
def obtainableChunk (x : Externals F) (allow_create : Bool) (m : OccupancyMap F)
    (region_key : I16Vec3) : Option (MapChunk F) :=
  match m.chunks region_key with
  | some c => some c
  | none => if allow_create then x.newChunk region_key else none

/-- What a run of the process with the given `allow_create` can see of a map apart from the
clearance layer: the region dimensions and the view of the chunk `OccupancyMap::region`
gives for every region, so that with `allow_create` set a region that is not resident
counts as the chunk the allocation would give. -/
def processView (x : Externals F) (allow_create : Bool) (m : OccupancyMap F) :
    IVec3 × (I16Vec3 → Option ((IVec3 → F) × (Nat → Nat))) :=
  (m.region_voxel_dimensions, fun k => (obtainableChunk x allow_create m k).map chunkView)

/-- The map `m` with the clearance value `G key` written to every resident voxel `key`
selected by `S` and the clearance stamp `T k` written to every resident chunk `k` selected
by `St`. -/
def applyWrite (G : OccupancyKey → F) (T : I16Vec3 → Nat) (S : OccupancyKey → Bool)
    (St : I16Vec3 → Bool) (m : OccupancyMap F) : OccupancyMap F :=
  { m with chunks := fun k => (m.chunks k).map fun c =>
      { c with
        clearance := fun l => if S ⟨k, l⟩ then G ⟨k, l⟩ else c.clearance l
        touched_stamps := fun ly =>
          if ly = kDlClearance ∧ St k = true then T k else c.touched_stamps ly } }

/-- The absent `calculateNearestNeighbour` reads no clearance value and no clearance stamp:
it gives the same result on maps that differ in the clearance layer only. -/
def Externals.NearestNeighbourReadsNoClearance (x : Externals F) : Prop :=
  ∀ m m2 : OccupancyMap F, occupancyView m = occupancyView m2 →
    ∀ key h a b r s u, x.calculateNearestNeighbour key m h a b r s u
      = x.calculateNearestNeighbour key m2 h a b r s u

/-- The absent code on the CPU path reads nothing but the process view of the map:
`calculateNearestNeighbour`, `calculateVoxelSearchHalfExtents`, the regions the region
query visits and `regionKey` give the same results on maps with the same process view, that
is on maps that differ in the clearance layer and, with `allow_create` set, in which of the
regions have been allocated. -/
def Externals.ReadsProcessView (x : Externals F) (allow_create : Bool) : Prop :=
  ∀ m m2 : OccupancyMap F, processView x allow_create m = processView x allow_create m2 →
    (∀ key h a b r s u, x.calculateNearestNeighbour key m h a b r s u
      = x.calculateNearestNeighbour key m2 h a b r s u) ∧
    (∀ r, x.calculateVoxelSearchHalfExtents m r = x.calculateVoxelSearchHalfExtents m2 r) ∧
    (∀ k r, x.queryRegionKeys m k r = x.queryRegionKeys m2 k r) ∧
    (∀ p, x.regionKey m p = x.regionKey m2 p)

/-- A chunk the absent allocation gives has never had its occupancy layer touched: its
occupancy stamp is 0. -/
def Externals.FreshChunksUntouched (x : Externals F) : Prop :=
  ∀ k c, x.newChunk k = some c → c.touched_stamps kDlOccupancy = 0

/-- The absent region query around a region visits that region. -/
def Externals.QueryVisitsOwnRegion (x : Externals F) : Prop :=
  ∀ (m : OccupancyMap F) k r, k ∈ x.queryRegionKeys m k r

/-- The clearance value the CPU worker records for the voxel `key`: the nearest neighbour
result for the map `m`, the half extents `h` and the settings of the query. -/
def nearestNeighbourOf (x : Externals F) (query : ClearanceProcessDetail F) (m : OccupancyMap F)
    (h : IVec3) (key : OccupancyKey) : F :=
  x.calculateNearestNeighbour key m h ((query.query_flags &&& x.kQfUnknownAsOccupied) != 0)
    false query.search_radius query.axis_scaling
    ((query.query_flags &&& x.kQfReportUnscaledResults) != 0)

/-- The map after the CPU branch of `updateRegion` for a process detail `query`. -/
def cpuQueryMap (x : Externals F) (query : ClearanceProcessDetail F) (m : OccupancyMap F)
    (region_key : I16Vec3) : OccupancyMap F :=
  (x.queryRegionKeys m region_key query.search_radius).foldl
    (fun m k => (regionClearanceProcessCpu x m query k).1) m

/-- The map after `updateRegion(map, region_key, true)` on the CPU path. -/
def forcedCpuStep (x : Externals F) (query : ClearanceProcessDetail F) (m : OccupancyMap F)
    (region_key : I16Vec3) : OccupancyMap F :=
  match OccupancyMap.region x m region_key
    ((query.query_flags &&& x.kQfInstantiateUnknown) != 0) with
  | (none, _) => m
  | (some _, map) =>
    (cpuQueryMap x query map region_key).setTouchedStamp region_key kDlClearance
      (T_occ map region_key)

/-- The region `k` of `m`, when resident, carries the clearance stamp `T k`, and every
voxel of the grid `D` of every resident region among `Q k` holds the clearance value `G`
gives for its key. -/
def Recomputed (G : OccupancyKey → F) (T : I16Vec3 → Nat) (Q : I16Vec3 → List I16Vec3)
    (D : IVec3) (m : OccupancyMap F) (k : I16Vec3) : Prop :=
  ∀ c, m.chunks k = some c → c.touched_stamps kDlClearance = T k ∧
    ∀ k2 ∈ Q k, ∀ c2, m.chunks k2 = some c2 → ∀ l, inBlock ⟨0, 0, 0⟩ D l = true →
      c2.clearance l = G ⟨k2, l⟩

/-- The state of a forced CPU pass that started from a map with the process view of `M`
after the regions `L` have gone through `updateRegion`: the process view is still that of
`M`, every region of `L` is recomputed, and a region of `L` that is not resident is one
`OccupancyMap::region` gives no chunk for. -/
def PassInvariant (x : Externals F) (allow_create : Bool) (M : OccupancyMap F)
    (G : OccupancyKey → F) (T : I16Vec3 → Nat) (Q : I16Vec3 → List I16Vec3) (D : IVec3)
    (m : OccupancyMap F) (L : List I16Vec3) : Prop :=
  processView x allow_create m = processView x allow_create M ∧
    ∀ k ∈ L, Recomputed G T Q D m k ∧
      (m.chunks k = none → allow_create = false ∨ x.newChunk k = none)
/-- Externals of the tiling example: the nearest neighbour result of a voxel is its local
`x` coordinate plus the occupancy value of the voxel plus the search radius. -/
def exampleTileExternals : Externals Nat :=
  { exampleExternals with
    calculateNearestNeighbour := fun key m _ _ _ r _ _ =>
      match m.chunks key.region_key with
      | some c => key.local_key.x.toNat + c.occupancy key.local_key + r
      | none => 0 }

/-- A map of regions of `2 x 1 x 1` voxels with the single resident region `(0, 0, 0)`. -/
def exampleTileMap : OccupancyMap Nat where
  chunks := fun k => if k = i16vec3 0 0 0 then some (exampleChunk 1 0) else none
  region_voxel_dimensions := ⟨2, 1, 1⟩

/-- The two blocks `[1, 2) x [0, 1) x [0, 1)` and `[0, 1) x [0, 1) x [0, 1)` of the grid
of `exampleTileMap`. -/
def exampleTiles : List (IVec3 × IVec3) :=
  [(⟨1, 0, 0⟩, ⟨2, 1, 1⟩), (⟨0, 0, 0⟩, ⟨1, 1, 1⟩)]

/-- Externals of the allocation example: the region `(1, 0, 0)` can be allocated, with a
chunk of stamps 0, and the nearest neighbour result of a voxel is its local `x` coordinate
plus the search radius. -/
def exampleAllocExternals : Externals Nat :=
  { exampleExternals with
    newChunk := fun k => if k = i16vec3 1 0 0 then some (exampleChunk 0 0) else none
    calculateNearestNeighbour := fun key _ _ _ _ r _ _ => key.local_key.x.toNat + r }
/-! ## The search box of the CPU worker -/

/-- The value of the local `voxel_search_half_extents` of `regionClearanceProcessCpu`, the
half extents the block worker hands to `calculateNearestNeighbour`. -/
def voxelSearchHalfExtents (x : Externals F) (map : OccupancyMap F)
    (query : ClearanceProcessDetail F) : IVec3 :=
  x.calculateVoxelSearchHalfExtents map query.search_radius

/-- The half extent of the specification along one axis,
`ceil(search_radius / resolution / axis_scaling[a])`. -/
def specVoxelSearchHalfExtent (search_radius resolution axis_scale : Rat) : Int :=
  ⌈search_radius / resolution / axis_scale⌉

/-- A process detail over the rationals with the given search radius and axis scaling. -/
def exampleRatDetail (search_radius : Rat) (axis_scaling : Vec3 Rat) :
    ClearanceProcessDetail Rat where
  gpu_query := ⟨false, ⟨1, 1, 1⟩, 0, 0⟩
  axis_scaling := axis_scaling
  search_radius := search_radius
  query_flags := 0
  queue := []
  cursor := 0

/-- A nearest neighbour search that gives the search radius when it is handed the half
extents `(1, 1, 1)` and 0 for any other half extents. -/
def exampleUnitBoxSearch : OccupancyKey → OccupancyMap Nat → IVec3 → Bool → Bool → Nat →
    Vec3 Nat → Bool → Nat :=
  fun _ _ h _ _ r _ _ => if h = ⟨1, 1, 1⟩ then r else 0

/-! ## `probabilityToValue` (MapProbability.h) -/

/-- The function `probabilityToValue(probability)` over a field `R` with logarithm `log`
(`std::log`), in exact arithmetic. -/
def probabilityToValue {R : Type} [Field R] (log : R → R) (probability : R) : R :=
  log (probability / (1 - probability))

/-! ## `HeightmapDetail::updateAxis` (ohm/private/HeightmapDetail.h) -/

/-- The fields of `HeightmapDetail` that `updateAxis` reads or writes; `up_axis_id` holds
`int(up_axis_id)` and `V` is `glm::dvec3`. -/
structure HeightmapDetail (V : Type) where
  up : V
  up_axis_id : Int
  vertical_axis_index : Int

/-- The method `HeightmapDetail::updateAxis()`; `upAxisNormal` is the absent static method
of that name. -/
def HeightmapDetail.updateAxis {V : Type} (upAxisNormal : Int → V) (d : HeightmapDetail V) :
    HeightmapDetail V :=
  { d with
    up := upAxisNormal d.up_axis_id
    vertical_axis_index := if d.up_axis_id ≥ 0 then d.up_axis_id else -(d.up_axis_id + 1) }

/-! ## `PlyMesh::FileWrapper<std::ostream>::printf` (ohmutil/PlyMesh.cpp) -/

/-- The constant `kBufferSize` of `FileWrapper<std::ostream>`. -/
def kBufferSize : Nat := 1024

/-- Conversion of an `int` to `unsigned` (32 bit): the value modulo `2 ^ 32`. -/
def intToU32 (v : Int) : Nat := (v % 4294967296).toNat

/-- The index `std::min<unsigned>(written, kBufferSize)` at which `printf` stores the
terminating NUL, `written` being the value `vsnprintf` returned. -/
def printfTerminatorIndex (written : Int) : Nat :=
  min (intToU32 written) kBufferSize

/-- The text `out.printf("comment %s\n", comment.c_str())` of `PlyMesh::save` formats for a
comment. -/
def commentLine (comment : String) : String :=
  "comment " ++ comment ++ "\n"

/-! ## `PlyMesh` (ohmutil/PlyMesh.cpp) -/

/-- A vertex record of the mesh, `PlyMesh::Vertex`: `V` is the vertex type and `C` the
colour type. -/
structure PlyVertex (V C : Type) where
  point : V
  colour : C

/-- An edge record, `PlyMesh::Edge`. -/
structure PlyEdge (C : Type) where
  v0 : Nat
  v1 : Nat
  colour : C

/-- A triangle record, `PlyMesh::Tri`. -/
structure PlyTri (C : Type) where
  v0 : Nat
  v1 : Nat
  v2 : Nat
  colour : C

/-- A polygon record, `PlyMesh::Poly`. -/
structure Poly (C : Type) where
  indices_start : Nat
  order : Nat
  colour : C

/-- The data members of `PlyMesh`; `index_mapper_` is null (`none`) or holds the pairs of
the `std::unordered_map`. -/
structure PlyMesh (V C : Type) where
  vertices_ : List (PlyVertex V C)
  normals_ : List V
  edges_ : List (PlyEdge C)
  triangles_ : List (PlyTri C)
  polygons_ : List (Poly C)
  polygon_indices_ : List Nat
  comments_ : List String
  index_mapper_ : Option (List (Nat × Nat))
  vertex_colours_ : Bool
  edge_colours_ : Bool
  face_colours_ : Bool

/-- The method `PlyMesh::clear()`. -/
def PlyMesh.clear {V C : Type} (m : PlyMesh V C) : PlyMesh V C :=
  { m with
    index_mapper_ := none
    vertices_ := []
    edges_ := []
    triangles_ := []
    vertex_colours_ := false
    edge_colours_ := false
    face_colours_ := false }

/-- The method `PlyMesh::addVerticesT(verts, count, colours)` and with it both overloads of
`addVertices`: `verts` and `colours` are the arrays the pointers refer to, `colours` null
(`none`) or an array; `kWhite` is `Colour::kColours[Colour::kWhite]`. The result is the
returned index and the mesh. -/
def PlyMesh.addVerticesT {V C : Type} (kWhite : C) (m : PlyMesh V C) (verts : Nat → V)
    (count : Nat) (colours : Option (Nat → C)) : Nat × PlyMesh V C :=
  (toU32 m.vertices_.length,
    (List.range count).foldl (fun m i =>
      match colours with
      | some cs =>
        { m with vertex_colours_ := true, vertices_ := m.vertices_ ++ [⟨verts i, cs i⟩] }
      | none => { m with vertices_ := m.vertices_ ++ [⟨verts i, kWhite⟩] }) m)

/-- The method `PlyMesh::addPolygon(indices, order, colour)`, the index overload. -/
def PlyMesh.addPolygon {V C : Type} [DecidableEq C] (kWhite : C) (m : PlyMesh V C)
    (indices : Nat → Nat) (order : Nat) (colour : C) : PlyMesh V C :=
  if order = 0 then m
  else
    let poly : Poly C := ⟨m.polygon_indices_.length, order, colour⟩
    let m1 := (List.range order).foldl (fun m i =>
      { m with polygon_indices_ := m.polygon_indices_ ++ [indices i] }) m
    { m1 with
      face_colours_ := m1.face_colours_ || decide (colour ≠ kWhite)
      polygons_ := m1.polygons_ ++ [poly] }

/-- The method `PlyMesh::addPolygonT(verts, order, colour)` and with it the two vertex
overloads of `addPolygon`. -/
def PlyMesh.addPolygonT {V C : Type} [DecidableEq C] (kWhite : C) (m : PlyMesh V C)
    (verts : Nat → V) (order : Nat) (colour : C) : PlyMesh V C :=
  if order = 0 then m
  else
    let poly : Poly C := ⟨m.polygon_indices_.length, order, colour⟩
    let index_offset := toU32 m.vertices_.length
    let m0 := (PlyMesh.addVerticesT kWhite m verts order none).2
    let m1 := (List.range order).foldl (fun m i =>
      { m with polygon_indices_ := m.polygon_indices_ ++ [toU32 (index_offset + i)] }) m0
    { m1 with
      face_colours_ := m1.face_colours_ || decide (colour ≠ kWhite)
      polygons_ := m1.polygons_ ++ [poly] }

/-- The lookup `index_mapper_->find(id)` of the `std::unordered_map`. -/
def indexMapperFind (mapper : List (Nat × Nat)) (id : Nat) : Option Nat :=
  (mapper.find? fun p => p.1 == id).map fun p => p.2

/-- The body of the loop of `PlyMesh::addMappedPolygonT` for the index `i`; `addVertex` is
the method of that name, declared in the absent PlyMesh.h. -/
def PlyMesh.addMappedPolygonStep {V C : Type} (addVertex : PlyMesh V C → V → PlyMesh V C)
    (verts : Nat → V) (vert_ids : Nat → Nat) (m : PlyMesh V C) (i : Nat) : PlyMesh V C :=
  match indexMapperFind (m.index_mapper_.getD []) (vert_ids i) with
  | none =>
    addVertex
      { m with polygon_indices_ := m.polygon_indices_ ++ [toU32 m.vertices_.length] }
      (verts i)
  | some second => { m with polygon_indices_ := m.polygon_indices_ ++ [second] }

/-- The method `PlyMesh::addMappedPolygonT(verts, vert_ids, order, colour)` and with it both
overloads of `addMappedPolygon`; `colour` is null (`none`) or points to a colour and
`kDefaultColour` is `Colour(kDefaultColour)`. -/
def PlyMesh.addMappedPolygonT {V C : Type} (kDefaultColour : C)
    (addVertex : PlyMesh V C → V → PlyMesh V C) (m : PlyMesh V C) (verts : Nat → V)
    (vert_ids : Nat → Nat) (order : Nat) (colour : Option C) : PlyMesh V C :=
  let m0 : PlyMesh V C :=
    match m.index_mapper_ with
    | none => { m with index_mapper_ := some [] }
    | some _ => m
  let poly : Poly C := ⟨m0.polygon_indices_.length, 0, colour.getD kDefaultColour⟩
  let m1 : PlyMesh V C := { m0 with face_colours_ := m0.face_colours_ || colour.isSome }
  let m2 := (List.range order).foldl (PlyMesh.addMappedPolygonStep addVertex verts vert_ids) m1
  { m2 with polygons_ := m2.polygons_ ++ [poly] }

/-- What the loop "Write non triangle faces" of `PlyMesh::save` writes for the polygon record
`poly` in ASCII mode before the colour: the vertex count printed with `"%u"` and the
indices printed with `" %u"`. -/
def savePolygonAscii {V C : Type} (m : PlyMesh V C) (poly : Poly C) : Nat × List Nat :=
  (poly.order,
    (List.range poly.order).map fun j => m.polygon_indices_.getD (poly.indices_start + j) 0)

/-- What the loop "Write non triangle faces" of `PlyMesh::save` writes for the polygon record
`poly` in binary mode before the colour: the byte `vc = poly.order` and `poly.order` entries
of the index list from `indices_start` on. -/
def savePolygonBinary {V C : Type} (m : PlyMesh V C) (poly : Poly C) : Nat × List Nat :=
  (poly.order % 256, (m.polygon_indices_.drop poly.indices_start).take poly.order)

/-- The frame of the absent `addVertex` that the polygon functions rely on: it changes
neither the polygon records nor the polygon index list. -/
def AddVertexKeepsPolygons {V C : Type} (addVertex : PlyMesh V C → V → PlyMesh V C) : Prop :=
  ∀ m v, (addVertex m v).polygons_ = m.polygons_ ∧
    (addVertex m v).polygon_indices_ = m.polygon_indices_

/-- A mesh with two vertices, one normal, one polygon record over three indices and one
comment. -/
def exampleMesh : PlyMesh Nat Nat where
  vertices_ := [⟨10, 0⟩, ⟨11, 0⟩]
  normals_ := [7]
  edges_ := [⟨0, 1, 0⟩]
  triangles_ := [⟨0, 1, 1, 0⟩]
  polygons_ := [⟨0, 3, 0⟩]
  polygon_indices_ := [0, 1, 0]
  comments_ := ["made by hand"]
  index_mapper_ := some []
  vertex_colours_ := true
  edge_colours_ := true
  face_colours_ := true

/-- The method `addVertex` as a call of `addVertices` with one vertex and no colour. -/
def exampleAddVertex (m : PlyMesh Nat Nat) (v : Nat) : PlyMesh Nat Nat :=
  (PlyMesh.addVerticesT 0 m (fun _ => v) 1 none).2
/-! ## Export modes of `ohm2ply` (utils/ohm2ply/ohm2ply.cpp) -/

/-- The enumeration `ExportMode`. -/
inductive ExportMode where
  | kExportOccupancy
  | kExportOccupancyCentre
  | kExportClearance
  | kExportHeightmap
  | kExportHeightmapMesh
  | kExportCovariance
deriving DecidableEq

/-- The six values of `ExportMode`. -/
def exportModes : List ExportMode :=
  [.kExportOccupancy, .kExportOccupancyCentre, .kExportClearance, .kExportHeightmap,
    .kExportHeightmapMesh, .kExportCovariance]

/-- The word `operator<<(std::ostream &, ExportMode)` writes to the stream. -/
def exportModeWord (mode : ExportMode) : String :=
  match mode with
  | .kExportOccupancy => "occupancy"
  | .kExportOccupancyCentre => "occupancy-centre"
  | .kExportClearance => "clearance"
  | .kExportHeightmap => "heightmap"
  | .kExportHeightmapMesh => "heightmap-mesh"
  | .kExportCovariance => "covariance"

/-- The white space characters of `std::isspace` in the "C" locale: the space and the
characters 9 to 13 (tab, line feed, vertical tab, form feed, carriage return). -/
def isSpace (c : Char) : Bool :=
  c.toNat == 32 || (decide (9 ≤ c.toNat) && decide (c.toNat ≤ 13))

/-- The extraction `in >> mode_str` of a `std::string`: leading white space is skipped and
the characters up to the next white space (or the end of the input) are the word. -/
def extractWord (input : String) : String :=
  String.mk ((input.toList.dropWhile isSpace).takeWhile fun c => !isSpace c)

/-- The function `operator>>(std::istream &, ExportMode &)`: the value of `mode` on return,
for the text `input` in the stream and the value `mode` on entry. -/
def exportModeExtract (input : String) (mode : ExportMode) : ExportMode :=
  let mode_str := extractWord input
  if mode_str = "occupancy" then .kExportOccupancy
  else if mode_str = "occupancy-centre" then .kExportOccupancyCentre
  else if mode_str = "clearance" then .kExportClearance
  else if mode_str = "heightmap" then .kExportHeightmap
  else if mode_str = "heightmap-mesh" then .kExportHeightmapMesh
  else if mode_str = "covariance" then .kExportCovariance
  else mode

/-- The mode names between the brackets of the help text of `--mode` in `parseOptions`,
each with the mode it names. -/
def modeHelpNames : List (String × ExportMode) :=
  [("occupancy", .kExportOccupancy), ("occupancy-centre", .kExportOccupancyCentre),
    ("clearance", .kExportClearance), ("heightmap", .kExportHeightmap),
    ("heightmap-mesh", .kExportHeightmapMesh)]
/-! ## The visiting order of `calculateForExtents` -/

/-- The key `a` comes before the key `b` in the order of the loops of `calculateForExtents`:
`z` outermost, then `y`, `x` innermost, each ascending. -/
def visitedBefore (a b : I16Vec3) : Prop :=
  a.z.val < b.z.val ∨ (a.z = b.z ∧ (a.y.val < b.y.val ∨ (a.y = b.y ∧ a.x.val < b.x.val)))
/-! ## The flood fill step (ohm/ClearanceProcess.cpp) -/

/-- Code called by `regionFloodFillStepCpuBlock` that is outside the translated sources. -/
structure FloodFillExternals (F : Type) where
  /-- The method `OccupancyMap::moveKey(key, x, y, z)`: the key moved by the given numbers
  of voxels. -/
  moveKey : OccupancyMap F → OccupancyKey → Int → Int → Int → OccupancyKey
  /-- The method `OccupancyMap::node(key)`: the chunk the voxel accessor of the key points
  into, `none` for a null accessor; the lookup leaves the map as it is. -/
  node : OccupancyMap F → OccupancyKey → Option (MapChunk F)
  /-- The value `glm::length(glm::vec3(nx, ny, nz))`. -/
  length : Int → Int → Int → F

/-- The method `clearance()` of a voxel accessor into `chunk` at `key`; the read through a
null accessor, which the callers guard against, is given the value 0. -/
def OccupancyNode.clearance [Zero F] (chunk : Option (MapChunk F)) (key : OccupancyKey) : F :=
  match chunk with
  | some c => c.clearance key.local_key
  | none => 0

/-- The body of the innermost loop of `regionFloodFillStepCpuBlock` for the neighbour offset
`(nx, ny, nz)` of the voxel `node_key`, whose range `node_range` was read before the
loops. -/
def regionFloodFillStepCpuNeighbour [LinearOrderedRing F] (x : FloodFillExternals F)
    (node_key : OccupancyKey) (node_range : F) (map : OccupancyMap F) (nx ny nz : Int) :
    OccupancyMap F :=
  if nx ≠ 0 ∨ ny ≠ 0 ∨ nz ≠ 0 then
    let neighbour_key := x.moveKey map node_key nx ny nz
    let neighbour := x.node map neighbour_key
    if !OccupancyNode.isNull neighbour then
      let neighbour_range : F :=
        if OccupancyNode.isNull neighbour then OccupancyNode.clearance neighbour neighbour_key
        else -1
      if neighbour_range ≥ 0 then
        let neighbour_range := neighbour_range + x.length nx ny nz
        if neighbour_range < node_range then map.setClearance node_key neighbour_range
        else map
      else map
    else map
  else map

/-- The body of the voxel loops of `regionFloodFillStepCpuBlock` for one voxel: the range
of the voxel is read through the chunk pointer, that is from the chunk of the region in the
map as it is now (from `chunk` when the map holds no such chunk), and the 26 neighbours are
looked at, `nz` outermost and `nx` innermost. -/
def regionFloodFillStepCpuVoxel [LinearOrderedRing F] (x : FloodFillExternals F)
    (chunk : Option (MapChunk F)) (map : OccupancyMap F) (node_key : OccupancyKey) :
    OccupancyMap F :=
  if !OccupancyNode.isNull chunk then
    let node_range : F :=
      OccupancyNode.clearance ((map.findRegion node_key.region_key).orElse fun _ => chunk)
        node_key
    neighbourOffsets.foldl (fun map nz =>
      neighbourOffsets.foldl (fun map ny =>
        neighbourOffsets.foldl (fun map nx =>
          regionFloodFillStepCpuNeighbour x node_key node_range map nx ny nz) map) map) map
  else map

/-- The function `regionFloodFillStepCpuBlock`: the voxels of the block
`[block_start, block_end)` of the region, `z` outermost and `x` innermost. The query and the
search half extents are parameters the function does not name. -/
def regionFloodFillStepCpuBlock [LinearOrderedRing F] (x : FloodFillExternals F)
    (map : OccupancyMap F) (_ : ClearanceProcessDetail F) (block_start block_end : IVec3)
    (region_key : I16Vec3) (chunk : Option (MapChunk F)) (_ : IVec3) : OccupancyMap F :=
  let node_key := OccupancyKey.null.setRegionKey region_key
  (intRange block_start.z block_end.z).foldl (fun map z =>
    let node_key := node_key.setLocalAxis 2 z
    (intRange block_start.y block_end.y).foldl (fun map y =>
      let node_key := node_key.setLocalAxis 1 y
      (intRange block_start.x block_end.x).foldl (fun map xv =>
        let node_key := node_key.setLocalAxis 0 xv
        regionFloodFillStepCpuVoxel x chunk map node_key) map) map) map
/-! ## `ohmgen::fillWithValue` (ohmtools/OhmGen.cpp) -/

/-- How a run ends, with the state reached: the function returned, threw
`std::logic_error`, stopped at a failed `assert`, or was cut off by the fuel of the model. -/
inductive Outcome (S : Type) where
  | done (s : S)
  | threw (s : S)
  | assertFailed (s : S)
  | outOfFuel (s : S)

/-- The state a run ended in. -/
def Outcome.state {S : Type} : Outcome S → S
  | .done s => s
  | .threw s => s
  | .assertFailed s => s
  | .outOfFuel s => s

/-- The run ended in a throw. -/
def Outcome.isThrow {S : Type} : Outcome S → Bool
  | .threw _ => true
  | _ => false

/-- The run got through the body of every pass it started: it returned or was cut off by
the fuel between two passes. -/
def Outcome.isRunning {S : Type} : Outcome S → Bool
  | .done _ => true
  | .outOfFuel _ => true
  | _ => false

/-- A loop `for (; cond; incr) body` on the state `S`, cut off after `fuel` passes. -/
def forLoop {S : Type} (cond : S → Bool) (incr : S → S) (body : S → Outcome S) :
    Nat → S → Outcome S
  | 0, s => if cond s then .outOfFuel s else .done s
  | fuel + 1, s =>
    if cond s then
      match body s with
      | .done s2 => forLoop cond incr body fuel (incr s2)
      | o => o
    else .done s

/-- Code called by OhmGen.cpp that is outside the translated sources, over a map type `M`,
the key type `K` (`ohm::Key`) and the float type `F`. -/
structure OhmGenExternals (M K F : Type) where
  /-- The method `Voxel<float>::isLayerValid()` of the voxel built for the occupancy layer of
  the map. -/
  isLayerValid : M → Bool
  /-- The method `key.isBoundedX(min_key, max_key)`. -/
  isBoundedX : K → K → K → Bool
  /-- The method `key.isBoundedY(min_key, max_key)`. -/
  isBoundedY : K → K → K → Bool
  /-- The method `key.isBoundedZ(min_key, max_key)`. -/
  isBoundedZ : K → K → K → Bool
  /-- The method `map.moveKeyAlongAxis(key, axis, step)`: the moved key. -/
  moveKeyAlongAxis : M → K → Nat → Int → K
  /-- The method `map.moveKey(key, x, y, z)`: the moved key. -/
  moveKey : M → K → Int → Int → Int → K
  /-- The component `key.regionKey()[axis]`. -/
  regionKey : K → Nat → Int
  /-- The component `key.localKey()[axis]`. -/
  localKey : K → Nat → Int
  /-- The method `key.setRegionAxis(axis, value)`. -/
  setRegionAxis : K → Nat → Int → K
  /-- The method `key.setLocalAxis(axis, value)`. -/
  setLocalAxis : K → Nat → Int → K
  /-- The key `ohm::Key(0, 0, 0, 0, 0, 0)`. -/
  keyZero : K
  /-- The map after `voxel.setKey(key)`. -/
  voxelSetKey : M → K → M
  /-- The method `voxel.isValid()` of the voxel at the key. -/
  voxelIsValid : M → K → Bool
  /-- The map after `voxel.write(value)` for the voxel at the key. -/
  voxelWrite : M → K → F → M
  /-- The value `ohm::unobservedOccupancyValue()`. -/
  unobservedOccupancyValue : F
  /-- The comparison `a != b` of two floats. -/
  floatNe : F → F → Bool
  /-- The value `map.missValue()`. -/
  missValue : M → F
  /-- Whether `assert` is compiled in (`NDEBUG` not defined). -/
  assertEnabled : Bool

/-- The state of the loops of `fillWithValue`: the variable `key`, the map, and the keys the
voxel has been set to so far (ghost state). -/
structure FillState (M K : Type) where
  key : K
  map : M
  visited : List K

/-- The body of the innermost loop of `fillWithValue`; `expect_value` is null (`none`) or
points to a value. -/
def fillWithValueVoxel {M K F : Type} (x : OhmGenExternals M K F) (fill_value : F)
    (expect_value : Option F) (s : FillState M K) : Outcome (FillState M K) :=
  let s1 : FillState M K :=
    { s with map := x.voxelSetKey s.map s.key, visited := s.visited ++ [s.key] }
  let initial_value := x.unobservedOccupancyValue
  let mismatch : Bool :=
    match expect_value with
    | some e => x.floatNe initial_value e
    | none => false
  if mismatch then .threw s1
  else if x.assertEnabled && !x.voxelIsValid s1.map s1.key then .assertFailed s1
  else .done { s1 with map := x.voxelWrite s1.map s1.key fill_value }

/-- The two statements at the head of the `y` and `z` loop bodies of `fillWithValue`:
`key.setRegionAxis(axis, min_key.regionKey()[axis])` and
`key.setLocalAxis(axis, min_key.localKey()[axis])`. -/
def resetKeyAxis {M K F : Type} (x : OhmGenExternals M K F) (min_key : K) (axis : Nat)
    (key : K) : K :=
  x.setLocalAxis (x.setRegionAxis key axis (x.regionKey min_key axis)) axis
    (x.localKey min_key axis)

/-- The loop over `x` of `fillWithValue`. -/
def fillWithValueX {M K F : Type} (x : OhmGenExternals M K F) (min_key max_key : K)
    (fill_value : F) (expect_value : Option F) (step : Int) (fuel : Nat)
    (s : FillState M K) : Outcome (FillState M K) :=
  forLoop (fun s => x.isBoundedX s.key min_key max_key)
    (fun s => { s with key := x.moveKeyAlongAxis s.map s.key 0 step })
    (fillWithValueVoxel x fill_value expect_value) fuel s

/-- The loop over `y` of `fillWithValue`. -/
def fillWithValueY {M K F : Type} (x : OhmGenExternals M K F) (min_key max_key : K)
    (fill_value : F) (expect_value : Option F) (step : Int) (fuel : Nat)
    (s : FillState M K) : Outcome (FillState M K) :=
  forLoop (fun s => x.isBoundedY s.key min_key max_key)
    (fun s => { s with key := x.moveKeyAlongAxis s.map s.key 1 step })
    (fun s => fillWithValueX x min_key max_key fill_value expect_value step fuel
      { s with key := resetKeyAxis x min_key 0 s.key }) fuel s

/-- The loop over `z` of `fillWithValue`. -/
def fillWithValueZ {M K F : Type} (x : OhmGenExternals M K F) (min_key max_key : K)
    (fill_value : F) (expect_value : Option F) (step : Int) (fuel : Nat)
    (s : FillState M K) : Outcome (FillState M K) :=
  forLoop (fun s => x.isBoundedZ s.key min_key max_key)
    (fun s => { s with key := x.moveKeyAlongAxis s.map s.key 2 step })
    (fun s => fillWithValueY x min_key max_key fill_value expect_value step fuel
      { s with key := resetKeyAxis x min_key 1 s.key }) fuel s

/-- The function `ohmgen::fillWithValue(map, min_key, max_key, fill_value, expect_value,
step)`; every loop is cut off after `fuel` passes. -/
def fillWithValue {M K F : Type} (x : OhmGenExternals M K F) (map : M) (min_key max_key : K)
    (fill_value : F) (expect_value : Option F) (step : Int) (fuel : Nat) :
    Outcome (FillState M K) :=
  if !x.isLayerValid map then .done ⟨min_key, map, []⟩
  else fillWithValueZ x min_key max_key fill_value expect_value step fuel ⟨min_key, map, []⟩

/-- The function `ohmgen::fillMapWithEmptySpace(map, x1, y1, z1, x2, y2, z2,
expect_empty_map)`. -/
def fillMapWithEmptySpace {M K F : Type} (x : OhmGenExternals M K F) (map : M)
    (x1 y1 z1 x2 y2 z2 : Int) (expect_empty_map : Bool) (fuel : Nat) :
    Outcome (FillState M K) :=
  let expect_initial_value := x.unobservedOccupancyValue
  let expect_value_ptr : Option F := if expect_empty_map then some expect_initial_value else none
  let min_key := x.moveKey map x.keyZero x1 y1 z1
  let max_key := x.moveKey map x.keyZero (x2 - 1) (y2 - 1) (z2 - 1)
  fillWithValue x map min_key max_key (x.missValue map) expect_value_ptr 1 fuel

/-- The map after the voxels at `keys` have been set, in order, to `value`. -/
def writeAll {M K F : Type} (x : OhmGenExternals M K F) (value : F) (map : M)
    (keys : List K) : M :=
  keys.foldl (fun m k => x.voxelWrite (x.voxelSetKey m k) k value) map

/-- Externals of the fill example: keys are integer triples `(x, y, z)`, a map gives every
key its value, the unobserved value is 100 and the miss value 7. -/
def exampleGenExternals : OhmGenExternals (Int × Int × Int → Nat) (Int × Int × Int) Nat where
  isLayerValid := fun _ => true
  isBoundedX := fun k mn mx => decide (mn.1 ≤ k.1 ∧ k.1 ≤ mx.1)
  isBoundedY := fun k mn mx => decide (mn.2.1 ≤ k.2.1 ∧ k.2.1 ≤ mx.2.1)
  isBoundedZ := fun k mn mx => decide (mn.2.2 ≤ k.2.2 ∧ k.2.2 ≤ mx.2.2)
  moveKeyAlongAxis := fun _ k axis step =>
    if axis = 0 then (k.1 + step, k.2.1, k.2.2)
    else if axis = 1 then (k.1, k.2.1 + step, k.2.2)
    else (k.1, k.2.1, k.2.2 + step)
  moveKey := fun _ k dx dy dz => (k.1 + dx, k.2.1 + dy, k.2.2 + dz)
  regionKey := fun _ _ => 0
  localKey := fun k axis => if axis = 0 then k.1 else if axis = 1 then k.2.1 else k.2.2
  setRegionAxis := fun k _ _ => k
  setLocalAxis := fun k axis v =>
    if axis = 0 then (v, k.2.1, k.2.2) else if axis = 1 then (k.1, v, k.2.2) else (k.1, k.2.1, v)
  keyZero := (0, 0, 0)
  voxelSetKey := fun m _ => m
  voxelIsValid := fun _ _ => true
  voxelWrite := fun m k v => fun k2 => if k2 = k then v else m k2
  unobservedOccupancyValue := 100
  floatNe := fun a b => a != b
  missValue := fun _ => 7
  assertEnabled := true

/-! ## Lemmas on the neighbourhood stamp -/

/-- The region keys the neighbourhood loops of `updateRegion` look up, in loop order. -/
def loopKeys (r : I16Vec3) : List I16Vec3 :=
  (neighbourOffsets26.take 13).map (fun o => r.offset o.1 o.2.1 o.2.2) ++
    r.offset 0 0 0 :: (neighbourOffsets26.drop 13).map (fun o => r.offset o.1 o.2.1 o.2.2)

theorem toI16_val (v : I16) : toI16 (v.val + 0) = v := by
  apply Subtype.ext
  have h := v.property
  simp only [toI16]
  omega

theorem offset_zero (r : I16Vec3) : r.offset 0 0 0 = r := by
  cases r
  simp only [I16Vec3.offset, toI16_val]

/-- Away from the ends of the `int16_t` range the neighbour keys are the plain offsets. -/
theorem offset_val_of_interior (r : I16Vec3) (dx dy dz : Int)
    (hd : (-1 ≤ dx ∧ dx ≤ 1) ∧ (-1 ≤ dy ∧ dy ≤ 1) ∧ (-1 ≤ dz ∧ dz ≤ 1))
    (hr : (-32768 < r.x.val ∧ r.x.val < 32767) ∧ (-32768 < r.y.val ∧ r.y.val < 32767) ∧
      (-32768 < r.z.val ∧ r.z.val < 32767)) :
    (r.offset dx dy dz).x.val = r.x.val + dx ∧ (r.offset dx dy dz).y.val = r.y.val + dy ∧
      (r.offset dx dy dz).z.val = r.z.val + dz := by
  simp only [I16Vec3.offset, toI16]
  omega

theorem region_lookup (x : Externals F) (map : OccupancyMap F) (k : I16Vec3) :
    OccupancyMap.region x map k false = (map.chunks k, map) := by
  unfold OccupancyMap.region OccupancyMap.findRegion
  cases h : map.chunks k <;> simp

theorem region_resident (x : Externals F) (map : OccupancyMap F) (k : I16Vec3) (b : Bool)
    (c : MapChunk F) (h : map.chunks k = some c) :
    OccupancyMap.region x map k b = (some c, map) := by
  unfold OccupancyMap.region OccupancyMap.findRegion
  simp [h]

theorem foldl_stamp (map : OccupancyMap F) (ks : List I16Vec3) (init : Nat) :
    ks.foldl (fun target k =>
        match map.chunks k with
        | some neighbour => max target (neighbour.touched_stamps kDlOccupancy)
        | none => target) init
      = max init ((residentOccupancyStamps map ks).foldr max 0) := by
  induction ks generalizing init with
  | nil => simp [residentOccupancyStamps]
  | cons k ks ih =>
    rw [List.foldl_cons, ih]
    cases h : map.chunks k with
    | none => simp [residentOccupancyStamps, h]
    | some c =>
      simp only [residentOccupancyStamps, List.filterMap_cons, h, Option.map_some',
        List.foldr_cons]
      rw [max_assoc]

theorem targetUpdateStamp_eq_foldl (x : Externals F) (map : OccupancyMap F) (r : I16Vec3)
    (init : Nat) :
    targetUpdateStamp x map r init =
      (loopKeys r).foldl (fun target k =>
        match map.chunks k with
        | some neighbour => max target (neighbour.touched_stamps kDlOccupancy)
        | none => target) init := by
  simp only [targetUpdateStamp, region_lookup]
  rfl

theorem loopKeys_perm (r : I16Vec3) : List.Perm (loopKeys r) (r :: neighbourKeys r) := by
  have h : neighbourKeys r =
      (neighbourOffsets26.take 13).map (fun o => r.offset o.1 o.2.1 o.2.2) ++
        (neighbourOffsets26.drop 13).map (fun o => r.offset o.1 o.2.1 o.2.2) := by
    rw [← List.map_append, List.take_append_drop]
    rfl
  rw [loopKeys, h, offset_zero]
  exact List.perm_middle

theorem foldr_max_perm {l1 l2 : List Nat} (h : List.Perm l1 l2) :
    l1.foldr max 0 = l2.foldr max 0 := by
  induction h with
  | nil => rfl
  | cons a _ ih => simp only [List.foldr_cons, ih]
  | swap a b l => simp only [List.foldr_cons]; omega
  | trans _ _ ih1 ih2 => exact ih1.trans ih2

/-- The stamp the loops of `updateRegion` compute for a resident region is `T_occ`. -/
theorem targetUpdateStamp_eq_T_occ (x : Externals F) (map : OccupancyMap F) (r : I16Vec3)
    (c : MapChunk F) (h : map.chunks r = some c) :
    targetUpdateStamp x map r (c.touched_stamps kDlOccupancy) = T_occ map r := by
  rw [targetUpdateStamp_eq_foldl, foldl_stamp]
  have hp : (residentOccupancyStamps map (loopKeys r)).foldr max 0 = T_occ map r :=
    foldr_max_perm ((loopKeys_perm r).filterMap _)
  rw [hp]
  simp only [T_occ, residentOccupancyStamps, List.filterMap_cons, h, Option.map_some',
    List.foldr_cons]
  omega

/-! ## Frame lemmas for the workers -/

theorem foldl_keeps {α β γ : Type} (g : α → γ) (f : α → β → α)
    (h : ∀ a b, g (f a b) = g a) (l : List β) (a : α) : g (l.foldl f a) = g a := by
  induction l generalizing a with
  | nil => rfl
  | cons b l ih => rw [List.foldl_cons, ih, h]

theorem setClearance_touchStamps (map : OccupancyMap F) (key : OccupancyKey) (v : F) :
    touchStamps (map.setClearance key v) = touchStamps map := by
  funext k
  simp only [touchStamps, OccupancyMap.setClearance]
  split
  · cases map.chunks k <;> rfl
  · rfl

theorem regionClearanceProcessCpuVoxel_touchStamps (x : Externals F)
    (query : ClearanceProcessDetail F) (chunk : Option (MapChunk F)) (h : IVec3)
    (map : OccupancyMap F) (key : OccupancyKey) :
    touchStamps (regionClearanceProcessCpuVoxel x query chunk h map key) = touchStamps map := by
  unfold regionClearanceProcessCpuVoxel
  split
  · exact setClearance_touchStamps _ _ _
  · rfl

theorem regionClearanceProcessCpuBlock_touchStamps (x : Externals F) (map : OccupancyMap F)
    (query : ClearanceProcessDetail F) (bs be : IVec3) (r : I16Vec3)
    (chunk : Option (MapChunk F)) (h : IVec3) :
    touchStamps (regionClearanceProcessCpuBlock x map query bs be r chunk h) = touchStamps map := by
  unfold regionClearanceProcessCpuBlock
  apply foldl_keeps touchStamps
  intro m z
  apply foldl_keeps touchStamps
  intro m y
  apply foldl_keeps touchStamps
  intro m xv
  exact regionClearanceProcessCpuVoxel_touchStamps _ _ _ _ _ _

theorem regionClearanceProcessCpu_touchStamps (x : Externals F) (map : OccupancyMap F)
    (query : ClearanceProcessDetail F) (r : I16Vec3) :
    touchStamps (regionClearanceProcessCpu x map query r).1 = touchStamps map := by
  unfold regionClearanceProcessCpu
  split
  · rfl
  · exact regionClearanceProcessCpuBlock_touchStamps _ _ _ _ _ _ _ _

theorem occupancyQueryRegions_touchStamps (x : Externals F) (w : World F) (r : I16Vec3) :
    touchStamps (occupancyQueryRegions x w r (regionClearanceProcessCpu x)).map
      = touchStamps w.map := by
  unfold occupancyQueryRegions
  generalize x.queryRegionKeys w.map r w.imp.search_radius = ks
  induction ks generalizing w with
  | nil => rfl
  | cons k ks ih =>
    rw [List.foldl_cons, ih]
    exact regionClearanceProcessCpu_touchStamps _ _ _ _

theorem occupancyQueryRegions_imp_calls (x : Externals F) (w : World F) (r : I16Vec3) :
    (occupancyQueryRegions x w r (regionClearanceProcessCpu x)).imp = w.imp ∧
      (occupancyQueryRegions x w r (regionClearanceProcessCpu x)).calls = w.calls := by
  unfold occupancyQueryRegions
  generalize x.queryRegionKeys w.map r w.imp.search_radius = ks
  induction ks generalizing w with
  | nil => exact ⟨rfl, rfl⟩
  | cons k ks ih =>
    rw [List.foldl_cons]
    exact ih _

theorem updateRegionCpu_touchStamps (x : Externals F) (w : World F) (r : I16Vec3) :
    touchStamps (updateRegionCpu x w r).map = touchStamps w.map := by
  unfold updateRegionCpu
  rw [occupancyQueryRegions_touchStamps]
  split <;> rfl

theorem updateRegionCpu_imp_calls (x : Externals F) (w : World F) (r : I16Vec3) :
    (updateRegionCpu x w r).imp = w.imp ∧ (updateRegionCpu x w r).calls = w.calls := by
  unfold updateRegionCpu
  have h := occupancyQueryRegions_imp_calls x
    { (if (w.imp.query_flags &&& x.kQfGpuEvaluate) != 0 then
          { w with events := w.events ++ [Event.cerrGpuUnavailable] }
        else w : World F) with
      events := (if (w.imp.query_flags &&& x.kQfGpuEvaluate) != 0 then
          { w with events := w.events ++ [Event.cerrGpuUnavailable] }
        else w : World F).events ++ [Event.occupancyQueryRegions r] } r
  refine ⟨h.1.trans ?_, h.2.trans ?_⟩ <;> split <;> rfl

/-- The recomputation changes the working set, the configuration and the call trace in
nothing but the settings of the GPU query. -/
theorem updateRegionWork_frame (x : Externals F) (w : World F) (r : I16Vec3) :
    (updateRegionWork x w r).imp.queue = w.imp.queue ∧
      (updateRegionWork x w r).imp.cursor = w.imp.cursor ∧
      (updateRegionWork x w r).imp.query_flags = w.imp.query_flags ∧
      (updateRegionWork x w r).calls = w.calls := by
  unfold updateRegionWork
  split
  · exact ⟨rfl, rfl, rfl, rfl⟩
  · have h := updateRegionCpu_imp_calls x w r
    rw [h.1, h.2]
    exact ⟨rfl, rfl, rfl, rfl⟩

theorem stampsLe_of_touchStamps {m m2 : OccupancyMap F} (h : touchStamps m2 = touchStamps m) :
    StampsLe m m2 := by
  intro k c hc
  have hk := congrFun h k
  simp only [touchStamps, hc, Option.map_some'] at hk
  cases h2 : m2.chunks k with
  | none => simp [h2] at hk
  | some c2 =>
    simp only [h2, Option.map_some', Option.some.injEq] at hk
    exact ⟨c2, rfl, fun l => by rw [hk]⟩

theorem stampsLe_refl (m : OccupancyMap F) : StampsLe m m :=
  fun _ c hc => ⟨c, hc, fun _ => le_refl _⟩

theorem stampsLe_trans {m1 m2 m3 : OccupancyMap F} (h12 : StampsLe m1 m2)
    (h23 : StampsLe m2 m3) : StampsLe m1 m3 := by
  intro k c hc
  obtain ⟨c2, hc2, hle2⟩ := h12 k c hc
  obtain ⟨c3, hc3, hle3⟩ := h23 k c2 hc2
  exact ⟨c3, hc3, fun l => le_trans (hle2 l) (hle3 l)⟩

theorem updateRegionWork_stampsLe (x : Externals F) (hgpu : x.GpuStampsMonotone) (w : World F)
    (r : I16Vec3) : StampsLe w.map (updateRegionWork x w r).map := by
  unfold updateRegionWork
  split
  · exact hgpu _ _ _
  · exact stampsLe_of_touchStamps (updateRegionCpu_touchStamps x w r)

theorem updateRegionWork_touchStamps (x : Externals F) (hgpu : x.GpuKeepsStamps) (w : World F)
    (r : I16Vec3) : touchStamps (updateRegionWork x w r).map = touchStamps w.map := by
  unfold updateRegionWork
  split
  · exact hgpu _ _ _
  · exact updateRegionCpu_touchStamps x w r

theorem updateRegionWork_resident (x : Externals F) (hgpu : x.GpuKeepsChunks) (w : World F)
    (r k : I16Vec3) (h : (w.map.chunks k).isSome = true) :
    ((updateRegionWork x w r).map.chunks k).isSome = true := by
  unfold updateRegionWork
  split
  · exact hgpu _ _ _ _ h
  · have hk := congrFun (updateRegionCpu_touchStamps x w r) k
    simp only [touchStamps] at hk
    cases h2 : (updateRegionCpu x w r).map.chunks k with
    | none =>
      rw [h2] at hk
      cases h3 : w.map.chunks k with
      | none => simp [h3] at h
      | some c => simp [h3] at hk
    | some c2 => rfl

/-! ## The shape of the result of `updateRegion` -/

theorem region_some (x : Externals F) (map map1 : OccupancyMap F) (k : I16Vec3) (b : Bool)
    (c : MapChunk F) (h : OccupancyMap.region x map k b = (some c, map1)) :
    map1.chunks k = some c := by
  unfold OccupancyMap.region OccupancyMap.findRegion at h
  split at h
  · rename_i c0 h0
    simp only [Prod.mk.injEq, Option.some.injEq] at h
    rw [← h.2, h0, h.1]
  · split at h
    · split at h
      · simp only [Prod.mk.injEq, Option.some.injEq] at h
        rw [← h.2, ← h.1]
        simp [OccupancyMap.insert]
      · simp at h
    · simp at h

/-- The result of `updateRegion` when the chunk of the region cannot be obtained. -/
theorem updateRegion_null (x : Externals F) (w : World F) (r : I16Vec3) (force : Bool)
    (h : (OccupancyMap.region x w.map r
      ((w.imp.query_flags &&& x.kQfInstantiateUnknown) != 0)).1 = none) :
    updateRegion x w r force = (false, { w with calls := w.calls ++ [(r, force)] }) := by
  unfold updateRegion
  simp only
  split
  · rfl
  · rename_i c m hr
    rw [hr] at h
    simp at h

/-- The result of `updateRegion` when the chunk of the region is obtained. -/
theorem updateRegion_some (x : Externals F) (w : World F) (r : I16Vec3) (force : Bool)
    (c : MapChunk F) (map1 : OccupancyMap F)
    (h : OccupancyMap.region x w.map r
      ((w.imp.query_flags &&& x.kQfInstantiateUnknown) != 0) = (some c, map1)) :
    updateRegion x w r force =
      if !force && decide (c.touched_stamps kDlClearance ≥ T_occ map1 r) then
        (false, { w with calls := w.calls ++ [(r, force)], map := map1 })
      else
        (true,
          { updateRegionWork x { w with calls := w.calls ++ [(r, force)], map := map1 } r with
            map := (updateRegionWork x
              { w with calls := w.calls ++ [(r, force)], map := map1 } r).map.setTouchedStamp
                r kDlClearance (T_occ map1 r) }) := by
  unfold updateRegion
  simp only [h, targetUpdateStamp_eq_T_occ x map1 r c (region_some x _ _ _ _ _ h)]

theorem setTouchedStamp_clearanceStamp (map : OccupancyMap F) (r : I16Vec3) (v : Nat)
    (h : (map.chunks r).isSome = true) :
    clearanceStamp (map.setTouchedStamp r kDlClearance v) r = some v := by
  cases hc : map.chunks r with
  | none => simp [hc] at h
  | some c => simp [clearanceStamp, OccupancyMap.setTouchedStamp, hc]

theorem region_stampsLe (x : Externals F) (map : OccupancyMap F) (k : I16Vec3) (b : Bool) :
    StampsLe map (OccupancyMap.region x map k b).2 := by
  unfold OccupancyMap.region OccupancyMap.findRegion
  cases hk : map.chunks k with
  | some c => exact stampsLe_refl map
  | none =>
    simp only
    split
    · split
      · intro k2 c2 hc2
        refine ⟨c2, ?_, fun _ => le_refl _⟩
        simp only [OccupancyMap.insert]
        split
        · rename_i heq
          rw [heq, hk] at hc2
          simp at hc2
        · exact hc2
      · exact stampsLe_refl map
    · exact stampsLe_refl map

theorem setTouchedStamp_stampsLe (m0 m : OccupancyMap F) (r : I16Vec3) (v : Nat)
    (h : StampsLe m0 m)
    (hv : ∀ c, m0.chunks r = some c → c.touched_stamps kDlClearance ≤ v) :
    StampsLe m0 (m.setTouchedStamp r kDlClearance v) := by
  intro k c hc
  obtain ⟨c2, hc2, hle⟩ := h k c hc
  by_cases hk : k = r
  · subst hk
    refine ⟨{ c2 with touched_stamps := fun l =>
        if l = kDlClearance then v else c2.touched_stamps l }, ?_, ?_⟩
    · simp [OccupancyMap.setTouchedStamp, hc2]
    · intro l
      simp only
      split
      · rename_i hl
        rw [hl]
        exact hv c hc
      · exact hle l
  · exact ⟨c2, by simp [OccupancyMap.setTouchedStamp, hk, hc2], hle⟩

/-! ## Lemmas on the loop of `update` -/

theorem updateRegion_frame (x : Externals F) (w : World F) (r : I16Vec3) (force : Bool) :
    (updateRegion x w r force).2.imp.queue = w.imp.queue ∧
      (updateRegion x w r force).2.imp.cursor = w.imp.cursor ∧
      (updateRegion x w r force).2.imp.query_flags = w.imp.query_flags ∧
      (updateRegion x w r force).2.calls = w.calls ++ [(r, force)] := by
  cases hreg : OccupancyMap.region x w.map r
      ((w.imp.query_flags &&& x.kQfInstantiateUnknown) != 0) with
  | mk oc map1 =>
    cases oc with
    | none =>
      rw [updateRegion_null x w r force (by rw [hreg])]
      exact ⟨rfl, rfl, rfl, rfl⟩
    | some c =>
      rw [updateRegion_some x w r force c map1 hreg]
      split
      · exact ⟨rfl, rfl, rfl, rfl⟩
      · exact updateRegionWork_frame x { w with calls := w.calls ++ [(r, force)], map := map1 } r

theorem volumeOf_step : volumeOf step = 1 := by decide

theorem updateLoopBody_total (x : Externals F) (t : Nat) (w : World F) :
    (updateLoopBody x t w).1 = toU32 (t + 1) := by
  simp only [updateLoopBody, volumeOf_step]

theorem updateLoopBody_world (x : Externals F) (t : Nat) (w : World F) :
    (updateLoopBody x t w).2 = (updateLoopBody x 0 w).2 := rfl

theorem haveWork_iff (d : ClearanceProcessDetail F) :
    d.haveWork = true ↔ d.cursor < d.queue.length := by
  simp [ClearanceProcessDetail.haveWork]

theorem haveWork_false_iff (d : ClearanceProcessDetail F) :
    d.haveWork = false ↔ d.queue.length ≤ d.cursor := by
  simp [ClearanceProcessDetail.haveWork]

/-- One pass through the loop body: the cursor advances by one, the queue entry at the
cursor is handed to `updateRegion` with `force = false`, and the queue grows by what
`getWork` appends when it ran empty. -/
theorem updateLoopBody_frame (x : Externals F) (w : World F) :
    (updateLoopBody x 0 w).2.imp.cursor = w.imp.cursor + 1 ∧
      (updateLoopBody x 0 w).2.calls =
        w.calls ++ [(w.imp.queue.getD w.imp.cursor (i16vec3 0 0 0), false)] ∧
      (∃ l, (updateLoopBody x 0 w).2.imp.queue = w.imp.queue ++ l) := by
  have hf := updateRegion_frame x w w.imp.current_dirty_cursor false
  simp only [updateLoopBody]
  split
  · refine ⟨?_, ?_, ?_⟩
    · simp only [ClearanceProcessDetail.getWork, ClearanceProcessDetail.stepCursor, hf.2.1]
    · exact hf.2.2.2
    · exact ⟨_, by
        simp only [ClearanceProcessDetail.getWork, ClearanceProcessDetail.stepCursor, hf.1]
        rfl⟩
  · refine ⟨?_, ?_, ?_⟩
    · simp only [ClearanceProcessDetail.stepCursor, hf.2.1]
    · exact hf.2.2.2
    · exact ⟨[], by simp only [ClearanceProcessDetail.stepCursor, hf.1, List.append_nil]⟩

theorem drop_take_succ (q l : List I16Vec3) (c n : Nat) (d : I16Vec3) (hc : c < q.length) :
    ((q ++ l).drop c).take (n + 1) = q.getD c d :: ((q ++ l).drop (c + 1)).take n := by
  have hlen : c < (q ++ l).length := by
    rw [List.length_append]
    omega
  rw [List.drop_eq_getElem_cons hlen, List.take_succ_cons, List.getElem_append_left hc,
    List.getD_eq_getElem q d hc]

/-- The effect of `n` passes through the loop body on the cursor, the queue and the
record of the calls of `updateRegion`. -/
theorem bodySteps_frame (x : Externals F) (n : Nat) (w w2 : World F)
    (h : bodySteps x n w = some w2) :
    w2.imp.cursor = w.imp.cursor + n ∧
      (∃ l, w2.imp.queue = w.imp.queue ++ l) ∧
      w2.calls = w.calls ++ unforcedCalls ((w2.imp.queue.drop w.imp.cursor).take n) ∧
      (0 < n → w2.imp.cursor ≤ w2.imp.queue.length) := by
  induction n generalizing w with
  | zero =>
    simp only [bodySteps, Option.some.injEq] at h
    subst h
    exact ⟨rfl, ⟨[], (List.append_nil _).symm⟩, by simp [unforcedCalls], fun h0 => absurd h0 (by omega)⟩
  | succ n ih =>
    simp only [bodySteps] at h
    split at h
    · rename_i hw
      have hb := updateLoopBody_frame x w
      obtain ⟨hc1, hcalls1, l1, hq1⟩ := hb
      obtain ⟨hc2, ⟨l2, hq2⟩, hcalls2, hle2⟩ := ih _ h
      have hlt : w.imp.cursor < w.imp.queue.length := (haveWork_iff _).1 hw
      refine ⟨by omega, ⟨l1 ++ l2, by rw [hq2, hq1, List.append_assoc]⟩, ?_, ?_⟩
      · rw [hcalls2, hcalls1, hc1]
        have hq : w2.imp.queue = w.imp.queue ++ (l1 ++ l2) := by
          rw [hq2, hq1, List.append_assoc]
        rw [hq, drop_take_succ _ _ _ _ (i16vec3 0 0 0) hlt]
        simp [unforcedCalls]
      · intro _
        cases n with
        | zero =>
          simp only [bodySteps, Option.some.injEq] at h
          rw [← h, hc1, hq1, List.length_append]
          omega
        | succ n => exact hle2 (by omega)
    · simp at h

theorem bodySteps_add (x : Externals F) (k1 k2 : Nat) (w w1 w2 : World F)
    (h1 : bodySteps x k1 w = some w1) (h2 : bodySteps x k2 w1 = some w2) :
    bodySteps x (k1 + k2) w = some w2 := by
  induction k1 generalizing w with
  | zero =>
    simp only [bodySteps, Option.some.injEq] at h1
    subst h1
    simpa using h2
  | succ k ih =>
    simp only [bodySteps] at h1
    split at h1
    · rename_i hw
      have := ih _ h1
      rw [show k + 1 + k2 = (k + k2) + 1 by omega]
      simp only [bodySteps, hw, if_true]
      exact this
    · simp at h1

theorem totalAfter_zero_start (n : Nat) : totalAfter n 0 = n % 4294967296 := by
  have h : ∀ n t, t < 4294967296 → totalAfter n t = (t + n) % 4294967296 := by
    intro n
    induction n with
    | zero =>
      intro t ht
      simp only [totalAfter, Function.iterate_zero, id_eq, Nat.add_zero]
      exact (Nat.mod_eq_of_lt ht).symm
    | succ n ih =>
      intro t _
      simp only [totalAfter, Function.iterate_succ, Function.comp_apply]
      have h2 := ih (toU32 (t + 1)) (Nat.mod_lt _ (by decide))
      simp only [totalAfter] at h2
      rw [h2]
      simp only [toU32]
      omega
  simpa using h n 0 (by decide)

/-- A run of the loop of `update` that returns is a number of passes through the body,
after which the loop condition is false. -/
theorem updateLoop_run (x : Externals F) (ts : Rat) (clock : Nat → Rat) (fuel : Nat) :
    ∀ (reads : Nat) (el : Rat) (tot : Nat) (w : World F) (t2 : Nat) (w2 : World F),
      updateLoop x ts clock fuel reads el tot w = some (t2, w2) →
      ∃ n el2, n ≤ fuel ∧ bodySteps x n w = some w2 ∧ t2 = totalAfter n tot ∧
        updateLoopCondition ts el2 w2 = false := by
  induction fuel with
  | zero =>
    intro reads el tot w t2 w2 h
    simp only [updateLoop] at h
    split at h
    · simp at h
    · rename_i hc
      simp only [Option.some.injEq, Prod.mk.injEq] at h
      refine ⟨0, el, le_refl _, ?_, ?_, ?_⟩
      · rw [← h.2]; rfl
      · rw [← h.1]; rfl
      · rw [← h.2]; simpa using hc
  | succ fuel ih =>
    intro reads el tot w t2 w2 h
    simp only [updateLoop] at h
    split at h
    · rename_i hc
      obtain ⟨n, el2, hn, hsteps, ht, hcond⟩ := ih _ _ _ _ _ _ h
      have hw : w.imp.haveWork = true := by
        simp only [updateLoopCondition, Bool.and_eq_true] at hc
        exact hc.1
      refine ⟨n + 1, el2, by omega, ?_, ?_, hcond⟩
      · simp only [bodySteps, hw, if_true]
        rw [updateLoopBody_world] at hsteps
        exact hsteps
      · rw [ht, updateLoopBody_total]
        simp only [totalAfter, Function.iterate_succ, Function.comp_apply]
    · rename_i hc
      simp only [Option.some.injEq, Prod.mk.injEq] at h
      refine ⟨0, el, by omega, ?_, ?_, ?_⟩
      · rw [← h.2]; rfl
      · rw [← h.1]; rfl
      · rw [← h.2]; simpa using hc

/-- With a time slice `<= 0` the loop of `update` runs until the queue is empty: `n` passes
that end without work are its result, for any fuel `>= n`, whatever the clock shows. -/
theorem updateLoop_drain (x : Externals F) (ts : Rat) (hts : ts ≤ 0) (clock : Nat → Rat)
    (n : Nat) :
    ∀ (fuel reads : Nat) (el : Rat) (tot : Nat) (w w2 : World F), n ≤ fuel →
      bodySteps x n w = some w2 → w2.imp.haveWork = false →
      updateLoop x ts clock fuel reads el tot w = some (totalAfter n tot, w2) := by
  induction n with
  | zero =>
    intro fuel reads el tot w w2 _ hsteps hw2
    simp only [bodySteps, Option.some.injEq] at hsteps
    subst hsteps
    cases fuel <;> simp [updateLoop, updateLoopCondition, hw2, totalAfter]
  | succ n ih =>
    intro fuel reads el tot w w2 hfuel hsteps hw2
    simp only [bodySteps] at hsteps
    split at hsteps
    · rename_i hw
      cases fuel with
      | zero => omega
      | succ fuel =>
        have hc : updateLoopCondition ts el w = true := by
          simp [updateLoopCondition, hw, hts]
        simp only [updateLoop, hc, if_true]
        rw [updateLoopBody_world, updateLoopBody_total]
        rw [ih fuel _ _ _ _ w2 (by omega) hsteps hw2]
        simp only [totalAfter, Function.iterate_succ, Function.comp_apply]
    · simp at hsteps

theorem bodySteps_calls_length (x : Externals F) (n : Nat) (w w2 : World F)
    (h : bodySteps x n w = some w2) : w2.calls.length = w.calls.length + n := by
  obtain ⟨hc, _, hcalls, hle⟩ := bodySteps_frame x n w w2 h
  rw [hcalls, List.length_append, unforcedCalls, List.length_map, List.length_take,
    List.length_drop]
  cases n with
  | zero => simp
  | succ n =>
    have := hle (by omega)
    omega

theorem updateEntry_frame (x : Externals F) (clock : Nat → Rat) (w : World F) :
    (updateEntry x clock w).2.2.imp.cursor = w.imp.cursor ∧
      (updateEntry x clock w).2.2.calls = w.calls ∧
      (∃ l, (updateEntry x clock w).2.2.imp.queue = w.imp.queue ++ l) := by
  simp only [updateEntry]
  split
  · exact ⟨rfl, rfl, ⟨_, rfl⟩⟩
  · exact ⟨rfl, rfl, ⟨[], (List.append_nil _).symm⟩⟩

theorem updateEntry_world (x : Externals F) (clock clock2 : Nat → Rat) (w : World F) :
    (updateEntry x clock w).2.2 = (updateEntry x clock2 w).2.2 := by
  simp only [updateEntry]
  split <;> rfl

/-- A call of `update` that returns is the entry step followed by `n` passes through the
loop body; the loop condition is false at the end and the code is computed from the
counter `n mod 2 ^ 32`. -/
theorem update_run (x : Externals F) (fuel : Nat) (ts : Rat) (clock : Nat → Rat) (w : World F)
    (res : MappingProcessResult) (w2 : World F)
    (h : update x fuel ts clock w = some (res, w2)) :
    ∃ n el2, n ≤ fuel ∧ bodySteps x n (updateEntry x clock w).2.2 = some w2 ∧
      res = resultCode (n % 4294967296) w2 ∧ updateLoopCondition ts el2 w2 = false := by
  simp only [update] at h
  split at h
  · simp at h
  · rename_i t w3 hl
    simp only [Option.some.injEq, Prod.mk.injEq] at h
    obtain ⟨n, el2, hn, hsteps, ht, hc⟩ := updateLoop_run x ts clock fuel _ _ _ _ _ _ hl
    rw [totalAfter_zero_start] at ht
    refine ⟨n, el2, hn, ?_, ?_, ?_⟩
    · rw [← h.2]; exact hsteps
    · rw [← h.1, ← h.2, ht]; rfl
    · rw [← h.2]; exact hc

/-- With a time slice `<= 0`, `n` passes from the entry state that end without work are
the result of `update` for any fuel `>= n` and any clock. -/
theorem update_drain (x : Externals F) (fuel : Nat) (ts : Rat) (hts : ts ≤ 0)
    (clock : Nat → Rat) (w w2 : World F) (n : Nat) (hn : n ≤ fuel)
    (hsteps : bodySteps x n (updateEntry x clock w).2.2 = some w2)
    (hw2 : w2.imp.haveWork = false) :
    update x fuel ts clock w = some (resultCode (n % 4294967296) w2, w2) := by
  simp only [update]
  rw [updateLoop_drain x ts hts clock n fuel _ _ _ _ w2 hn hsteps hw2, totalAfter_zero_start]
  rfl

theorem updateLoopBody_queue_of_noStale (x : Externals F) (hx : ∀ d m, x.staleRegions d m = [])
    (w : World F) : (updateLoopBody x 0 w).2.imp.queue = w.imp.queue := by
  have hf := updateRegion_frame x w w.imp.current_dirty_cursor false
  simp only [updateLoopBody]
  split
  · simp only [ClearanceProcessDetail.getWork, ClearanceProcessDetail.stepCursor, hx,
      List.append_nil, hf.1]
  · simp only [ClearanceProcessDetail.stepCursor, hf.1]

/-- When the stale scan never finds anything, the loop body can run once for every queue
entry from the cursor on. -/
theorem bodySteps_exists (x : Externals F) (hx : ∀ d m, x.staleRegions d m = []) (n : Nat) :
    ∀ w : World F, w.imp.cursor + n ≤ w.imp.queue.length →
      ∃ w2, bodySteps x n w = some w2 ∧ w2.imp.queue = w.imp.queue := by
  induction n with
  | zero => exact fun w _ => ⟨w, rfl, rfl⟩
  | succ n ih =>
    intro w hle
    have hw : w.imp.haveWork = true := (haveWork_iff _).2 (by omega)
    have hq := updateLoopBody_queue_of_noStale x hx w
    have hc := (updateLoopBody_frame x w).1
    obtain ⟨w2, hsteps, hq2⟩ := ih (updateLoopBody x 0 w).2 (by rw [hc, hq]; omega)
    exact ⟨w2, by simp only [bodySteps, hw, if_true]; exact hsteps, by rw [hq2, hq]⟩

/-! ## Lemmas on consecutive calls of `update` -/

theorem getWork_of_noStale (x : Externals F) (d : ClearanceProcessDetail F)
    (map : OccupancyMap F) (h : x.staleRegions d map = []) : d.getWork x map = d := by
  cases d
  simp only [ClearanceProcessDetail.getWork, List.append_nil] at h ⊢
  rw [h, List.append_nil]

theorem updateEntry_of_settled (x : Externals F) (hflush : ∀ m, flushClearanceCache x m = m)
    (clock : Nat → Rat) (w : World F) (hS : Settled x w) : (updateEntry x clock w).2.2 = w := by
  simp only [updateEntry, hflush]
  cases hw : w.imp.haveWork with
  | true => rfl
  | false =>
    simp only [Bool.not_false, if_true]
    rw [getWork_of_noStale x w.imp w.map (hS.2 hw)]

theorem getWork_settled (x : Externals F) (d : ClearanceProcessDetail F) (m : OccupancyMap F)
    (hwf : d.cursor ≤ d.queue.length) :
    (d.getWork x m).cursor ≤ (d.getWork x m).queue.length ∧
      ((d.getWork x m).haveWork = false → x.staleRegions (d.getWork x m) m = []) := by
  have hq : (d.getWork x m).queue = d.queue ++ x.staleRegions d m := rfl
  have hc : (d.getWork x m).cursor = d.cursor := rfl
  refine ⟨by rw [hq, hc, List.length_append]; omega, fun h => ?_⟩
  have hl : x.staleRegions d m = [] := by
    rw [haveWork_false_iff, hq, hc, List.length_append] at h
    exact List.eq_nil_of_length_eq_zero (by omega)
  rw [getWork_of_noStale x d m hl]
  exact hl

theorem updateEntry_settles (x : Externals F) (hflush : ∀ m, flushClearanceCache x m = m)
    (clock : Nat → Rat) (w : World F) (hwf : w.imp.cursor ≤ w.imp.queue.length) :
    Settled x (updateEntry x clock w).2.2 := by
  simp only [updateEntry, hflush]
  cases hw : w.imp.haveWork with
  | true =>
    simp only [Bool.not_true, Bool.false_eq_true, if_false]
    exact ⟨hwf, fun h => by rw [hw] at h; simp at h⟩
  | false =>
    simp only [Bool.not_false, if_true]
    exact getWork_settled x w.imp w.map hwf

theorem updateLoopBody_settles (x : Externals F) (w : World F) (hw : w.imp.haveWork = true) :
    Settled x (updateLoopBody x 0 w).2 := by
  have hf := updateRegion_frame x w w.imp.current_dirty_cursor false
  have hlt := (haveWork_iff _).1 hw
  have hwf2 : (updateRegion x w w.imp.current_dirty_cursor false).2.imp.stepCursor.cursor ≤
      (updateRegion x w w.imp.current_dirty_cursor false).2.imp.stepCursor.queue.length := by
    simp only [ClearanceProcessDetail.stepCursor, hf.1, hf.2.1]
    omega
  simp only [updateLoopBody]
  split
  · exact getWork_settled x _ _ hwf2
  · rename_i h2
    exact ⟨hwf2, fun h => by simp only [h, Bool.not_false, not_true_eq_false] at h2⟩

theorem bodySteps_settles (x : Externals F) (n : Nat) (w w2 : World F) (hS : Settled x w)
    (h : bodySteps x n w = some w2) : Settled x w2 := by
  induction n generalizing w with
  | zero =>
    simp only [bodySteps, Option.some.injEq] at h
    rw [← h]
    exact hS
  | succ n ih =>
    simp only [bodySteps] at h
    split at h
    · rename_i hw
      exact ih _ (updateLoopBody_settles x w hw) h
    · simp at h

theorem resultCode_upToDate (t : Nat) (w : World F)
    (h : resultCode t w = MappingProcessResult.kMprUpToDate) : w.imp.haveWork = false := by
  simp only [resultCode] at h
  split at h
  · simp at h
  · rename_i hc
    simp only [Bool.or_eq_true, not_or, Bool.not_eq_true] at hc
    exact hc.2

/-- Consecutive calls of `update` that return are, taken together, the entry step of the
first call followed by passes through the loop body: the entry steps of the later calls
change nothing. -/
theorem updateCalls_run (x : Externals F) (hflush : ∀ m, flushClearanceCache x m = m)
    (fuel : Nat) (slices : List (Rat × (Nat → Rat))) :
    ∀ (w : World F), w.imp.cursor ≤ w.imp.queue.length → slices ≠ [] →
      ∀ (rs : List MappingProcessResult) (w2 : World F),
        updateCalls x fuel slices w = some (rs, w2) →
        ∃ n, bodySteps x n (updateEntry x (fun _ => 0) w).2.2 = some w2 ∧
          (rs.getLast? = some MappingProcessResult.kMprUpToDate → w2.imp.haveWork = false) := by
  induction slices with
  | nil => exact fun _ _ h => absurd rfl h
  | cons c cs ih =>
    intro w hwf _ rs w2 h
    simp only [updateCalls] at h
    split at h
    · simp at h
    · rename_i r w1 hu
      obtain ⟨n, el2, _, hsteps, hres, _⟩ := update_run x fuel c.1 c.2 w r w1 hu
      rw [updateEntry_world x c.2 (fun _ => 0)] at hsteps
      have hS1 : Settled x w1 :=
        bodySteps_settles x n _ w1 (updateEntry_settles x hflush _ w hwf) hsteps
      cases cs with
      | nil =>
        simp only [updateCalls, Option.some.injEq, Prod.mk.injEq] at h
        refine ⟨n, by rw [← h.2]; exact hsteps, fun hl => ?_⟩
        rw [← h.1] at hl
        simp only [List.getLast?_singleton, Option.some.injEq] at hl
        rw [← h.2]
        exact resultCode_upToDate _ w1 (hres ▸ hl)
      | cons c2 cs2 =>
        split at h
        · simp at h
        · rename_i rs1 w3 hrest
          simp only [Option.some.injEq, Prod.mk.injEq] at h
          obtain ⟨n2, hsteps2, hlast2⟩ := ih w1 hS1.1 (by simp) rs1 w3 hrest
          rw [updateEntry_of_settled x hflush _ w1 hS1] at hsteps2
          refine ⟨n + n2, by rw [← h.2]; exact bodySteps_add x n n2 _ w1 w3 hsteps hsteps2,
            fun hl => ?_⟩
          rw [← h.2]
          apply hlast2
          rw [← h.1] at hl
          have hne : rs1 ≠ [] := by
            intro hnil
            rw [hnil] at hrest
            simp only [updateCalls] at hrest
            split at hrest
            · simp at hrest
            · split at hrest <;> simp at hrest
          cases rs1 with
          | nil => exact absurd rfl hne
          | cons a l => simpa using hl

/-- The calls of `updateRegion` of passes that end without work: every queue entry from
the first cursor on, once, in order, unforced. -/
theorem bodySteps_drained_calls (x : Externals F) (n : Nat) (w w2 : World F)
    (h : bodySteps x n w = some w2) (hw2 : w2.imp.haveWork = false) :
    w2.calls = w.calls ++ unforcedCalls (w2.imp.queue.drop w.imp.cursor) := by
  obtain ⟨hc, _, hcalls, _⟩ := bodySteps_frame x n w w2 h
  rw [hcalls, List.take_of_length_le]
  rw [List.length_drop]
  have := (haveWork_false_iff _).1 hw2
  omega

/-! ## Lemmas on `calculateForExtents` -/

theorem foldl_flatMap_eq {α β γ : Type} (f : α → γ → α) (g : β → List γ) (l : List β) (a : α) :
    (l.flatMap g).foldl f a = l.foldl (fun a b => (g b).foldl f a) a := by
  induction l generalizing a with
  | nil => rfl
  | cons b l ih => simp only [List.flatMap_cons, List.foldl_append, List.foldl_cons, ih]

theorem calculateForExtentsLoop_eq_foldl (x : Externals F) (w : World F)
    (mn mx : I16Vec3) (force : Bool) :
    calculateForExtentsLoop x w mn mx force =
      (boxKeys mn mx).foldl (fun w k => (updateRegion x w k force).2) w := by
  simp only [calculateForExtentsLoop, boxKeys, foldl_flatMap_eq, List.foldl_map]

theorem mem_intRange (v lo hi : Int) : v ∈ intRange lo hi ↔ lo ≤ v ∧ v < hi := by
  rw [intRange, List.mem_map]
  constructor
  · rintro ⟨i, hmem, rfl⟩
    rw [List.mem_range] at hmem
    omega
  · intro h
    refine ⟨(v - lo).toNat, ?_, ?_⟩
    · rw [List.mem_range]
      omega
    · omega

theorem toI16_of_val (v : I16) : toI16 v.val = v := by
  apply Subtype.ext
  have h := v.property
  simp only [toI16]
  omega

theorem mem_boxKeys (mn mx r : I16Vec3) (h : inBox mn mx r) : r ∈ boxKeys mn mx := by
  obtain ⟨hx, hy, hz⟩ := h
  simp only [boxKeys, List.mem_flatMap, List.mem_map, mem_intRange]
  refine ⟨r.z.val, ⟨hz.1, by omega⟩, r.y.val, ⟨hy.1, by omega⟩, r.x.val, ⟨hx.1, by omega⟩, ?_⟩
  cases r
  simp only [toI16_of_val]

theorem split_at_last {α : Type} (a : α) (l : List α) (h : a ∈ l) :
    ∃ pre post, l = pre ++ a :: post ∧ a ∉ post := by
  induction l with
  | nil => simp at h
  | cons b t ih =>
    by_cases ht : a ∈ t
    · obtain ⟨pre, post, hl, hn⟩ := ih ht
      exact ⟨b :: pre, post, by rw [hl]; rfl, hn⟩
    · have hb : a = b := by
        cases List.mem_cons.1 h with
        | inl h1 => exact h1
        | inr h1 => exact absurd h1 ht
      exact ⟨[], t, by rw [hb]; rfl, ht⟩

theorem region_touchStamps_other (x : Externals F) (m : OccupancyMap F) (k j : I16Vec3)
    (b : Bool) (hj : j ≠ k) :
    touchStamps (OccupancyMap.region x m k b).2 j = touchStamps m j := by
  unfold OccupancyMap.region OccupancyMap.findRegion
  split
  · rfl
  · split
    · split
      · simp [touchStamps, OccupancyMap.insert, hj]
      · rfl
    · rfl

theorem setTouchedStamp_touchStamps_other (m : OccupancyMap F) (k j : I16Vec3) (l v : Nat)
    (hj : j ≠ k) : touchStamps (m.setTouchedStamp k l v) j = touchStamps m j := by
  simp [touchStamps, OccupancyMap.setTouchedStamp, hj]

/-- An update of region `k` leaves the touch stamps of every other region as they are. -/
theorem updateRegion_touchStamps_other (x : Externals F) (hgpu : x.GpuKeepsStamps) (w : World F)
    (k j : I16Vec3) (force : Bool) (hj : j ≠ k) :
    touchStamps (updateRegion x w k force).2.map j = touchStamps w.map j := by
  have hr := region_touchStamps_other x w.map k j
    ((w.imp.query_flags &&& x.kQfInstantiateUnknown) != 0) hj
  cases hreg : OccupancyMap.region x w.map k
      ((w.imp.query_flags &&& x.kQfInstantiateUnknown) != 0) with
  | mk oc map1 =>
    rw [hreg] at hr
    cases oc with
    | none => rw [updateRegion_null x w k force (by rw [hreg])]
    | some c =>
      rw [updateRegion_some x w k force c map1 hreg]
      split
      · exact hr
      · simp only
        rw [setTouchedStamp_touchStamps_other _ _ _ _ _ hj,
          congrFun (updateRegionWork_touchStamps x hgpu _ k) j]
        exact hr

theorem occupancyStamp_of_touchStamps {m m2 : OccupancyMap F} {j : I16Vec3}
    (h : touchStamps m2 j = touchStamps m j) : occupancyStamp m2 j = occupancyStamp m j := by
  simp only [touchStamps] at h
  simp only [occupancyStamp]
  cases h1 : m.chunks j <;> cases h2 : m2.chunks j <;> simp_all

theorem clearanceStamp_of_touchStamps {m m2 : OccupancyMap F} {j : I16Vec3}
    (h : touchStamps m2 j = touchStamps m j) : clearanceStamp m2 j = clearanceStamp m j := by
  simp only [touchStamps] at h
  simp only [clearanceStamp]
  cases h1 : m.chunks j <;> cases h2 : m2.chunks j <;> simp_all

theorem setTouchedStamp_occupancyStamp (m : OccupancyMap F) (k j : I16Vec3) (v : Nat) :
    occupancyStamp (m.setTouchedStamp k kDlClearance v) j = occupancyStamp m j := by
  simp only [occupancyStamp, OccupancyMap.setTouchedStamp]
  split
  · cases m.chunks j <;> simp [kDlOccupancy, kDlClearance]
  · rfl

/-- An update of a region keeps the occupancy stamp of every resident chunk. -/
theorem updateRegion_occKeep (x : Externals F) (hgpu : x.GpuKeepsStamps) (w : World F)
    (k : I16Vec3) (force : Bool) : OccKeep w.map (updateRegion x w k force).2.map := by
  intro j s hs
  by_cases hj : j = k
  · subst hj
    cases hc : w.map.chunks j with
    | none => simp [occupancyStamp, hc] at hs
    | some c =>
      rw [updateRegion_some x w j force c w.map (region_resident x w.map j _ c hc)]
      split
      · exact hs
      · simp only
        rw [setTouchedStamp_occupancyStamp,
          occupancyStamp_of_touchStamps (congrFun (updateRegionWork_touchStamps x hgpu _ j) j)]
        exact hs
  · rw [occupancyStamp_of_touchStamps (updateRegion_touchStamps_other x hgpu w k j force hj)]
    exact hs

theorem foldl_updateRegion_occKeep (x : Externals F) (hgpu : x.GpuKeepsStamps) (force : Bool)
    (ks : List I16Vec3) (w : World F) :
    OccKeep w.map (ks.foldl (fun w k => (updateRegion x w k force).2) w).map := by
  induction ks generalizing w with
  | nil => exact fun _ _ h => h
  | cons k ks ih =>
    intro j s hs
    exact ih _ j s (updateRegion_occKeep x hgpu w k force j s hs)

theorem foldl_updateRegion_clearance_other (x : Externals F) (hgpu : x.GpuKeepsStamps)
    (force : Bool) (r : I16Vec3) (ks : List I16Vec3) (hr : r ∉ ks) (w : World F) :
    clearanceStamp (ks.foldl (fun w k => (updateRegion x w k force).2) w).map r
      = clearanceStamp w.map r := by
  induction ks generalizing w with
  | nil => rfl
  | cons k ks ih =>
    rw [List.foldl_cons, ih (fun h => hr (List.mem_cons_of_mem _ h))]
    exact clearanceStamp_of_touchStamps
      (updateRegion_touchStamps_other x hgpu w k r force
        (fun h => hr (by rw [h]; exact List.mem_cons_self _ _)))

theorem T_occ_of_occKeep (m m2 : OccupancyMap F) (r : I16Vec3) (hk : OccKeep m m2)
    (hres : ∀ k ∈ r :: neighbourKeys r, (m.chunks k).isSome = true) :
    T_occ m2 r = T_occ m r := by
  have h : ∀ ks : List I16Vec3, (∀ k ∈ ks, (m.chunks k).isSome = true) →
      residentOccupancyStamps m2 ks = residentOccupancyStamps m ks := by
    intro ks
    induction ks with
    | nil => exact fun _ => rfl
    | cons k ks ih =>
      intro hks
      have hk1 := hks k (List.mem_cons_self _ _)
      cases hc : m.chunks k with
      | none => simp [hc] at hk1
      | some c =>
        have h2 := hk k (c.touched_stamps kDlOccupancy) (by simp [occupancyStamp, hc])
        simp only [occupancyStamp] at h2
        simp only [residentOccupancyStamps, List.filterMap_cons, hc, h2, Option.map_some']
        have := ih (fun k2 hk2 => hks k2 (List.mem_cons_of_mem _ hk2))
        simp only [residentOccupancyStamps] at this
        rw [this]
  simp only [T_occ, h _ hres]

/-- A forced update of a resident region sets its clearance stamp to `T_occ`. -/
theorem updateRegion_forced_stamp (x : Externals F) (hgpu : x.GpuKeepsStamps) (w : World F)
    (r : I16Vec3) (c : MapChunk F) (hc : w.map.chunks r = some c) :
    clearanceStamp (updateRegion x w r true).2.map r = some (T_occ w.map r) := by
  rw [updateRegion_some x w r true c w.map (region_resident x w.map r _ c hc)]
  simp only [Bool.not_true, Bool.false_and, Bool.false_eq_true, if_false]
  apply setTouchedStamp_clearanceStamp
  have h := congrFun (updateRegionWork_touchStamps x hgpu
    { w with calls := w.calls ++ [(r, true)], map := w.map } r) r
  simp only [touchStamps, hc, Option.map_some'] at h
  cases h2 : (updateRegionWork x
      { w with calls := w.calls ++ [(r, true)], map := w.map } r).map.chunks r with
  | none => simp [h2] at h
  | some c2 => rfl

theorem foldr_max_le_iff (l : List Nat) (t : Nat) : l.foldr max 0 ≤ t ↔ ∀ a ∈ l, a ≤ t := by
  induction l with
  | nil => simp
  | cons a l ih => simp [ih]

/-! ## Claims on `updateRegion` -/

/-- C1. For a region key `r` whose chunk `c` is resident, `updateRegion(map, r, force)`
recomputes the region (returns true) if and only if `force` is true or the clearance stamp
of `r` is below `T_occ(r)`, the maximum of the occupancy stamps of `r` and of those of its
26 neighbouring region keys (offsets -1..1 on each axis, in the 16 bit arithmetic of the key
type) that are resident. -/
theorem updateRegion_true_iff_force_or_stale (x : Externals F) (w : World F) (r : I16Vec3)
    (force : Bool) (c : MapChunk F) (hres : w.map.chunks r = some c) :
    (updateRegion x w r force).1 = true ↔
      (force = true ∨ c.touched_stamps kDlClearance < T_occ w.map r) := by
  simp only [updateRegion, region_resident x w.map r _ c hres,
    targetUpdateStamp_eq_T_occ x w.map r c hres]
  split
  · rename_i h
    simp only [Bool.and_eq_true, Bool.not_eq_true', decide_eq_true_eq] at h
    simp only [h.1, Bool.false_eq_true, false_or, false_iff, not_lt]
    exact h.2
  · rename_i h
    simp only [Bool.and_eq_true, Bool.not_eq_true', decide_eq_true_eq, not_and, not_le] at h
    simp only [true_iff]
    cases force with
    | true => exact Or.inl rfl
    | false => exact Or.inr (h rfl)

theorem updateRegion_true_iff_force_or_stale_witness :
    exampleMap.chunks (i16vec3 0 0 0) = some (exampleChunk 1 1) ∧
      ((updateRegion exampleExternals (exampleWorld exampleMap 0 []) (i16vec3 0 0 0) false).1
          = true ↔
        (false = true ∨
          (exampleChunk 1 1).touched_stamps kDlClearance < T_occ exampleMap (i16vec3 0 0 0))) :=
  ⟨by rfl, updateRegion_true_iff_force_or_stale exampleExternals
    (exampleWorld exampleMap 0 []) (i16vec3 0 0 0) false (exampleChunk 1 1) (by rfl)⟩


/-- C2. Whenever `updateRegion(map, r, force)` returns true, the clearance stamp of `r` on
return is `T_occ(r)` as computed at entry (on the map with the chunk of `r` resolved, which
is the map at entry when `r` is resident), whichever worker ran and whatever `force` is.
The GPU delegate is assumed to remove no chunk. -/
theorem updateRegion_true_sets_clearance_to_T_occ (x : Externals F) (hgpu : x.GpuKeepsChunks)
    (w : World F) (r : I16Vec3) (force : Bool) (h : (updateRegion x w r force).1 = true) :
    clearanceStamp (updateRegion x w r force).2.map r = some (T_occ (entryMap x w r) r) ∧
      (∀ c, w.map.chunks r = some c → entryMap x w r = w.map) := by
  constructor
  · cases hreg : OccupancyMap.region x w.map r
        ((w.imp.query_flags &&& x.kQfInstantiateUnknown) != 0) with
    | mk oc map1 =>
      cases oc with
      | none =>
        rw [updateRegion_null x w r force (by rw [hreg])] at h
        simp at h
      | some c =>
        have hr := region_some x _ _ _ _ _ hreg
        rw [updateRegion_some x w r force c map1 hreg] at h ⊢
        split at h
        · simp at h
        · rename_i hc
          simp only [hc, Bool.false_eq_true, if_false, entryMap, hreg]
          apply setTouchedStamp_clearanceStamp
          apply updateRegionWork_resident x hgpu
          simp [hr]
  · intro c hc
    simp only [entryMap, region_resident x w.map r _ c hc]

theorem updateRegion_true_sets_clearance_to_T_occ_witness :
    exampleExternals.GpuKeepsChunks ∧
      (updateRegion exampleExternals (exampleWorld exampleMap 0 []) (i16vec3 0 0 0) false).1
        = true ∧
      (clearanceStamp (updateRegion exampleExternals (exampleWorld exampleMap 0 [])
          (i16vec3 0 0 0) false).2.map (i16vec3 0 0 0)
          = some (T_occ (entryMap exampleExternals (exampleWorld exampleMap 0 [])
              (i16vec3 0 0 0)) (i16vec3 0 0 0)) ∧
        (∀ c, (exampleWorld exampleMap 0 []).map.chunks (i16vec3 0 0 0) = some c →
          entryMap exampleExternals (exampleWorld exampleMap 0 []) (i16vec3 0 0 0)
            = (exampleWorld exampleMap 0 []).map)) :=
  ⟨fun _ _ _ _ h => h, by decide,
    updateRegion_true_sets_clearance_to_T_occ exampleExternals (fun _ _ _ _ h => h)
      (exampleWorld exampleMap 0 []) (i16vec3 0 0 0) false (by decide)⟩

/-- C3. For a resident region `r` whose clearance stamp is at least `T_occ(r)`,
`updateRegion(map, r, false)` is a skip: it returns false and the state on return is the
state at entry (the map with every touch stamp and voxel value, the process detail, and the
worker events: neither the GPU delegate nor the CPU region query ran); only the record of
the call itself is added. -/
theorem updateRegion_fresh_is_skip (x : Externals F) (w : World F) (r : I16Vec3)
    (c : MapChunk F) (hres : w.map.chunks r = some c)
    (hfresh : c.touched_stamps kDlClearance ≥ T_occ w.map r) :
    updateRegion x w r false = (false, { w with calls := w.calls ++ [(r, false)] }) := by
  rw [updateRegion_some x w r false c w.map (region_resident x w.map r _ c hres)]
  simp [hfresh]

theorem updateRegion_fresh_is_skip_witness :
    exampleMapAhead.chunks (i16vec3 0 0 0) = some (exampleChunk 5 10) ∧
      (exampleChunk 5 10).touched_stamps kDlClearance ≥ T_occ exampleMapAhead (i16vec3 0 0 0) ∧
      updateRegion exampleExternals (exampleWorld exampleMapAhead 0 []) (i16vec3 0 0 0) false
        = (false, { exampleWorld exampleMapAhead 0 [] with
            calls := (exampleWorld exampleMapAhead 0 []).calls ++ [(i16vec3 0 0 0, false)] }) :=
  ⟨by rfl, by decide,
    updateRegion_fresh_is_skip exampleExternals (exampleWorld exampleMapAhead 0 [])
      (i16vec3 0 0 0) (exampleChunk 5 10) (by rfl) (by decide)⟩

/-- C4. When the chunk of the region key is not resident and cannot be obtained
(`map.region(key, instantiate)` yields null), `updateRegion` returns false for any `force`,
runs no worker (the worker events are those at entry), and leaves the map, with every touch
stamp, and the process detail as they were: the region is still not resident, so it is not
marked up to date. -/
theorem updateRegion_unobtainable_chunk (x : Externals F) (w : World F) (r : I16Vec3)
    (force : Bool)
    (h : (OccupancyMap.region x w.map r
      ((w.imp.query_flags &&& x.kQfInstantiateUnknown) != 0)).1 = none) :
    (updateRegion x w r force).1 = false ∧
      (updateRegion x w r force).2.map = w.map ∧
      (updateRegion x w r force).2.imp = w.imp ∧
      (updateRegion x w r force).2.events = w.events ∧
      clearanceStamp (updateRegion x w r force).2.map r = none := by
  rw [updateRegion_null x w r force h]
  refine ⟨rfl, rfl, rfl, rfl, ?_⟩
  unfold OccupancyMap.region OccupancyMap.findRegion at h
  cases hc : w.map.chunks r with
  | none => simp [clearanceStamp, hc]
  | some c => simp [hc] at h

theorem updateRegion_unobtainable_chunk_witness :
    (OccupancyMap.region exampleExternals (exampleWorld exampleMap 64 []).map (i16vec3 7 7 7)
        (((exampleWorld exampleMap 64 []).imp.query_flags
          &&& exampleExternals.kQfInstantiateUnknown) != 0)).1 = none ∧
      ((updateRegion exampleExternals (exampleWorld exampleMap 64 []) (i16vec3 7 7 7) true).1
          = false ∧
        (updateRegion exampleExternals (exampleWorld exampleMap 64 []) (i16vec3 7 7 7) true).2.map
          = (exampleWorld exampleMap 64 []).map ∧
        (updateRegion exampleExternals (exampleWorld exampleMap 64 []) (i16vec3 7 7 7) true).2.imp
          = (exampleWorld exampleMap 64 []).imp ∧
        (updateRegion exampleExternals (exampleWorld exampleMap 64 [])
          (i16vec3 7 7 7) true).2.events = (exampleWorld exampleMap 64 []).events ∧
        clearanceStamp (updateRegion exampleExternals (exampleWorld exampleMap 64 [])
          (i16vec3 7 7 7) true).2.map (i16vec3 7 7 7) = none) :=
  ⟨by rfl, updateRegion_unobtainable_chunk exampleExternals (exampleWorld exampleMap 64 [])
    (i16vec3 7 7 7) true (by rfl)⟩

/-- C10, counterexample. A forced update of a region whose clearance stamp (10) is above
`T_occ` (5) lowers the clearance stamp to 5. -/
theorem updateRegion_forced_lowers_clearance_stamp :
    clearanceStamp exampleMapAhead (i16vec3 0 0 0) = some 10 ∧
      clearanceStamp (updateRegion exampleExternals (exampleWorld exampleMapAhead 0 [])
        (i16vec3 0 0 0) true).2.map (i16vec3 0 0 0) = some 5 := by
  decide

/-- C10, amended. After `updateRegion(map, r, force)` every chunk that was resident is
still resident and each of its touch stamps (occupancy, clearance and any other layer) is
greater than or equal to its value before the call, provided `force` is false or the
clearance stamp of `r` was not above `T_occ(r)`. The GPU delegate is assumed to remove no
chunk and to lower no stamp. -/
theorem updateRegion_stamps_monotone (x : Externals F) (hgpu : x.GpuStampsMonotone)
    (w : World F) (r : I16Vec3) (force : Bool)
    (hexc : force = false ∨
      ∀ c, w.map.chunks r = some c → c.touched_stamps kDlClearance ≤ T_occ w.map r)
    (k : I16Vec3) (c : MapChunk F) (hk : w.map.chunks k = some c) :
    ∃ c2, (updateRegion x w r force).2.map.chunks k = some c2 ∧
      ∀ l, c.touched_stamps l ≤ c2.touched_stamps l := by
  suffices hle : StampsLe w.map (updateRegion x w r force).2.map from hle k c hk
  cases hreg : OccupancyMap.region x w.map r
      ((w.imp.query_flags &&& x.kQfInstantiateUnknown) != 0) with
  | mk oc map1 =>
    have h1 : StampsLe w.map map1 := by
      have := region_stampsLe x w.map r ((w.imp.query_flags &&& x.kQfInstantiateUnknown) != 0)
      rwa [hreg] at this
    cases oc with
    | none =>
      rw [updateRegion_null x w r force (by rw [hreg])]
      exact stampsLe_refl _
    | some c0 =>
      rw [updateRegion_some x w r force c0 map1 hreg]
      split
      · exact h1
      · rename_i hc
        apply setTouchedStamp_stampsLe
        · exact stampsLe_trans h1
            (updateRegionWork_stampsLe x hgpu
              { w with calls := w.calls ++ [(r, force)], map := map1 } r)
        · intro cr hcr
          have hmap : OccupancyMap.region x w.map r
              ((w.imp.query_flags &&& x.kQfInstantiateUnknown) != 0) = (some cr, w.map) :=
            region_resident x w.map r _ cr hcr
          rw [hmap] at hreg
          simp only [Prod.mk.injEq, Option.some.injEq] at hreg
          obtain ⟨hc0, hm1⟩ := hreg
          subst hc0 hm1
          cases hexc with
          | inl hf =>
            subst hf
            simp only [Bool.not_false, Bool.true_and, decide_eq_true_eq, not_le] at hc
            exact le_of_lt hc
          | inr hle => exact hle cr hcr

theorem updateRegion_stamps_monotone_witness :
    exampleExternals.GpuStampsMonotone ∧
      (false = false ∨ ∀ c, (exampleWorld exampleMap 0 []).map.chunks (i16vec3 0 0 0) = some c →
        c.touched_stamps kDlClearance ≤ T_occ (exampleWorld exampleMap 0 []).map (i16vec3 0 0 0)) ∧
      (exampleWorld exampleMap 0 []).map.chunks (i16vec3 0 0 0) = some (exampleChunk 1 1) ∧
      ∃ c2, (updateRegion exampleExternals (exampleWorld exampleMap 0 [])
          (i16vec3 0 0 0) false).2.map.chunks (i16vec3 0 0 0) = some c2 ∧
        ∀ l, (exampleChunk 1 1).touched_stamps l ≤ c2.touched_stamps l :=
  ⟨fun _ m _ => stampsLe_refl m, Or.inl rfl, by rfl,
    updateRegion_stamps_monotone exampleExternals (fun _ m _ => stampsLe_refl m)
      (exampleWorld exampleMap 0 []) (i16vec3 0 0 0) false (Or.inl rfl) (i16vec3 0 0 0)
      (exampleChunk 1 1) (by rfl)⟩

/-! ## Claims on `update` -/

/-- C5, counterexample. The queue holds the single key `(7, 7, 7)`, whose chunk is not
resident and cannot be instantiated: `updateRegion` skips it (returns false), no work
remains when the loop ends, and `update` returns `kMprProgressing`. -/
theorem update_progressing_though_skipped :
    (updateRegion exampleExternals (exampleWorld exampleMap 0 [i16vec3 7 7 7])
        (i16vec3 7 7 7) false).1 = false ∧
      (update exampleExternals 5 0 (fun _ => 0)
          (exampleWorld exampleMap 0 [i16vec3 7 7 7])).map
        (fun r => (r.1, r.2.calls, r.2.imp.haveWork))
        = some (MappingProcessResult.kMprProgressing, [(i16vec3 7 7 7, false)], false) := by
  decide

/-- C5, amended. `update` counts progress for every region taken from the work queue,
skipped by `updateRegion` or not: a call that hands at least one and fewer than `2 ^ 32`
regions to `updateRegion` returns `kMprProgressing`, even when each of them is skipped and
no work remains; a call that hands over no region and leaves no work returns
`kMprUpToDate`. -/
theorem update_counts_skipped_regions (x : Externals F) (fuel : Nat) (ts : Rat)
    (clock : Nat → Rat) (w : World F) (res : MappingProcessResult) (w2 : World F)
    (h : update x fuel ts clock w = some (res, w2)) :
    (0 < w2.calls.length - w.calls.length → w2.calls.length - w.calls.length < 4294967296 →
        res = MappingProcessResult.kMprProgressing) ∧
      (w2.calls.length = w.calls.length → w2.imp.haveWork = false →
        res = MappingProcessResult.kMprUpToDate) := by
  obtain ⟨n, el2, _, hsteps, hres, _⟩ := update_run x fuel ts clock w res w2 h
  have hlen := bodySteps_calls_length x n _ w2 hsteps
  rw [(updateEntry_frame x clock w).2.1] at hlen
  constructor
  · intro h0 h1
    have hn : n % 4294967296 ≠ 0 := by omega
    simp [hres, resultCode, hn]
  · intro h0 hw
    have hn : n = 0 := by omega
    simp [hres, resultCode, hn, hw]

theorem update_counts_skipped_regions_witness :
    update exampleExternals 5 0 (fun _ => 0) (exampleWorld exampleMap 0 [i16vec3 7 7 7])
        = some (MappingProcessResult.kMprProgressing,
          { exampleWorld exampleMap 0 [i16vec3 7 7 7] with
            imp := { exampleDetail 0 [i16vec3 7 7 7] with cursor := 1 }
            calls := [(i16vec3 7 7 7, false)] }) ∧
      ((0 < [(i16vec3 7 7 7, false)].length
            - (exampleWorld exampleMap 0 [i16vec3 7 7 7]).calls.length →
          [(i16vec3 7 7 7, false)].length
            - (exampleWorld exampleMap 0 [i16vec3 7 7 7]).calls.length < 4294967296 →
          MappingProcessResult.kMprProgressing = MappingProcessResult.kMprProgressing) ∧
        ([(i16vec3 7 7 7, false)].length
            = (exampleWorld exampleMap 0 [i16vec3 7 7 7]).calls.length →
          ({ exampleDetail 0 [i16vec3 7 7 7] with cursor := 1 } :
            ClearanceProcessDetail Nat).haveWork = false →
          MappingProcessResult.kMprProgressing = MappingProcessResult.kMprUpToDate)) :=
  ⟨by rfl, update_counts_skipped_regions exampleExternals 5 0 (fun _ => 0)
    (exampleWorld exampleMap 0 [i16vec3 7 7 7]) MappingProcessResult.kMprProgressing
    { exampleWorld exampleMap 0 [i16vec3 7 7 7] with
      imp := { exampleDetail 0 [i16vec3 7 7 7] with cursor := 1 }
      calls := [(i16vec3 7 7 7, false)] } (by rfl)⟩

/-- C6, the code at the failing input. With a work queue of `2 ^ 32` entries and a time
slice of 0, `update` hands `2 ^ 32` regions to `updateRegion`, the 32 bit counter
`total_processed` is back at 0, no work remains, and the call returns `kMprUpToDate`. -/
theorem update_upToDate_after_counter_wrap :
    ∃ w2, update exampleExternals 4294967296 0 (fun _ => 0)
        (exampleWorld exampleMap 0 exampleLongQueue)
          = some (MappingProcessResult.kMprUpToDate, w2) ∧
      w2.calls.length = 4294967296 ∧ w2.imp.haveWork = false := by
  have hlen : exampleLongQueue.length = 4294967296 := List.length_replicate _ _
  have hx : ∀ d m, exampleExternals.staleRegions d m = [] := fun _ _ => rfl
  have hw : (exampleWorld exampleMap 0 exampleLongQueue).imp.haveWork = true :=
    (haveWork_iff _).2 (by
      show 0 < exampleLongQueue.length
      rw [hlen]
      decide)
  have hentry : (updateEntry exampleExternals (fun _ => 0)
      (exampleWorld exampleMap 0 exampleLongQueue)).2.2
        = exampleWorld exampleMap 0 exampleLongQueue := by
    simp only [updateEntry, hw]
    rfl
  obtain ⟨w2, hsteps, hq⟩ := bodySteps_exists exampleExternals hx 4294967296
    (exampleWorld exampleMap 0 exampleLongQueue) (by
      show 0 + 4294967296 ≤ exampleLongQueue.length
      rw [hlen])
  have hframe := bodySteps_frame exampleExternals _ _ _ hsteps
  have hcalls := bodySteps_calls_length exampleExternals _ _ _ hsteps
  have hw2 : w2.imp.haveWork = false := by
    rw [haveWork_false_iff, hq, hframe.1]
    show exampleLongQueue.length ≤ 0 + 4294967296
    rw [hlen]
  refine ⟨w2, ?_, ?_, hw2⟩
  · rw [update_drain exampleExternals 4294967296 0 (le_refl _) (fun _ => 0) _ w2 4294967296
      (le_refl _) (by rw [hentry]; exact hsteps) hw2]
    simp [resultCode, hw2]
  · rw [hcalls]
    rfl

/-- C7. For a time slice `<= 0`, a call of `update` that returns has emptied the work
queue (`haveWork()` is false); every entry of the final queue from the cursor at entry on,
the entries appended by `getWork` during the call included, was handed to `updateRegion`
exactly once, in queue order and with `force = false`; the cursor advanced by one for each
of these calls; the queue only grew; and the clock plays no part: every other clock gives
the same result. -/
theorem update_unsliced_drains_queue (x : Externals F) (fuel : Nat) (ts : Rat) (hts : ts ≤ 0)
    (clock : Nat → Rat) (w : World F) (res : MappingProcessResult) (w2 : World F)
    (h : update x fuel ts clock w = some (res, w2)) :
    w2.imp.haveWork = false ∧
      w2.calls = w.calls ++ unforcedCalls (w2.imp.queue.drop w.imp.cursor) ∧
      w2.imp.cursor = w.imp.cursor + (w2.calls.length - w.calls.length) ∧
      (∃ l, w2.imp.queue = w.imp.queue ++ l) ∧
      ∀ clock2, update x fuel ts clock2 w = some (res, w2) := by
  obtain ⟨n, el2, hn, hsteps, hres, hcond⟩ := update_run x fuel ts clock w res w2 h
  have hw2 : w2.imp.haveWork = false := by
    simpa [updateLoopCondition, hts] using hcond
  obtain ⟨hec, hecalls, l1, heq⟩ := updateEntry_frame x clock w
  obtain ⟨hc, ⟨l2, hq⟩, hcalls, _⟩ := bodySteps_frame x n _ w2 hsteps
  have hlen := bodySteps_calls_length x n _ w2 hsteps
  rw [hec] at hc hcalls
  rw [hecalls] at hcalls hlen
  refine ⟨hw2, ?_, by omega, ⟨l1 ++ l2, by rw [hq, heq, List.append_assoc]⟩, ?_⟩
  · rw [hcalls, List.take_of_length_le]
    rw [List.length_drop]
    have := (haveWork_false_iff _).1 hw2
    omega
  · intro clock2
    rw [hres]
    exact update_drain x fuel ts hts clock2 w w2 n hn
      (by rw [updateEntry_world x clock2 clock]; exact hsteps) hw2

theorem update_unsliced_drains_queue_witness :
    (0 : Rat) ≤ 0 ∧
      update exampleScanExternals 5 0 (fun _ => 0) (exampleWorld exampleMap 0 [])
        = some (MappingProcessResult.kMprProgressing, exampleDrained) ∧
      (exampleDrained.imp.haveWork = false ∧
        exampleDrained.calls = (exampleWorld exampleMap 0 []).calls ++
          unforcedCalls (exampleDrained.imp.queue.drop (exampleWorld exampleMap 0 []).imp.cursor) ∧
        exampleDrained.imp.cursor = (exampleWorld exampleMap 0 []).imp.cursor +
          (exampleDrained.calls.length - (exampleWorld exampleMap 0 []).calls.length) ∧
        (∃ l, exampleDrained.imp.queue = (exampleWorld exampleMap 0 []).imp.queue ++ l) ∧
        ∀ clock2, update exampleScanExternals 5 0 clock2 (exampleWorld exampleMap 0 [])
          = some (MappingProcessResult.kMprProgressing, exampleDrained)) :=
  ⟨le_refl _, by rfl,
    update_unsliced_drains_queue exampleScanExternals 5 0 (le_refl _) (fun _ => 0)
      (exampleWorld exampleMap 0 []) MappingProcessResult.kMprProgressing exampleDrained
      (by rfl)⟩

/-- C8. Time slicing does not change the work done. Let consecutive calls of `update`,
with any time slices (positive ones in particular) and any clocks, all return, the last of
them with `kMprUpToDate`. Then a single call with a time slice `<= 0`, started in the same
state, returns for every large enough fuel and ends in the very same state: the same calls
of `updateRegion` in the same order, the same map (clearance values and stamps) and the
same queue. Every queue entry from the cursor at entry on was handed over exactly once.
The map is not changed between the calls (the state a call leaves is the state the next
one starts in), the flush of the GPU clearance cache at the start of a call is assumed to
leave the map as it is, and the cursor starts inside the queue or at its end. -/
theorem update_sliced_same_as_single_call (x : Externals F)
    (hflush : ∀ m, flushClearanceCache x m = m) (w : World F)
    (hwf : w.imp.cursor ≤ w.imp.queue.length) (fuel : Nat)
    (slices : List (Rat × (Nat → Rat))) (rs : List MappingProcessResult) (w2 : World F)
    (hrun : updateCalls x fuel slices w = some (rs, w2))
    (hlast : rs.getLast? = some MappingProcessResult.kMprUpToDate)
    (ts : Rat) (hts : ts ≤ 0) (clock : Nat → Rat) :
    (∃ fuel2, ∀ fuel3, fuel2 ≤ fuel3 → ∃ res, update x fuel3 ts clock w = some (res, w2)) ∧
      w2.calls = w.calls ++ unforcedCalls (w2.imp.queue.drop w.imp.cursor) := by
  have hne : slices ≠ [] := by
    intro hnil
    rw [hnil] at hrun
    simp only [updateCalls, Option.some.injEq, Prod.mk.injEq] at hrun
    rw [← hrun.1] at hlast
    simp at hlast
  obtain ⟨n, hsteps, hw2⟩ := updateCalls_run x hflush fuel slices w hwf hne rs w2 hrun
  have hidle := hw2 hlast
  constructor
  · refine ⟨n, fun fuel3 hf3 => ⟨resultCode (n % 4294967296) w2, ?_⟩⟩
    exact update_drain x fuel3 ts hts clock w w2 n hf3
      (by rw [updateEntry_world x clock (fun _ => 0)]; exact hsteps) hidle
  · have h := bodySteps_drained_calls x n _ w2 hsteps hidle
    rw [(updateEntry_frame x _ w).1, (updateEntry_frame x _ w).2.1] at h
    exact h

theorem update_sliced_same_as_single_call_witness :
    (∀ m, flushClearanceCache exampleScanExternals m = m) ∧
      (exampleWorld exampleMap 0 []).imp.cursor ≤ (exampleWorld exampleMap 0 []).imp.queue.length ∧
      updateCalls exampleScanExternals 5 exampleSlices (exampleWorld exampleMap 0 [])
        = some ([MappingProcessResult.kMprProgressing, MappingProcessResult.kMprProgressing,
            MappingProcessResult.kMprUpToDate], exampleDrained) ∧
      [MappingProcessResult.kMprProgressing, MappingProcessResult.kMprProgressing,
          MappingProcessResult.kMprUpToDate].getLast? = some MappingProcessResult.kMprUpToDate ∧
      (0 : Rat) ≤ 0 ∧
      ((∃ fuel2, ∀ fuel3, fuel2 ≤ fuel3 →
          ∃ res, update exampleScanExternals fuel3 0 (fun _ => 0) (exampleWorld exampleMap 0 [])
            = some (res, exampleDrained)) ∧
        exampleDrained.calls = (exampleWorld exampleMap 0 []).calls ++
          unforcedCalls
            (exampleDrained.imp.queue.drop (exampleWorld exampleMap 0 []).imp.cursor)) :=
  ⟨fun _ => rfl, by decide, by rfl, by rfl, le_refl _,
    update_sliced_same_as_single_call exampleScanExternals (fun _ => rfl)
      (exampleWorld exampleMap 0 []) (by decide) 5 exampleSlices
      [MappingProcessResult.kMprProgressing, MappingProcessResult.kMprProgressing,
        MappingProcessResult.kMprUpToDate] exampleDrained (by rfl) (by rfl) 0 (le_refl _)
      (fun _ => 0)⟩

/-! ## Claims on `calculateForExtents` -/

/-- C9, counterexample. The region `(0, 0, 0)` and its 26 neighbours are resident and
inside the box; the occupancy stamp of `(0, 0, 0)` is 1 and that of its neighbour
`(1, 0, 0)` is 5. After the forced `calculateForExtents` the clearance stamp of `(0, 0, 0)`
is 5 and its occupancy stamp is 1. -/
theorem calculateForExtents_forced_stamps_differ :
    clearanceStamp (calculateForExtents exampleExternals (exampleWorld exampleMapFull 0 [])
        ⟨-1, -1, -1⟩ ⟨1, 1, 1⟩ true).map (i16vec3 0 0 0) = some 5 ∧
      occupancyStamp (calculateForExtents exampleExternals (exampleWorld exampleMapFull 0 [])
        ⟨-1, -1, -1⟩ ⟨1, 1, 1⟩ true).map (i16vec3 0 0 0) = some 1 := by
  decide

/-- C9, amended. After `calculateForExtents(map, min, max, force = true)` over a world box
that covers a resident region `r` whose 26 neighbours are resident too, the clearance stamp
of `r` equals `T_occ(r)`, the maximum of the occupancy stamps of `r` and its neighbours at
entry; the occupancy stamp of `r` is unchanged; so the two stamps of `r` are equal exactly
when no neighbour has a higher occupancy stamp than `r`. The GPU delegate and the flush of
the GPU clearance cache are assumed to change neither a touch stamp nor the set of
resident chunks. -/
theorem calculateForExtents_forced_clearance_stamp (x : Externals F) (hgpu : x.GpuKeepsStamps)
    (hflush : x.FlushKeepsStamps) (w : World F) (min_extents max_extents : Vec3 Rat)
    (r : I16Vec3) (c : MapChunk F) (hres : w.map.chunks r = some c)
    (hnb : ∀ k ∈ neighbourKeys r, (w.map.chunks k).isSome = true)
    (hbox : inBox (x.regionKey w.map min_extents) (x.regionKey w.map max_extents) r) :
    clearanceStamp (calculateForExtents x w min_extents max_extents true).map r
        = some (T_occ w.map r) ∧
      occupancyStamp (calculateForExtents x w min_extents max_extents true).map r
        = some (c.touched_stamps kDlOccupancy) ∧
      (T_occ w.map r = c.touched_stamps kDlOccupancy ↔
        ∀ k ∈ neighbourKeys r, ∀ ck, w.map.chunks k = some ck →
          ck.touched_stamps kDlOccupancy ≤ c.touched_stamps kDlOccupancy) := by
  have hall : ∀ k ∈ r :: neighbourKeys r, (w.map.chunks k).isSome = true := by
    intro k hk
    cases List.mem_cons.1 hk with
    | inl h => rw [h, hres]; rfl
    | inr h => exact hnb k h
  have hocc : occupancyStamp w.map r = some (c.touched_stamps kDlOccupancy) := by
    simp [occupancyStamp, hres]
  obtain ⟨pre, post, hsplit, hpost⟩ := split_at_last r _ (mem_boxKeys _ _ r hbox)
  have h0 : OccKeep w.map (flushClearanceCache x w.map) := by
    intro k s hs
    rw [occupancyStamp_of_touchStamps (congrFun (hflush w.map) k)]
    exact hs
  have h1 : OccKeep w.map
      (pre.foldl (fun w k => (updateRegion x w k true).2)
        { w with map := flushClearanceCache x w.map }).map :=
    fun k s hs => foldl_updateRegion_occKeep x hgpu true pre _ k s (h0 k s hs)
  have hfinal : calculateForExtents x w min_extents max_extents true =
      post.foldl (fun w k => (updateRegion x w k true).2)
        (updateRegion x (pre.foldl (fun w k => (updateRegion x w k true).2)
          { w with map := flushClearanceCache x w.map }) r true).2 := by
    simp only [calculateForExtents, calculateForExtentsLoop_eq_foldl, hsplit, List.foldl_append,
      List.foldl_cons]
  refine ⟨?_, ?_, ?_⟩
  · rw [hfinal, foldl_updateRegion_clearance_other x hgpu true r post hpost]
    have hr1 := h1 r _ hocc
    cases hc1 : (pre.foldl (fun w k => (updateRegion x w k true).2)
        { w with map := flushClearanceCache x w.map }).map.chunks r with
    | none => simp [occupancyStamp, hc1] at hr1
    | some c1 =>
      rw [updateRegion_forced_stamp x hgpu _ r c1 hc1, T_occ_of_occKeep w.map _ r h1 hall]
  · rw [hfinal]
    exact foldl_updateRegion_occKeep x hgpu true post _ r _
      (updateRegion_occKeep x hgpu _ r true r _ (h1 r _ hocc))
  · simp only [T_occ, residentOccupancyStamps, List.filterMap_cons, hres, Option.map_some',
      List.foldr_cons]
    rw [max_eq_left_iff, foldr_max_le_iff]
    simp only [List.mem_filterMap, Option.map_eq_some']
    constructor
    · intro h k hk ck hck
      exact h _ ⟨k, hk, ck, hck, rfl⟩
    · rintro h a ⟨k, hk, ck, hck, rfl⟩
      exact h k hk ck hck

theorem calculateForExtents_forced_clearance_stamp_witness :
    exampleExternals.GpuKeepsStamps ∧ exampleExternals.FlushKeepsStamps ∧
      (exampleWorld exampleMapFull 0 []).map.chunks (i16vec3 0 0 0) = some (exampleChunk 1 0) ∧
      (∀ k ∈ neighbourKeys (i16vec3 0 0 0),
        ((exampleWorld exampleMapFull 0 []).map.chunks k).isSome = true) ∧
      inBox (exampleExternals.regionKey (exampleWorld exampleMapFull 0 []).map ⟨-1, -1, -1⟩)
        (exampleExternals.regionKey (exampleWorld exampleMapFull 0 []).map ⟨1, 1, 1⟩)
        (i16vec3 0 0 0) ∧
      (clearanceStamp (calculateForExtents exampleExternals (exampleWorld exampleMapFull 0 [])
          ⟨-1, -1, -1⟩ ⟨1, 1, 1⟩ true).map (i16vec3 0 0 0)
          = some (T_occ (exampleWorld exampleMapFull 0 []).map (i16vec3 0 0 0)) ∧
        occupancyStamp (calculateForExtents exampleExternals (exampleWorld exampleMapFull 0 [])
          ⟨-1, -1, -1⟩ ⟨1, 1, 1⟩ true).map (i16vec3 0 0 0)
          = some ((exampleChunk 1 0).touched_stamps kDlOccupancy) ∧
        (T_occ (exampleWorld exampleMapFull 0 []).map (i16vec3 0 0 0)
            = (exampleChunk 1 0).touched_stamps kDlOccupancy ↔
          ∀ k ∈ neighbourKeys (i16vec3 0 0 0), ∀ ck,
            (exampleWorld exampleMapFull 0 []).map.chunks k = some ck →
              ck.touched_stamps kDlOccupancy
                ≤ (exampleChunk 1 0).touched_stamps kDlOccupancy)) :=
  ⟨fun _ _ _ => rfl, fun _ => rfl, by rfl, by decide, by unfold inBox; decide,
    calculateForExtents_forced_clearance_stamp exampleExternals (fun _ _ _ => rfl)
      (fun _ => rfl) (exampleWorld exampleMapFull 0 []) ⟨-1, -1, -1⟩ ⟨1, 1, 1⟩ (i16vec3 0 0 0)
      (exampleChunk 1 0) (by rfl) (by decide) (by unfold inBox; decide)⟩

/-! ## Claims on `GpuProgramRef` -/

/-- The object `addReference` returns after a call with a reference count above zero. -/
theorem addReference_of_pos {Dev P A : Type} (g : Gputil Dev P A) (self : GpuProgramRef P)
    (gpu : Dev) (h : 0 < self.program_ref_) :
    GpuProgramRef.addReference g self gpu
      = (true, { self with program_ref_ := self.program_ref_ + 1 }, []) := by
  have h0 : self.program_ref_ ≠ 0 := by omega
  simp only [GpuProgramRef.addReference, h0, if_false]

/-- A call of `addReference` with a reference count of zero attempts one build. -/
theorem addReference_of_zero_builds {Dev P A : Type} (g : Gputil Dev P A)
    (self : GpuProgramRef P) (gpu : Dev) (h : self.program_ref_ = 0) :
    (GpuProgramRef.addReference g self gpu).2.2 ≠ [] := by
  simp only [GpuProgramRef.addReference, h, if_true]
  split <;> split <;> simp

/-- A call of `addReference` that returns false leaves the reference count at zero. -/
theorem addReference_false_count {Dev P A : Type} (g : Gputil Dev P A)
    (self : GpuProgramRef P) (gpu : Dev)
    (h : (GpuProgramRef.addReference g self gpu).1 = false) :
    (GpuProgramRef.addReference g self gpu).2.1.program_ref_ = 0 ∧
      (GpuProgramRef.addReference g self gpu).2.1.program_ = g.defaultProgram := by
  obtain ⟨p, n, nm, src, st⟩ := self
  by_cases h0 : n = 0
  · subst h0
    cases st with
    | kSourceFile =>
      by_cases herr : (g.buildFromFile (g.newProgram gpu nm) src
          (g.clearArgs (g.setGpuBuildVersion g.defaultBuildArgs))).1 = 0
      · simp [GpuProgramRef.addReference, herr] at h
      · simp [GpuProgramRef.addReference, herr]
    | kSourceString => simp [GpuProgramRef.addReference] at h
  · simp [GpuProgramRef.addReference, h0] at h

/-- C17, the code at the failing input. A program from an embedded source string whose
build fails (`buildFromSource` returns the error code -11), reference count zero:
`addReference` returns true, the reference count becomes 1 and `isValid()` is true, while
the same failure of a build from a file makes `addReference` return false, resets the
program and leaves the count at zero. -/
theorem addReference_source_string_failure_undetected :
    (exampleGputil.buildFromSource 1 "bad" 3 ()).1 = -11 ∧
      (GpuProgramRef.addReference exampleGputil
        (GpuProgramRef.new exampleGputil "kernel" SourceType.kSourceString "bad" 0) ()).1
          = true ∧
      (GpuProgramRef.addReference exampleGputil
        (GpuProgramRef.new exampleGputil "kernel" SourceType.kSourceString "bad" 0) ()).2.1.program_ref_
          = 1 ∧
      (GpuProgramRef.addReference exampleGputil
        (GpuProgramRef.new exampleGputil "kernel" SourceType.kSourceString "bad" 0) ()).2.1.isValid
          = true ∧
      (GpuProgramRef.addReference exampleGputil
        (GpuProgramRef.new exampleGputil "kernel" SourceType.kSourceFile "bad" 0) ()).1
          = false ∧
      (GpuProgramRef.addReference exampleGputil
        (GpuProgramRef.new exampleGputil "kernel" SourceType.kSourceFile "bad" 0) ()).2.1.program_ref_
          = 0 := by
  decide

/-- C18. `addReference` attempts a build exactly when the reference count is zero at the
time of the call. With a count `n > 0` it performs no build, leaves the program object
untouched, returns true and makes the count `n + 1`. After a failed call (one that returned
false) the count is still zero and the next call attempts the build again. -/
theorem addReference_builds_iff_count_zero {Dev P A : Type} (g : Gputil Dev P A)
    (self : GpuProgramRef P) (gpu : Dev) :
    ((GpuProgramRef.addReference g self gpu).2.2 ≠ [] ↔ self.program_ref_ = 0) ∧
      (0 < self.program_ref_ →
        GpuProgramRef.addReference g self gpu
          = (true, { self with program_ref_ := self.program_ref_ + 1 }, [])) ∧
      ((GpuProgramRef.addReference g self gpu).1 = false →
        (GpuProgramRef.addReference g self gpu).2.1.program_ref_ = 0 ∧
          ∀ gpu2, (GpuProgramRef.addReference g
            (GpuProgramRef.addReference g self gpu).2.1 gpu2).2.2 ≠ []) := by
  refine ⟨⟨fun h => ?_, addReference_of_zero_builds g self gpu⟩,
    addReference_of_pos g self gpu, fun h => ?_⟩
  · by_contra h0
    rw [addReference_of_pos g self gpu (by omega)] at h
    exact h rfl
  · have hc := (addReference_false_count g self gpu h).1
    exact ⟨hc, fun gpu2 => addReference_of_zero_builds g _ gpu2 hc⟩

theorem addReference_builds_iff_count_zero_witness :
    (((GpuProgramRef.addReference exampleGputil
          (GpuProgramRef.new exampleGputil "kernel" SourceType.kSourceFile "bad" 0) ()).2.2 ≠ [] ↔
        (GpuProgramRef.new exampleGputil "kernel" SourceType.kSourceFile "bad" 0).program_ref_ = 0) ∧
      (0 < (GpuProgramRef.new exampleGputil "kernel" SourceType.kSourceFile "bad" 0).program_ref_ →
        GpuProgramRef.addReference exampleGputil
            (GpuProgramRef.new exampleGputil "kernel" SourceType.kSourceFile "bad" 0) ()
          = (true, { GpuProgramRef.new exampleGputil "kernel" SourceType.kSourceFile "bad" 0 with
              program_ref_ :=
                (GpuProgramRef.new exampleGputil "kernel" SourceType.kSourceFile "bad"
                  0).program_ref_ + 1 }, [])) ∧
      ((GpuProgramRef.addReference exampleGputil
          (GpuProgramRef.new exampleGputil "kernel" SourceType.kSourceFile "bad" 0) ()).1 = false →
        (GpuProgramRef.addReference exampleGputil
          (GpuProgramRef.new exampleGputil "kernel" SourceType.kSourceFile "bad" 0)
            ()).2.1.program_ref_ = 0 ∧
          ∀ gpu2, (GpuProgramRef.addReference exampleGputil
            (GpuProgramRef.addReference exampleGputil
              (GpuProgramRef.new exampleGputil "kernel" SourceType.kSourceFile "bad" 0) ()).2.1
            gpu2).2.2 ≠ [])) ∧
      (GpuProgramRef.addReference exampleGputil
        (GpuProgramRef.new exampleGputil "kernel" SourceType.kSourceFile "bad" 0) ()).1 = false :=
  ⟨addReference_builds_iff_count_zero exampleGputil
    (GpuProgramRef.new exampleGputil "kernel" SourceType.kSourceFile "bad" 0) (), by decide⟩

theorem addReference_true_count {Dev P A : Type} (g : Gputil Dev P A)
    (self : GpuProgramRef P) (gpu : Dev)
    (h : (GpuProgramRef.addReference g self gpu).1 = true) :
    (GpuProgramRef.addReference g self gpu).2.1.program_ref_ = self.program_ref_ + 1 := by
  obtain ⟨p, n, nm, src, st⟩ := self
  by_cases h0 : n = 0
  · subst h0
    cases st with
    | kSourceFile =>
      by_cases herr : (g.buildFromFile (g.newProgram gpu nm) src
          (g.clearArgs (g.setGpuBuildVersion g.defaultBuildArgs))).1 = 0
      · simp [GpuProgramRef.addReference, herr]
      · simp [GpuProgramRef.addReference, herr] at h
    | kSourceString => simp [GpuProgramRef.addReference]
  · simp [GpuProgramRef.addReference, h0]

theorem addReferences_count {Dev P A : Type} (g : Gputil Dev P A) (gpus : List Dev) :
    ∀ self : GpuProgramRef P,
      (∀ b ∈ (GpuProgramRef.addReferences g gpus self).1, b = true) →
      (GpuProgramRef.addReferences g gpus self).2.program_ref_
        = self.program_ref_ + gpus.length := by
  induction gpus with
  | nil => exact fun _ _ => rfl
  | cons gpu gpus ih =>
    intro self h
    simp only [GpuProgramRef.addReferences, List.mem_cons, forall_eq_or_imp] at h ⊢
    rw [ih _ h.2, addReference_true_count g self gpu h.1, List.length_cons]
    omega

theorem releaseReference_count {Dev P A : Type} (g : Gputil Dev P A) (self : GpuProgramRef P) :
    (GpuProgramRef.releaseReference g self).program_ref_ = self.program_ref_ - 1 := by
  unfold GpuProgramRef.releaseReference
  by_cases h : self.program_ref_ > 0
  · simp only [h, if_true]
    split <;> rfl
  · simp only [h, if_false]
    omega

theorem releaseReference_iterate_count {Dev P A : Type} (g : Gputil Dev P A) (j : Nat) :
    ∀ self : GpuProgramRef P,
      ((GpuProgramRef.releaseReference g)^[j] self).program_ref_ = self.program_ref_ - j := by
  induction j with
  | zero => exact fun _ => rfl
  | succ j ih =>
    intro self
    rw [Function.iterate_succ_apply, ih, releaseReference_count]
    omega

/-- C19. Reference counting is balanced and never underflows: `isValid()` is true exactly
when the reference count is above zero; `releaseReference` with count 0 changes nothing,
with count 1 makes the count 0 and resets the program object, with count `n > 1` makes the
count `n - 1` and keeps the program. Hence, from an object with count zero (a fresh one),
after `k` successful calls of `addReference` followed by `j` calls of `releaseReference`,
`isValid()` is true exactly when `j < k`: false after `k` releases, true after fewer. -/
theorem releaseReference_balanced {Dev P A : Type} (g : Gputil Dev P A)
    (self : GpuProgramRef P) :
    (self.isValid = true ↔ 0 < self.program_ref_) ∧
      (self.program_ref_ = 0 → GpuProgramRef.releaseReference g self = self) ∧
      (self.program_ref_ = 1 → GpuProgramRef.releaseReference g self
        = { self with program_ref_ := 0, program_ := g.defaultProgram }) ∧
      (1 < self.program_ref_ → GpuProgramRef.releaseReference g self
        = { self with program_ref_ := self.program_ref_ - 1 }) ∧
      (∀ gpus : List Dev, self.program_ref_ = 0 →
        (∀ b ∈ (GpuProgramRef.addReferences g gpus self).1, b = true) →
        ∀ j, ((GpuProgramRef.releaseReference g)^[j]
            (GpuProgramRef.addReferences g gpus self).2).isValid = decide (j < gpus.length)) := by
  refine ⟨by simp [GpuProgramRef.isValid], fun h => ?_, fun h => ?_, fun h => ?_,
    fun gpus h0 hall j => ?_⟩
  · simp [GpuProgramRef.releaseReference, h]
  · simp [GpuProgramRef.releaseReference, h]
  · have h1 : self.program_ref_ - 1 ≠ 0 := by omega
    have h2 : 0 < self.program_ref_ := by omega
    simp [GpuProgramRef.releaseReference, h1, h2]
  · simp only [GpuProgramRef.isValid, releaseReference_iterate_count,
      addReferences_count g gpus self hall, h0]
    congr 1
    apply propext
    constructor <;> intro h <;> omega

theorem releaseReference_balanced_witness :
    (GpuProgramRef.new exampleGputil "kernel" SourceType.kSourceFile "good" 0).program_ref_ = 0 ∧
      (∀ b ∈ (GpuProgramRef.addReferences exampleGputil [(), ()]
        (GpuProgramRef.new exampleGputil "kernel" SourceType.kSourceFile "good" 0)).1,
          b = true) ∧
      (((GpuProgramRef.new exampleGputil "kernel" SourceType.kSourceFile "good" 0).isValid = true ↔
          0 < (GpuProgramRef.new exampleGputil "kernel" SourceType.kSourceFile "good"
            0).program_ref_) ∧
        ((GpuProgramRef.new exampleGputil "kernel" SourceType.kSourceFile "good" 0).program_ref_
            = 0 →
          GpuProgramRef.releaseReference exampleGputil
            (GpuProgramRef.new exampleGputil "kernel" SourceType.kSourceFile "good" 0)
            = GpuProgramRef.new exampleGputil "kernel" SourceType.kSourceFile "good" 0) ∧
        ((GpuProgramRef.new exampleGputil "kernel" SourceType.kSourceFile "good" 0).program_ref_
            = 1 →
          GpuProgramRef.releaseReference exampleGputil
            (GpuProgramRef.new exampleGputil "kernel" SourceType.kSourceFile "good" 0)
            = { GpuProgramRef.new exampleGputil "kernel" SourceType.kSourceFile "good" 0 with
                program_ref_ := 0, program_ := exampleGputil.defaultProgram }) ∧
        (1 < (GpuProgramRef.new exampleGputil "kernel" SourceType.kSourceFile "good"
            0).program_ref_ →
          GpuProgramRef.releaseReference exampleGputil
            (GpuProgramRef.new exampleGputil "kernel" SourceType.kSourceFile "good" 0)
            = { GpuProgramRef.new exampleGputil "kernel" SourceType.kSourceFile "good" 0 with
                program_ref_ :=
                  (GpuProgramRef.new exampleGputil "kernel" SourceType.kSourceFile "good"
                    0).program_ref_ - 1 }) ∧
        (∀ gpus : List Unit,
          (GpuProgramRef.new exampleGputil "kernel" SourceType.kSourceFile "good" 0).program_ref_
            = 0 →
          (∀ b ∈ (GpuProgramRef.addReferences exampleGputil gpus
            (GpuProgramRef.new exampleGputil "kernel" SourceType.kSourceFile "good" 0)).1,
              b = true) →
          ∀ j, ((GpuProgramRef.releaseReference exampleGputil)^[j]
              (GpuProgramRef.addReferences exampleGputil gpus
                (GpuProgramRef.new exampleGputil "kernel" SourceType.kSourceFile "good"
                  0)).2).isValid = decide (j < gpus.length))) :=
  ⟨by decide, by decide, releaseReference_balanced exampleGputil
    (GpuProgramRef.new exampleGputil "kernel" SourceType.kSourceFile "good" 0)⟩

/-! ## Claims on `MapProbability.h` -/

/-- C20. Over exact real arithmetic extended with minus infinity:
`valueToProbability(-infinity) = 0`; for every finite log-odds value `v`,
`valueToProbability(v) = 1 - 1 / (1 + exp(v))`; and in every case the result lies in the
closed interval `[0, 1]`. -/
theorem valueToProbability_is_probability :
    valueToProbability Real.exp (⊥ : WithBot ℝ) = 0 ∧
      (∀ v : ℝ, valueToProbability Real.exp (v : WithBot ℝ) = 1 - 1 / (1 + Real.exp v)) ∧
      ∀ value : WithBot ℝ,
        0 ≤ valueToProbability Real.exp value ∧ valueToProbability Real.exp value ≤ 1 := by
  refine ⟨rfl, fun _ => rfl, fun value => ?_⟩
  cases value with
  | bot => exact ⟨le_refl _, zero_le_one⟩
  | coe v =>
    have hpos : 0 < 1 + Real.exp v := by positivity
    have h1 : 1 / (1 + Real.exp v) ≤ 1 := by
      rw [div_le_one hpos]
      linarith [Real.exp_pos v]
    have h0 : 0 ≤ 1 / (1 + Real.exp v) := by positivity
    constructor
    · show 0 ≤ 1 - 1 / (1 + Real.exp v)
      linarith
    · show 1 - 1 / (1 + Real.exp v) ≤ 1
      linarith

/-! ## Lemmas on the worker events -/

theorem occupancyQueryRegions_events (x : Externals F) (w : World F) (r : I16Vec3)
    (f : OccupancyMap F → ClearanceProcessDetail F → I16Vec3 → OccupancyMap F × Nat) :
    (occupancyQueryRegions x w r f).events = w.events ++
      (x.queryRegionKeys w.map r w.imp.search_radius).map Event.regionClearanceProcessCpu := by
  unfold occupancyQueryRegions
  generalize x.queryRegionKeys w.map r w.imp.search_radius = ks
  induction ks generalizing w with
  | nil => simp
  | cons k ks ih =>
    rw [List.foldl_cons, ih]
    simp

theorem updateRegionCpu_events (x : Externals F) (w : World F) (r : I16Vec3) :
    ∃ ks : List I16Vec3, (updateRegionCpu x w r).events = w.events ++
        ((if (w.imp.query_flags &&& x.kQfGpuEvaluate) != 0 then [Event.cerrGpuUnavailable]
          else []) ++ Event.occupancyQueryRegions r :: ks.map Event.regionClearanceProcessCpu) := by
  refine ⟨x.queryRegionKeys w.map r w.imp.search_radius, ?_⟩
  unfold updateRegionCpu
  rw [occupancyQueryRegions_events]
  by_cases h : ((w.imp.query_flags &&& x.kQfGpuEvaluate) != 0) = true
  · simp [h]
  · simp [h]

theorem updateRegionWork_cpu (x : Externals F) (w : World F) (r : I16Vec3)
    (h : gpuSelected x w.imp = false) : updateRegionWork x w r = updateRegionCpu x w r := by
  unfold gpuSelected at h
  simp only [updateRegionWork, h, Bool.false_eq_true, if_false]

theorem updateRegionWork_gpu (x : Externals F) (w : World F) (r : I16Vec3)
    (h : gpuSelected x w.imp = true) : updateRegionWork x w r = updateRegionGpu x w r := by
  unfold gpuSelected at h
  simp only [updateRegionWork, h, if_true]

theorem mem_foldr_max_le (l : List Nat) (a : Nat) (h : a ∈ l) : a ≤ l.foldr max 0 :=
  (foldr_max_le_iff l _).1 (le_refl _) a h

theorem offset_mem26 (dx dy dz : Int) (hdx : dx = -1 ∨ dx = 0 ∨ dx = 1)
    (hdy : dy = -1 ∨ dy = 0 ∨ dy = 1) (hdz : dz = -1 ∨ dz = 0 ∨ dz = 1)
    (h0 : ¬ (dx = 0 ∧ dy = 0 ∧ dz = 0)) : (dx, dy, dz) ∈ neighbourOffsets26 := by
  rcases hdx with h1 | h1 | h1 <;> rcases hdy with h2 | h2 | h2 <;>
    rcases hdz with h3 | h3 | h3 <;> subst h1 <;> subst h2 <;> subst h3 <;>
    first
    | decide
    | exact absurd ⟨rfl, rfl, rfl⟩ h0

theorem mem_neighbourhood (r n : I16Vec3)
    (hadj : (|r.x.val - n.x.val| ≤ 1) ∧ (|r.y.val - n.y.val| ≤ 1) ∧ (|r.z.val - n.z.val| ≤ 1)) :
    r ∈ n :: neighbourKeys n := by
  obtain ⟨hx, hy, hz⟩ := hadj
  rw [abs_le] at hx hy hz
  have hr : n.offset (r.x.val - n.x.val) (r.y.val - n.y.val) (r.z.val - n.z.val) = r := by
    cases r
    simp only [I16Vec3.offset, add_sub_cancel, toI16_of_val]
  by_cases h0 : r.x.val - n.x.val = 0 ∧ r.y.val - n.y.val = 0 ∧ r.z.val - n.z.val = 0
  · rw [h0.1, h0.2.1, h0.2.2, offset_zero] at hr
    rw [hr]
    exact List.mem_cons_self _ _
  · apply List.mem_cons_of_mem
    rw [neighbourKeys, List.mem_map]
    exact ⟨(r.x.val - n.x.val, r.y.val - n.y.val, r.z.val - n.z.val),
      offset_mem26 _ _ _ (by omega) (by omega) (by omega) h0, hr⟩

/-! ## Claims on the staleness refresh and the worker dispatch -/

/-- C13. An occupancy write in region `r` makes `r` and its neighbours require
recomputation: for resident regions `r` and `n` whose keys differ by at most 1 on each
axis (`n = r` included), if the occupancy stamp of `r` is above the clearance stamp of `n`,
then `updateRegion(map, n, force = false)` does not skip: it returns true and runs a
worker on `n` (the GPU delegate or the CPU region query). -/
theorem updateRegion_recomputes_neighbours_of_touched (x : Externals F) (w : World F)
    (r n : I16Vec3) (cr cn : MapChunk F) (hr : w.map.chunks r = some cr)
    (hn : w.map.chunks n = some cn)
    (hadj : (|r.x.val - n.x.val| ≤ 1) ∧ (|r.y.val - n.y.val| ≤ 1) ∧ (|r.z.val - n.z.val| ≤ 1))
    (hocc : cr.touched_stamps kDlOccupancy > cn.touched_stamps kDlClearance) :
    (updateRegion x w n false).1 = true ∧
      (Event.gpuCalculateForRegion n ∈ (updateRegion x w n false).2.events ∨
        Event.occupancyQueryRegions n ∈ (updateRegion x w n false).2.events) := by
  have hT : cr.touched_stamps kDlOccupancy ≤ T_occ w.map n := by
    apply mem_foldr_max_le
    simp only [residentOccupancyStamps, List.mem_filterMap]
    exact ⟨r, mem_neighbourhood r n hadj, by simp [hr]⟩
  rw [updateRegion_some x w n false cn w.map (region_resident x w.map n _ cn hn)]
  have hstale : ¬ (cn.touched_stamps kDlClearance ≥ T_occ w.map n) := by omega
  simp only [Bool.not_false, Bool.true_and, decide_eq_true_eq, hstale, if_false, true_and]
  cases hg : gpuSelected x w.imp with
  | true =>
    left
    rw [updateRegionWork_gpu x { w with calls := w.calls ++ [(n, false)], map := w.map } n hg]
    simp [updateRegionGpu]
  | false =>
    right
    rw [updateRegionWork_cpu x { w with calls := w.calls ++ [(n, false)], map := w.map } n hg]
    obtain ⟨es, hes⟩ := updateRegionCpu_events x
      { w with calls := w.calls ++ [(n, false)], map := w.map } n
    rw [hes]
    simp

theorem updateRegion_recomputes_neighbours_of_touched_witness :
    exampleMap.chunks (i16vec3 1 0 0) = some (exampleChunk 5 0) ∧
      exampleMap.chunks (i16vec3 0 0 0) = some (exampleChunk 1 1) ∧
      ((|(i16vec3 1 0 0).x.val - (i16vec3 0 0 0).x.val| ≤ 1) ∧
        (|(i16vec3 1 0 0).y.val - (i16vec3 0 0 0).y.val| ≤ 1) ∧
        (|(i16vec3 1 0 0).z.val - (i16vec3 0 0 0).z.val| ≤ 1)) ∧
      (exampleChunk 5 0).touched_stamps kDlOccupancy
        > (exampleChunk 1 1).touched_stamps kDlClearance ∧
      ((updateRegion exampleExternals (exampleWorld exampleMap 0 []) (i16vec3 0 0 0) false).1
          = true ∧
        (Event.gpuCalculateForRegion (i16vec3 0 0 0) ∈ (updateRegion exampleExternals
            (exampleWorld exampleMap 0 []) (i16vec3 0 0 0) false).2.events ∨
          Event.occupancyQueryRegions (i16vec3 0 0 0) ∈ (updateRegion exampleExternals
            (exampleWorld exampleMap 0 []) (i16vec3 0 0 0) false).2.events)) :=
  ⟨by rfl, by rfl, by decide, by decide,
    updateRegion_recomputes_neighbours_of_touched exampleExternals (exampleWorld exampleMap 0 [])
      (i16vec3 1 0 0) (i16vec3 0 0 0) (exampleChunk 5 0) (exampleChunk 1 1) (by rfl) (by rfl)
      (by decide) (by decide)⟩
theorem updateRegion_true_region (x : Externals F) (w : World F) (r : I16Vec3) (force : Bool)
    (hrun : (updateRegion x w r force).1 = true) :
    ∃ c, OccupancyMap.region x w.map r
        ((w.imp.query_flags &&& x.kQfInstantiateUnknown) != 0) = (some c, entryMap x w r) ∧
      updateRegion x w r force =
        (true,
          { updateRegionWork x
              { w with calls := w.calls ++ [(r, force)], map := entryMap x w r } r with
            map := (updateRegionWork x
              { w with calls := w.calls ++ [(r, force)], map := entryMap x w r }
                r).map.setTouchedStamp r kDlClearance (T_occ (entryMap x w r) r) }) := by
  cases hreg : OccupancyMap.region x w.map r
      ((w.imp.query_flags &&& x.kQfInstantiateUnknown) != 0) with
  | mk oc map1 =>
    cases oc with
    | none =>
      rw [updateRegion_null x w r force (by rw [hreg])] at hrun
      simp at hrun
    | some c =>
      have hm : entryMap x w r = map1 := by simp only [entryMap, hreg]
      rw [updateRegion_some x w r force c map1 hreg] at hrun ⊢
      rw [hm]
      refine ⟨c, rfl, ?_⟩
      split at hrun
      · simp at hrun
      · rename_i hc
        simp only [hc, Bool.false_eq_true, if_false]

/-- C14. When `updateRegion` recomputes a region (returns true), it runs exactly one of two
paths. If `kQfGpuEvaluate` is set and the GPU query is valid, it sets the axis scaling,
search radius and query flags of the GPU query to the current values of the process and
then calls `calculateForRegion(map, region_key)` on it: these four calls are all the worker
events of the call, and the map on return is the delegate's result with the clearance stamp
written. In every other case the process detail is unchanged, the CPU region query runs for
the region, and no event of the call is a call of the GPU query. -/
theorem updateRegion_runs_exactly_one_path (x : Externals F) (w : World F) (r : I16Vec3)
    (force : Bool) (hrun : (updateRegion x w r force).1 = true) :
    (gpuSelected x w.imp = true →
        (updateRegion x w r force).2.imp.gpu_query =
            { w.imp.gpu_query with
              axis_scaling := w.imp.axis_scaling
              search_radius := w.imp.search_radius
              query_flags := w.imp.query_flags } ∧
          (updateRegion x w r force).2.events = w.events ++
            [Event.gpuSetAxisScaling w.imp.axis_scaling,
              Event.gpuSetSearchRadius w.imp.search_radius,
              Event.gpuSetQueryFlags w.imp.query_flags, Event.gpuCalculateForRegion r] ∧
          (updateRegion x w r force).2.map =
            (x.gpuCalculateForRegion (updateRegion x w r force).2.imp.gpu_query
              (entryMap x w r) r).setTouchedStamp r kDlClearance (T_occ (entryMap x w r) r)) ∧
      (gpuSelected x w.imp = false →
        (updateRegion x w r force).2.imp = w.imp ∧
          ∃ es, (updateRegion x w r force).2.events = w.events ++ es ∧
            Event.occupancyQueryRegions r ∈ es ∧ ∀ e ∈ es, Event.isGpu e = false) := by
  obtain ⟨c, _, heq⟩ := updateRegion_true_region x w r force hrun
  rw [heq]
  constructor
  · intro hg
    rw [updateRegionWork_gpu x
      { w with calls := w.calls ++ [(r, force)], map := entryMap x w r } r hg]
    exact ⟨rfl, rfl, rfl⟩
  · intro hg
    rw [updateRegionWork_cpu x
      { w with calls := w.calls ++ [(r, force)], map := entryMap x w r } r hg]
    obtain ⟨ks, hks⟩ := updateRegionCpu_events x
      { w with calls := w.calls ++ [(r, force)], map := entryMap x w r } r
    refine ⟨(updateRegionCpu_imp_calls x _ r).1, _, hks, by simp, ?_⟩
    intro e he
    simp only [List.mem_append, List.mem_cons, List.mem_map] at he
    rcases he with he | he | ⟨k, _, he⟩
    · split at he
      · simp only [List.mem_singleton] at he
        rw [he]; rfl
      · simp at he
    · rw [he]; rfl
    · rw [← he]; rfl

theorem updateRegion_runs_exactly_one_path_witness :
    (updateRegion exampleExternals (exampleWorld exampleMap 0 []) (i16vec3 0 0 0) false).1 = true ∧
      ((gpuSelected exampleExternals (exampleWorld exampleMap 0 []).imp = true →
          (updateRegion exampleExternals (exampleWorld exampleMap 0 [])
              (i16vec3 0 0 0) false).2.imp.gpu_query =
              { (exampleWorld exampleMap 0 []).imp.gpu_query with
                axis_scaling := (exampleWorld exampleMap 0 []).imp.axis_scaling
                search_radius := (exampleWorld exampleMap 0 []).imp.search_radius
                query_flags := (exampleWorld exampleMap 0 []).imp.query_flags } ∧
            (updateRegion exampleExternals (exampleWorld exampleMap 0 [])
              (i16vec3 0 0 0) false).2.events = (exampleWorld exampleMap 0 []).events ++
              [Event.gpuSetAxisScaling (exampleWorld exampleMap 0 []).imp.axis_scaling,
                Event.gpuSetSearchRadius (exampleWorld exampleMap 0 []).imp.search_radius,
                Event.gpuSetQueryFlags (exampleWorld exampleMap 0 []).imp.query_flags,
                Event.gpuCalculateForRegion (i16vec3 0 0 0)] ∧
            (updateRegion exampleExternals (exampleWorld exampleMap 0 [])
              (i16vec3 0 0 0) false).2.map =
              (exampleExternals.gpuCalculateForRegion
                (updateRegion exampleExternals (exampleWorld exampleMap 0 [])
                  (i16vec3 0 0 0) false).2.imp.gpu_query
                (entryMap exampleExternals (exampleWorld exampleMap 0 []) (i16vec3 0 0 0))
                (i16vec3 0 0 0)).setTouchedStamp (i16vec3 0 0 0) kDlClearance
                (T_occ (entryMap exampleExternals (exampleWorld exampleMap 0 []) (i16vec3 0 0 0))
                  (i16vec3 0 0 0))) ∧
        (gpuSelected exampleExternals (exampleWorld exampleMap 0 []).imp = false →
          (updateRegion exampleExternals (exampleWorld exampleMap 0 [])
              (i16vec3 0 0 0) false).2.imp = (exampleWorld exampleMap 0 []).imp ∧
            ∃ es, (updateRegion exampleExternals (exampleWorld exampleMap 0 [])
                (i16vec3 0 0 0) false).2.events = (exampleWorld exampleMap 0 []).events ++ es ∧
              Event.occupancyQueryRegions (i16vec3 0 0 0) ∈ es ∧
              ∀ e ∈ es, Event.isGpu e = false)) :=
  ⟨by decide, updateRegion_runs_exactly_one_path exampleExternals (exampleWorld exampleMap 0 [])
    (i16vec3 0 0 0) false (by decide)⟩
/-! ## The fallback message -/

theorem countP_regionEvents (p : Event F → Bool)
    (hp : ∀ k, p (Event.regionClearanceProcessCpu k) = false) (ks : List I16Vec3) :
    (ks.map Event.regionClearanceProcessCpu).countP p = 0 := by
  induction ks with
  | nil => rfl
  | cons k ks ih => simp [List.countP_cons, ih, hp]

/-- The events one call of `updateRegion` adds when `kQfGpuEvaluate` is set and the GPU
query is invalid: a recomputation adds one fallback message and one CPU region query, a
skip adds nothing; the process detail is unchanged. -/
theorem updateRegion_fallback_events (x : Externals F) (w : World F) (r : I16Vec3)
    (force : Bool) (hflag : ((w.imp.query_flags &&& x.kQfGpuEvaluate) != 0) = true)
    (hinvalid : w.imp.gpu_query.valid = false) :
    (updateRegion x w r force).2.imp = w.imp ∧
      ∃ n, n ≤ 1 ∧
        (updateRegion x w r force).2.events.countP Event.isCerr
          = w.events.countP Event.isCerr + n ∧
        (updateRegion x w r force).2.events.countP Event.isCpuQuery
          = w.events.countP Event.isCpuQuery + n := by
  have hg : gpuSelected x w.imp = false := by simp [gpuSelected, hinvalid]
  cases hreg : OccupancyMap.region x w.map r
      ((w.imp.query_flags &&& x.kQfInstantiateUnknown) != 0) with
  | mk oc map1 =>
    cases oc with
    | none =>
      rw [updateRegion_null x w r force (by rw [hreg])]
      exact ⟨rfl, 0, by omega, rfl, rfl⟩
    | some c =>
      rw [updateRegion_some x w r force c map1 hreg]
      split
      · exact ⟨rfl, 0, by omega, rfl, rfl⟩
      · rw [updateRegionWork_cpu x
          { w with calls := w.calls ++ [(r, force)], map := map1 } r hg]
        obtain ⟨ks, hks⟩ := updateRegionCpu_events x
          { w with calls := w.calls ++ [(r, force)], map := map1 } r
        refine ⟨(updateRegionCpu_imp_calls x _ r).1, 1, le_refl _, ?_, ?_⟩
        · simp only [hks, hflag, if_true, List.countP_append, List.countP_cons,
            countP_regionEvents Event.isCerr (fun _ => rfl), List.countP_nil, Event.isCerr]
          simp
        · simp only [hks, hflag, if_true, List.countP_append, List.countP_cons,
            countP_regionEvents Event.isCpuQuery (fun _ => rfl), List.countP_nil,
            Event.isCpuQuery]
          simp

theorem bodySteps_fallback_events (x : Externals F) (n : Nat) :
    ∀ (w w2 : World F), ((w.imp.query_flags &&& x.kQfGpuEvaluate) != 0) = true →
      w.imp.gpu_query.valid = false → bodySteps x n w = some w2 →
      ∃ m, m ≤ n ∧
        w2.events.countP Event.isCerr = w.events.countP Event.isCerr + m ∧
        w2.events.countP Event.isCpuQuery = w.events.countP Event.isCpuQuery + m := by
  induction n with
  | zero =>
    intro w w2 _ _ h
    simp only [bodySteps, Option.some.injEq] at h
    subst h
    exact ⟨0, le_refl _, rfl, rfl⟩
  | succ n ih =>
    intro w w2 hflag hinvalid h
    simp only [bodySteps] at h
    split at h
    · obtain ⟨himp, m1, hm1, hc1, hq1⟩ :=
        updateRegion_fallback_events x w w.imp.current_dirty_cursor false hflag hinvalid
      have hb : (updateLoopBody x 0 w).2.events
            = (updateRegion x w w.imp.current_dirty_cursor false).2.events ∧
          (updateLoopBody x 0 w).2.imp.query_flags = w.imp.query_flags ∧
          (updateLoopBody x 0 w).2.imp.gpu_query = w.imp.gpu_query := by
        simp only [updateLoopBody]
        split <;> refine ⟨rfl, ?_, ?_⟩ <;>
          simp only [ClearanceProcessDetail.getWork, ClearanceProcessDetail.stepCursor, himp]
      obtain ⟨m2, hm2, hc2, hq2⟩ := ih _ w2 (by rw [hb.2.1]; exact hflag)
        (by rw [hb.2.2]; exact hinvalid) h
      rw [hb.1] at hc2 hq2
      exact ⟨m1 + m2, by omega, by omega, by omega⟩
    · simp at h

/-- C15, counterexample. With `kQfGpuEvaluate` set and the GPU query invalid, one call of
`update` that recomputes the two stale regions of the map writes the fallback message
twice. -/
theorem update_writes_fallback_message_twice :
    ((exampleWorld exampleMap 8 []).imp.query_flags &&& exampleScanExternals.kQfGpuEvaluate) ≠ 0 ∧
      (exampleWorld exampleMap 8 []).imp.gpu_query.valid = false ∧
      (update exampleScanExternals 5 0 (fun _ => 0) (exampleWorld exampleMap 8 [])).map
          (fun r => r.2.events)
        = some [Event.cerrGpuUnavailable, Event.occupancyQueryRegions (i16vec3 0 0 0),
            Event.regionClearanceProcessCpu (i16vec3 0 0 0),
            Event.cerrGpuUnavailable, Event.occupancyQueryRegions (i16vec3 1 0 0),
            Event.regionClearanceProcessCpu (i16vec3 1 0 0)] := by
  refine ⟨by decide, by decide, by rfl⟩

/-- C15, amended. During a call of `update` with `kQfGpuEvaluate` set and the GPU query
invalid, the fallback message is written once for every region the call recomputes: as
many times as the CPU region query runs, and hence at most once for each region handed to
`updateRegion`; it is not limited to once per call of `update`. -/
theorem update_fallback_message_per_recomputed_region (x : Externals F) (fuel : Nat)
    (ts : Rat) (clock : Nat → Rat) (w : World F) (res : MappingProcessResult) (w2 : World F)
    (hflag : ((w.imp.query_flags &&& x.kQfGpuEvaluate) != 0) = true)
    (hinvalid : w.imp.gpu_query.valid = false)
    (h : update x fuel ts clock w = some (res, w2)) :
    w2.events.countP Event.isCerr + w.events.countP Event.isCpuQuery
        = w2.events.countP Event.isCpuQuery + w.events.countP Event.isCerr ∧
      w2.events.countP Event.isCerr
        ≤ w.events.countP Event.isCerr + (w2.calls.length - w.calls.length) := by
  obtain ⟨n, el2, _, hsteps, _, _⟩ := update_run x fuel ts clock w res w2 h
  have he : (updateEntry x clock w).2.2.events = w.events ∧
      (updateEntry x clock w).2.2.imp.query_flags = w.imp.query_flags ∧
      (updateEntry x clock w).2.2.imp.gpu_query = w.imp.gpu_query := by
    simp only [updateEntry]
    split <;> exact ⟨rfl, rfl, rfl⟩
  obtain ⟨m, hm, hc, hq⟩ := bodySteps_fallback_events x n _ w2 (by rw [he.2.1]; exact hflag)
    (by rw [he.2.2]; exact hinvalid) hsteps
  have hlen := bodySteps_calls_length x n _ w2 hsteps
  rw [(updateEntry_frame x clock w).2.1] at hlen
  rw [he.1] at hc hq
  constructor <;> omega

theorem update_fallback_message_per_recomputed_region_witness :
    (((exampleWorld exampleMap 8 []).imp.query_flags &&& exampleScanExternals.kQfGpuEvaluate)
        != 0) = true ∧
      (exampleWorld exampleMap 8 []).imp.gpu_query.valid = false ∧
      update exampleScanExternals 5 0 (fun _ => 0) (exampleWorld exampleMap 8 [])
        = some (MappingProcessResult.kMprProgressing, exampleFallback) ∧
      (exampleFallback.events.countP Event.isCerr
            + (exampleWorld exampleMap 8 []).events.countP Event.isCpuQuery
          = exampleFallback.events.countP Event.isCpuQuery
            + (exampleWorld exampleMap 8 []).events.countP Event.isCerr ∧
        exampleFallback.events.countP Event.isCerr
          ≤ (exampleWorld exampleMap 8 []).events.countP Event.isCerr
            + (exampleFallback.calls.length - (exampleWorld exampleMap 8 []).calls.length)) :=
  ⟨by decide, by decide, by rfl,
    update_fallback_message_per_recomputed_region exampleScanExternals 5 0 (fun _ => 0)
      (exampleWorld exampleMap 8 []) MappingProcessResult.kMprProgressing exampleFallback
      (by decide) (by decide) (by rfl)⟩

/-! ## Lemmas on clearance writes -/

theorem occupancyView_applyWrite (G : OccupancyKey → F) (T : I16Vec3 → Nat)
    (S : OccupancyKey → Bool) (St : I16Vec3 → Bool) (m : OccupancyMap F) :
    occupancyView (applyWrite G T S St m) = occupancyView m := by
  simp only [occupancyView, applyWrite, Prod.mk.injEq, true_and]
  funext k
  cases m.chunks k with
  | none => rfl
  | some c =>
    simp only [Option.map_some', Option.some.injEq, chunkView, Prod.mk.injEq, true_and]
    funext l
    by_cases hl : l = kDlClearance <;> simp [hl]

theorem applyWrite_applyWrite (G : OccupancyKey → F) (T : I16Vec3 → Nat)
    (S1 S2 : OccupancyKey → Bool) (St1 St2 : I16Vec3 → Bool) (m : OccupancyMap F) :
    applyWrite G T S1 St1 (applyWrite G T S2 St2 m)
      = applyWrite G T (fun key => S1 key || S2 key) (fun k => St1 k || St2 k) m := by
  simp only [applyWrite, OccupancyMap.mk.injEq, and_true]
  funext k
  cases m.chunks k with
  | none => rfl
  | some c =>
    simp only [Option.map_some', Option.some.injEq, MapChunk.mk.injEq, true_and]
    constructor
    · funext ly
      by_cases h1 : ly = kDlClearance <;> by_cases h2 : St1 k = true <;>
        by_cases h3 : St2 k = true <;> simp [h1, h2, h3]
    · funext l
      by_cases h2 : S1 ⟨k, l⟩ = true <;> by_cases h3 : S2 ⟨k, l⟩ = true <;> simp [h2, h3]

theorem applyWrite_nothing (G : OccupancyKey → F) (T : I16Vec3 → Nat) (m : OccupancyMap F) :
    applyWrite G T (fun _ => false) (fun _ => false) m = m := by
  cases m with
  | mk chunks dims =>
    simp only [applyWrite, OccupancyMap.mk.injEq, and_true]
    funext k
    cases chunks k with
    | none => rfl
    | some c => simp

theorem applyWrite_congr (G : OccupancyKey → F) (T : I16Vec3 → Nat)
    (S1 S2 : OccupancyKey → Bool) (St1 St2 : I16Vec3 → Bool) (m : OccupancyMap F)
    (hS : ∀ key, S1 key = S2 key) (hSt : ∀ k, St1 k = St2 k) :
    applyWrite G T S1 St1 m = applyWrite G T S2 St2 m := by
  have h1 : S1 = S2 := funext hS
  have h2 : St1 = St2 := funext hSt
  rw [h1, h2]

theorem setClearance_eq_applyWrite (G : OccupancyKey → F) (T : I16Vec3 → Nat)
    (m : OccupancyMap F) (key : OccupancyKey) :
    m.setClearance key (G key)
      = applyWrite G T (fun k => decide (k = key)) (fun _ => false) m := by
  cases m with
  | mk chunks dims =>
    simp only [OccupancyMap.setClearance, applyWrite, OccupancyMap.mk.injEq, and_true]
    funext k
    by_cases hk : k = key.region_key
    · cases hc : chunks k with
      | none => simp [hk, hc]
      | some c =>
        simp only [hk, if_true, hc, Option.map_some', Option.some.injEq, MapChunk.mk.injEq]
        refine ⟨by simp, trivial, ?_⟩
        funext l
        by_cases hl : l = key.local_key
        · have : (⟨key.region_key, l⟩ : OccupancyKey) = key := by rw [hl]
          simp [hl]
        · have : ¬ (⟨key.region_key, l⟩ : OccupancyKey) = key := by
            intro h; apply hl; rw [← h]
          simp [hl, this]
    · cases hc : chunks k with
      | none => simp [hk, hc]
      | some c =>
        simp only [hk, if_false, hc, Option.map_some', Option.some.injEq]
        cases c
        simp only [MapChunk.mk.injEq, true_and]
        refine ⟨by simp, ?_⟩
        funext l
        have : ¬ (⟨k, l⟩ : OccupancyKey) = key := by
          intro h; apply hk; rw [← h]
        simp [this]

theorem setTouchedStamp_eq_applyWrite (G : OccupancyKey → F) (T : I16Vec3 → Nat)
    (m : OccupancyMap F) (r : I16Vec3) :
    m.setTouchedStamp r kDlClearance (T r)
      = applyWrite G T (fun _ => false) (fun k => decide (k = r)) m := by
  cases m with
  | mk chunks dims =>
    simp only [OccupancyMap.setTouchedStamp, applyWrite, OccupancyMap.mk.injEq, and_true]
    funext k
    by_cases hk : k = r
    · cases hc : chunks k with
      | none => simp [hk, hc]
      | some c =>
        subst hk
        simp only [if_true, hc, Option.map_some', Option.some.injEq, MapChunk.mk.injEq]
        refine ⟨?_, trivial, by simp⟩
        funext ly
        by_cases hl : ly = kDlClearance <;> simp [hl]
    · cases hc : chunks k with
      | none => simp [hk, hc]
      | some c =>
        simp only [hk, if_false, hc, Option.map_some', Option.some.injEq]
        cases c
        simp [hk]
/-! ## The block worker as a write -/

theorem regionClearanceProcessCpuBlock_eq_foldl (x : Externals F) (m : OccupancyMap F)
    (q : ClearanceProcessDetail F) (bs be : IVec3) (r : I16Vec3) (chunk : Option (MapChunk F))
    (h : IVec3) :
    regionClearanceProcessCpuBlock x m q bs be r chunk h
      = (blockKeys bs be).foldl
          (fun m l => regionClearanceProcessCpuVoxel x q chunk h m ⟨r, l⟩) m := by
  simp only [regionClearanceProcessCpuBlock, blockKeys, foldl_flatMap_eq, List.foldl_map]
  rfl

theorem mem_blockKeys (bs be l : IVec3) : l ∈ blockKeys bs be ↔ inBlock bs be l = true := by
  simp only [blockKeys, List.mem_flatMap, List.mem_map, mem_intRange, inBlock,
    decide_eq_true_eq]
  constructor
  · rintro ⟨z, hz, y, hy, xv, hx, rfl⟩
    exact ⟨hx, hy, hz⟩
  · rintro ⟨hx, hy, hz⟩
    exact ⟨l.z, hz, l.y, hy, l.x, hx, rfl⟩

theorem foldl_voxel_eq_applyWrite (x : Externals F) (q : ClearanceProcessDetail F) (h : IVec3)
    (G : OccupancyKey → F) (T : I16Vec3 → Nat) (P : OccupancyMap F → Prop)
    (hP : ∀ S St m, P m → P (applyWrite G T S St m))
    (hG : ∀ m key, P m → nearestNeighbourOf x q m h key = G key)
    (r : I16Vec3) (c : MapChunk F) (ls : List IVec3) (m : OccupancyMap F) (hv : P m) :
    ls.foldl (fun m l => regionClearanceProcessCpuVoxel x q (some c) h m ⟨r, l⟩) m
      = applyWrite G T
          (fun key => decide (key.region_key = r ∧ key.local_key ∈ ls)) (fun _ => false) m := by
  induction ls generalizing m with
  | nil =>
    simp only [List.foldl_nil, List.not_mem_nil, and_false, decide_False]
    exact (applyWrite_nothing _ _ m).symm
  | cons l ls ih =>
    have hstep : regionClearanceProcessCpuVoxel x q (some c) h m ⟨r, l⟩
        = applyWrite G T
            (fun k => decide (k = (⟨r, l⟩ : OccupancyKey))) (fun _ => false) m := by
      rw [← setClearance_eq_applyWrite, ← hG m _ hv]
      simp only [regionClearanceProcessCpuVoxel, OccupancyNode.isNull, Option.isNone_some,
        Bool.not_false, if_true, nearestNeighbourOf]
    rw [List.foldl_cons, ih _ (by rw [hstep]; exact hP _ _ _ hv), hstep,
      applyWrite_applyWrite]
    apply applyWrite_congr
    · intro key
      cases key with
      | mk kr kl =>
        by_cases h1 : kr = r <;> by_cases h2 : kl = l <;> by_cases h3 : kl ∈ ls <;>
          simp [h1, h2, h3]
    · intro k; rfl

theorem regionClearanceProcessCpuBlock_eq_applyWrite (x : Externals F)
    (q : ClearanceProcessDetail F) (h : IVec3)
    (G : OccupancyKey → F) (T : I16Vec3 → Nat) (P : OccupancyMap F → Prop)
    (hP : ∀ S St m, P m → P (applyWrite G T S St m))
    (hG : ∀ m key, P m → nearestNeighbourOf x q m h key = G key)
    (r : I16Vec3) (c : MapChunk F)
    (bs be : IVec3) (m : OccupancyMap F) (hv : P m) :
    regionClearanceProcessCpuBlock x m q bs be r (some c) h
      = applyWrite G T
          (fun key => decide (key.region_key = r) && inBlock bs be key.local_key)
          (fun _ => false) m := by
  rw [regionClearanceProcessCpuBlock_eq_foldl,
    foldl_voxel_eq_applyWrite x q h G T P hP hG r c _ m hv]
  apply applyWrite_congr
  · intro key
    by_cases h1 : key.region_key = r <;> by_cases h2 : inBlock bs be key.local_key = true <;>
      simp [h1, h2, mem_blockKeys]
  · intro k; rfl

theorem foldl_blocks_eq_applyWrite (x : Externals F)
    (q : ClearanceProcessDetail F) (h : IVec3)
    (G : OccupancyKey → F) (T : I16Vec3 → Nat) (P : OccupancyMap F → Prop)
    (hP : ∀ S St m, P m → P (applyWrite G T S St m))
    (hG : ∀ m key, P m → nearestNeighbourOf x q m h key = G key)
    (r : I16Vec3) (c : MapChunk F)
    (tiles : List (IVec3 × IVec3)) (m : OccupancyMap F) (hv : P m) :
    tiles.foldl (fun m b => regionClearanceProcessCpuBlock x m q b.1 b.2 r (some c) h) m
      = applyWrite G T
          (fun key => decide (key.region_key = r) &&
            tiles.any fun b => inBlock b.1 b.2 key.local_key)
          (fun _ => false) m := by
  induction tiles generalizing m with
  | nil =>
    simp only [List.foldl_nil, List.any_nil, Bool.and_false]
    exact (applyWrite_nothing _ _ m).symm
  | cons b tiles ih =>
    have hstep := regionClearanceProcessCpuBlock_eq_applyWrite x q h G T P hP hG r c b.1 b.2 m hv
    rw [List.foldl_cons, ih _ (by rw [hstep]; exact hP _ _ _ hv), hstep,
      applyWrite_applyWrite]
    apply applyWrite_congr
    · intro key
      by_cases h1 : key.region_key = r <;>
        by_cases h2 : inBlock b.1 b.2 key.local_key = true <;>
        simp [h1, h2]
    · intro k; rfl

/-! ## C12: tiling equals sequential traversal -/

/-- C12. Let the absent `calculateNearestNeighbour` read no clearance data, let `r` be a
resident region of `m`, whose chunk the caller hands to every call, and let `blocks` be
blocks whose union is the voxel grid `[0, dim.x) x [0, dim.y) x [0, dim.z)` of the map.
Running `regionClearanceProcessCpuBlock` once per block, in any order `tiles` of the blocks,
gives exactly the map that one call over the whole grid gives. Each call, run on any map that
differs from `m` in the clearance layer only, writes to the voxels of region `r` inside its
own block the nearest neighbour result computed from `m`, and changes nothing else. -/
theorem regionClearanceProcessCpuBlock_tiling_eq_sequential (x : Externals F)
    (m : OccupancyMap F) (q : ClearanceProcessDetail F) (r : I16Vec3) (c : MapChunk F)
    (h : IVec3) (blocks tiles : List (IVec3 × IVec3))
    (hnn : x.NearestNeighbourReadsNoClearance)
    (hres : m.findRegion r = some c)
    (hcover : ∀ l, (∃ b ∈ blocks, inBlock b.1 b.2 l = true) ↔
      inBlock ⟨0, 0, 0⟩ m.region_voxel_dimensions l = true)
    (horder : tiles.Perm blocks) :
    tiles.foldl (fun m2 b =>
          regionClearanceProcessCpuBlock x m2 q b.1 b.2 r (m.findRegion r) h) m
        = regionClearanceProcessCpuBlock x m q ⟨0, 0, 0⟩ m.region_voxel_dimensions r
            (m.findRegion r) h ∧
      ∀ b ∈ tiles, ∀ m2, occupancyView m2 = occupancyView m →
        regionClearanceProcessCpuBlock x m2 q b.1 b.2 r (m.findRegion r) h
          = applyWrite (nearestNeighbourOf x q m h) (fun _ => 0)
              (fun key => decide (key.region_key = r) && inBlock b.1 b.2 key.local_key)
              (fun _ => false) m2 := by
  have hP : ∀ S St m2, occupancyView m2 = occupancyView m →
      occupancyView (applyWrite (nearestNeighbourOf x q m h) (fun _ => 0) S St m2)
        = occupancyView m := by
    intro S St m2 hv
    rw [occupancyView_applyWrite]
    exact hv
  have hG : ∀ m2 key, occupancyView m2 = occupancyView m →
      nearestNeighbourOf x q m2 h key = nearestNeighbourOf x q m h key := by
    intro m2 key hv
    exact hnn m2 m hv _ _ _ _ _ _ _
  rw [hres]
  constructor
  · rw [foldl_blocks_eq_applyWrite x q h _ (fun _ => 0) _ hP hG r c tiles m rfl,
      regionClearanceProcessCpuBlock_eq_applyWrite x q h _ (fun _ => 0) _ hP hG r c _ _ m rfl]
    apply applyWrite_congr
    · intro key
      have hc := hcover key.local_key
      have hany : (tiles.any fun b => inBlock b.1 b.2 key.local_key) = true ↔
          ∃ b ∈ blocks, inBlock b.1 b.2 key.local_key = true := by
        rw [List.any_eq_true]
        constructor
        · rintro ⟨b, hb, hin⟩
          exact ⟨b, horder.mem_iff.mp hb, hin⟩
        · rintro ⟨b, hb, hin⟩
          exact ⟨b, horder.mem_iff.mpr hb, hin⟩
      rw [hc] at hany
      by_cases h2 : inBlock ⟨0, 0, 0⟩ m.region_voxel_dimensions key.local_key = true
      · rw [h2, hany.mpr h2]
      · have h3 : ¬ (tiles.any fun b => inBlock b.1 b.2 key.local_key) = true :=
          fun h3 => h2 (hany.mp h3)
        rw [Bool.not_eq_true] at h2 h3
        rw [h2, h3]
    · intro k; rfl
  · intro b _ m2 hv
    exact regionClearanceProcessCpuBlock_eq_applyWrite x q h _ (fun _ => 0) _ hP hG r c
      b.1 b.2 m2 hv

theorem exampleTileExternals_reads (m m2 : OccupancyMap Nat)
    (hv : occupancyView m = occupancyView m2) (key : OccupancyKey) (h : IVec3) (a b : Bool)
    (r : Nat) (s : Vec3 Nat) (u : Bool) :
    exampleTileExternals.calculateNearestNeighbour key m h a b r s u
      = exampleTileExternals.calculateNearestNeighbour key m2 h a b r s u := by
  have hk := congrFun (congrArg Prod.snd hv) key.region_key
  simp only [occupancyView, chunkView] at hk
  simp only [exampleTileExternals]
  cases h1 : m.chunks key.region_key <;> cases h2 : m2.chunks key.region_key <;>
    rw [h1, h2] at hk <;> simp at hk ⊢
  rw [(Prod.mk.inj hk).1]

theorem regionClearanceProcessCpuBlock_tiling_eq_sequential_witness :
    exampleTileMap.findRegion (i16vec3 0 0 0) = some (exampleChunk 1 0) ∧
      (exampleTiles.reverse.foldl (fun m2 b => regionClearanceProcessCpuBlock
            exampleTileExternals m2 (exampleDetail 0 []) b.1 b.2 (i16vec3 0 0 0)
            (exampleTileMap.findRegion (i16vec3 0 0 0)) ⟨1, 1, 1⟩)
          exampleTileMap
        = regionClearanceProcessCpuBlock exampleTileExternals exampleTileMap (exampleDetail 0 [])
            ⟨0, 0, 0⟩ exampleTileMap.region_voxel_dimensions (i16vec3 0 0 0)
            (exampleTileMap.findRegion (i16vec3 0 0 0)) ⟨1, 1, 1⟩ ∧
        ∀ b ∈ exampleTiles.reverse, ∀ m2, occupancyView m2 = occupancyView exampleTileMap →
          regionClearanceProcessCpuBlock exampleTileExternals m2 (exampleDetail 0 []) b.1 b.2
              (i16vec3 0 0 0) (exampleTileMap.findRegion (i16vec3 0 0 0)) ⟨1, 1, 1⟩
            = applyWrite (nearestNeighbourOf exampleTileExternals (exampleDetail 0 [])
                  exampleTileMap ⟨1, 1, 1⟩) (fun _ => 0)
                (fun key => decide (key.region_key = i16vec3 0 0 0) &&
                  inBlock b.1 b.2 key.local_key)
                (fun _ => false) m2) :=
  ⟨by rfl, regionClearanceProcessCpuBlock_tiling_eq_sequential exampleTileExternals
    exampleTileMap (exampleDetail 0 []) (i16vec3 0 0 0) (exampleChunk 1 0) ⟨1, 1, 1⟩
    exampleTiles exampleTiles.reverse exampleTileExternals_reads (by rfl)
    (by
      intro l
      simp only [exampleTiles, exampleTileMap, inBlock, List.mem_cons, List.mem_singleton,
        List.not_mem_nil, or_false, exists_eq_or_imp, exists_eq_left, decide_eq_true_eq]
      omega)
    (List.reverse_perm exampleTiles)⟩
/-! ## The forced CPU pass as a sequence of writes -/

theorem occupancyQueryRegions_foldl_map
    (f : OccupancyMap F → ClearanceProcessDetail F → I16Vec3 → OccupancyMap F × Nat)
    (ks : List I16Vec3) (w : World F) :
    (ks.foldl (fun w k =>
        ({ w with
          map := (f w.map w.imp k).1
          events := w.events ++ [Event.regionClearanceProcessCpu k] } : World F)) w).map
      = ks.foldl (fun m k => (f m w.imp k).1) w.map ∧
    (ks.foldl (fun w k =>
        ({ w with
          map := (f w.map w.imp k).1
          events := w.events ++ [Event.regionClearanceProcessCpu k] } : World F)) w).imp
      = w.imp := by
  induction ks generalizing w with
  | nil => exact ⟨rfl, rfl⟩
  | cons k ks ih =>
    simp only [List.foldl_cons]
    exact ih _

theorem updateRegionCpu_map (x : Externals F) (w : World F) (k : I16Vec3) :
    (updateRegionCpu x w k).map = cpuQueryMap x w.imp w.map k := by
  unfold updateRegionCpu occupancyQueryRegions cpuQueryMap
  simp only
  rw [(occupancyQueryRegions_foldl_map (regionClearanceProcessCpu x) _ _).1]
  split <;> rfl

theorem updateRegion_forced_cpu (x : Externals F) (w : World F) (k : I16Vec3)
    (hcpu : gpuSelected x w.imp = false) :
    (updateRegion x w k true).2.map = forcedCpuStep x w.imp w.map k ∧
      (updateRegion x w k true).2.imp = w.imp := by
  unfold forcedCpuStep
  cases hr : OccupancyMap.region x w.map k
      ((w.imp.query_flags &&& x.kQfInstantiateUnknown) != 0) with
  | mk o m1 =>
    cases o with
    | none =>
      rw [updateRegion_null x w k true (by rw [hr])]
      exact ⟨rfl, rfl⟩
    | some c =>
      rw [updateRegion_some x w k true c m1 hr]
      simp only [Bool.not_true, Bool.false_and, Bool.false_eq_true, if_false]
      rw [updateRegionWork_cpu x
        { map := m1, imp := w.imp, events := w.events, calls := w.calls ++ [(k, true)] } k hcpu]
      exact ⟨by rw [updateRegionCpu_map], (updateRegionCpu_imp_calls x _ k).1⟩

theorem foldl_updateRegion_forced_cpu (x : Externals F) (ks : List I16Vec3) (w : World F)
    (hcpu : gpuSelected x w.imp = false) :
    (ks.foldl (fun w k => (updateRegion x w k true).2) w).map
        = ks.foldl (forcedCpuStep x w.imp) w.map ∧
      (ks.foldl (fun w k => (updateRegion x w k true).2) w).imp = w.imp := by
  induction ks generalizing w with
  | nil => exact ⟨rfl, rfl⟩
  | cons k ks ih =>
    obtain ⟨hm, hi⟩ := updateRegion_forced_cpu x w k hcpu
    have h := ih (updateRegion x w k true).2 (by rw [hi]; exact hcpu)
    simp only [List.foldl_cons]
    rw [h.1, h.2, hm, hi]
    exact ⟨rfl, rfl⟩

theorem calculateForExtents_forced_cpu (x : Externals F) (w : World F) (mn mx : Vec3 Rat)
    (hcpu : gpuSelected x w.imp = false) :
    (calculateForExtents x w mn mx true).map
        = (boxKeys (x.regionKey w.map mn) (x.regionKey w.map mx)).foldl
            (forcedCpuStep x w.imp) (flushClearanceCache x w.map) ∧
      (calculateForExtents x w mn mx true).imp = w.imp := by
  unfold calculateForExtents
  simp only [calculateForExtentsLoop_eq_foldl]
  exact foldl_updateRegion_forced_cpu x _ { w with map := flushClearanceCache x w.map } hcpu
/-! ## The process view -/

theorem chunkView_write (G : OccupancyKey → F) (T : I16Vec3 → Nat) (S : OccupancyKey → Bool)
    (St : I16Vec3 → Bool) (k : I16Vec3) (c : MapChunk F) :
    chunkView ({ c with
        clearance := fun l => if S ⟨k, l⟩ then G ⟨k, l⟩ else c.clearance l
        touched_stamps := fun ly =>
          if ly = kDlClearance ∧ St k = true then T k else c.touched_stamps ly } : MapChunk F)
      = chunkView c := by
  simp only [chunkView, Prod.mk.injEq, true_and]
  funext l
  by_cases hl : l = kDlClearance <;> simp [hl]

theorem applyWrite_chunks (G : OccupancyKey → F) (T : I16Vec3 → Nat) (S : OccupancyKey → Bool)
    (St : I16Vec3 → Bool) (m : OccupancyMap F) (k : I16Vec3) :
    (applyWrite G T S St m).chunks k = (m.chunks k).map fun c =>
      { c with
        clearance := fun l => if S ⟨k, l⟩ then G ⟨k, l⟩ else c.clearance l
        touched_stamps := fun ly =>
          if ly = kDlClearance ∧ St k = true then T k else c.touched_stamps ly } := rfl

theorem processView_applyWrite (x : Externals F) (b : Bool) (G : OccupancyKey → F)
    (T : I16Vec3 → Nat) (S : OccupancyKey → Bool) (St : I16Vec3 → Bool) (m : OccupancyMap F) :
    processView x b (applyWrite G T S St m) = processView x b m := by
  simp only [processView, Prod.mk.injEq]
  refine ⟨rfl, ?_⟩
  funext k
  simp only [obtainableChunk, applyWrite_chunks]
  cases m.chunks k with
  | none => rfl
  | some c => simp only [Option.map_some', chunkView_write]

theorem region_cases (x : Externals F) (m : OccupancyMap F) (k : I16Vec3) (b : Bool) :
    (m.chunks k = none ∧ (b = false ∨ x.newChunk k = none) ∧
        OccupancyMap.region x m k b = (none, m)) ∨
      (∃ c, m.chunks k = some c ∧ OccupancyMap.region x m k b = (some c, m)) ∨
      (∃ c, m.chunks k = none ∧ b = true ∧ x.newChunk k = some c ∧
        OccupancyMap.region x m k b = (some c, m.insert k c)) := by
  unfold OccupancyMap.region OccupancyMap.findRegion
  cases hc : m.chunks k with
  | some c => exact Or.inr (Or.inl ⟨c, rfl, rfl⟩)
  | none =>
    cases b with
    | false => exact Or.inl ⟨rfl, Or.inl rfl, rfl⟩
    | true =>
      cases hn : x.newChunk k with
      | none => exact Or.inl ⟨rfl, Or.inr rfl, by simp [hn]⟩
      | some c => exact Or.inr (Or.inr ⟨c, rfl, rfl, rfl, by simp [hn]⟩)

theorem processView_insert (x : Externals F) (m : OccupancyMap F) (k : I16Vec3)
    (c : MapChunk F) (hk : m.chunks k = none) (hn : x.newChunk k = some c) :
    processView x true (m.insert k c) = processView x true m := by
  simp only [processView, Prod.mk.injEq]
  refine ⟨rfl, ?_⟩
  funext k2
  simp only [obtainableChunk, OccupancyMap.insert]
  by_cases h : k2 = k
  · subst h
    simp [hk, hn]
  · simp [h]

theorem foldr_max_filterMap {α : Type} (f : α → Option Nat) (l : List α) :
    (l.filterMap f).foldr max 0 = (l.map fun a => (f a).getD 0).foldr max 0 := by
  induction l with
  | nil => rfl
  | cons a l ih =>
    cases h : f a with
    | none => simp [List.filterMap_cons, h, ih]
    | some v => simp [List.filterMap_cons, h, ih]

theorem occupancyStamp_of_processView (x : Externals F) (b : Bool)
    (hfresh : b = true → x.FreshChunksUntouched) (m : OccupancyMap F) (k : I16Vec3) :
    ((m.chunks k).map fun c => c.touched_stamps kDlOccupancy).getD 0
      = (((processView x b m).2 k).map fun v => v.2 kDlOccupancy).getD 0 := by
  simp only [processView, obtainableChunk]
  cases hc : m.chunks k with
  | some c => simp [chunkView, kDlOccupancy, kDlClearance]
  | none =>
    cases b with
    | false => simp
    | true =>
      cases hn : x.newChunk k with
      | none => simp
      | some c =>
        have h0 := hfresh rfl k c hn
        simp [chunkView, kDlOccupancy, kDlClearance] at h0 ⊢
        exact h0.symm

theorem T_occ_of_processView (x : Externals F) (b : Bool)
    (hfresh : b = true → x.FreshChunksUntouched) (m M : OccupancyMap F)
    (hv : processView x b m = processView x b M) (k : I16Vec3) : T_occ m k = T_occ M k := by
  simp only [T_occ, residentOccupancyStamps, foldr_max_filterMap]
  congr 1
  apply List.map_congr_left
  intro k2 _
  rw [occupancyStamp_of_processView x b hfresh m k2,
    occupancyStamp_of_processView x b hfresh M k2, hv]

/-! ## The workers of the CPU path as writes -/

theorem applyWrite_eq_self (G : OccupancyKey → F) (T : I16Vec3 → Nat) (S : OccupancyKey → Bool)
    (St : I16Vec3 → Bool) (m : OccupancyMap F)
    (h : ∀ k c, m.chunks k = some c →
      (∀ l, S ⟨k, l⟩ = true → c.clearance l = G ⟨k, l⟩) ∧
        (St k = true → c.touched_stamps kDlClearance = T k)) :
    applyWrite G T S St m = m := by
  cases m with
  | mk chunks dims =>
    simp only [applyWrite, OccupancyMap.mk.injEq, and_true]
    funext k
    cases hc : chunks k with
    | none => rfl
    | some c =>
      obtain ⟨h1, h2⟩ := h k c hc
      cases c with
      | mk ts occ clr =>
        simp only [Option.map_some', Option.some.injEq, MapChunk.mk.injEq, true_and]
        constructor
        · funext ly
          by_cases hl : ly = kDlClearance ∧ St k = true
          · rw [if_pos hl, hl.1]
            exact (h2 hl.2).symm
          · rw [if_neg hl]
        · funext l
          by_cases hs : S ⟨k, l⟩ = true
          · rw [if_pos hs]
            exact (h1 l hs).symm
          · rw [if_neg hs]

theorem regionClearanceProcessCpu_eq_applyWrite (x : Externals F) (b : Bool)
    (hread : x.ReadsProcessView b) (q : ClearanceProcessDetail F) (M : OccupancyMap F)
    (T : I16Vec3 → Nat) (m : OccupancyMap F)
    (hv : processView x b m = processView x b M) (k : I16Vec3) :
    (regionClearanceProcessCpu x m q k).1
      = applyWrite
          (nearestNeighbourOf x q M (x.calculateVoxelSearchHalfExtents M q.search_radius)) T
          (fun key => decide (key.region_key = k) &&
            inBlock ⟨0, 0, 0⟩ M.region_voxel_dimensions key.local_key)
          (fun _ => false) m := by
  unfold regionClearanceProcessCpu OccupancyMap.findRegion
  cases hc : m.chunks k with
  | none =>
    simp only
    symm
    apply applyWrite_eq_self
    intro k2 c2 hc2
    refine ⟨?_, by simp⟩
    intro l hl
    simp only [Bool.and_eq_true, decide_eq_true_eq] at hl
    rw [hl.1, hc] at hc2
    simp at hc2
  | some c =>
    simp only
    have hd : m.region_voxel_dimensions = M.region_voxel_dimensions :=
      congrArg Prod.fst hv
    rw [hd, (hread m M hv).2.1]
    exact regionClearanceProcessCpuBlock_eq_applyWrite x q _ _ T
      (fun m2 => processView x b m2 = processView x b M)
      (fun S St m2 h2 => (processView_applyWrite x b _ T S St m2).trans h2)
      (fun m2 key h2 => (hread m2 M h2).1 _ _ _ _ _ _ _) k c _ _ m hv

theorem foldl_regionClearanceProcessCpu_eq_applyWrite (x : Externals F) (b : Bool)
    (hread : x.ReadsProcessView b) (q : ClearanceProcessDetail F) (M : OccupancyMap F)
    (T : I16Vec3 → Nat) (ks : List I16Vec3) (m : OccupancyMap F)
    (hv : processView x b m = processView x b M) :
    ks.foldl (fun m k => (regionClearanceProcessCpu x m q k).1) m
      = applyWrite
          (nearestNeighbourOf x q M (x.calculateVoxelSearchHalfExtents M q.search_radius)) T
          (fun key => decide (key.region_key ∈ ks) &&
            inBlock ⟨0, 0, 0⟩ M.region_voxel_dimensions key.local_key)
          (fun _ => false) m := by
  induction ks generalizing m with
  | nil =>
    simp only [List.foldl_nil, List.not_mem_nil, decide_False, Bool.false_and]
    exact (applyWrite_nothing _ _ m).symm
  | cons k ks ih =>
    have hstep := regionClearanceProcessCpu_eq_applyWrite x b hread q M T m hv k
    rw [List.foldl_cons, ih _ (by rw [hstep, processView_applyWrite]; exact hv), hstep,
      applyWrite_applyWrite]
    apply applyWrite_congr
    · intro key
      by_cases h1 : key.region_key = k <;> by_cases h2 : key.region_key ∈ ks <;>
        by_cases h3 : inBlock ⟨0, 0, 0⟩ M.region_voxel_dimensions key.local_key = true <;>
        simp [h1, h2, h3]
    · intro k2; rfl

theorem cpuQueryMap_eq_applyWrite (x : Externals F) (b : Bool)
    (hread : x.ReadsProcessView b) (q : ClearanceProcessDetail F) (M : OccupancyMap F)
    (T : I16Vec3 → Nat) (m : OccupancyMap F)
    (hv : processView x b m = processView x b M) (k : I16Vec3) :
    cpuQueryMap x q m k
      = applyWrite
          (nearestNeighbourOf x q M (x.calculateVoxelSearchHalfExtents M q.search_radius)) T
          (fun key => decide (key.region_key ∈ x.queryRegionKeys M k q.search_radius) &&
            inBlock ⟨0, 0, 0⟩ M.region_voxel_dimensions key.local_key)
          (fun _ => false) m := by
  unfold cpuQueryMap
  rw [(hread m M hv).2.2.1]
  exact foldl_regionClearanceProcessCpu_eq_applyWrite x b hread q M T _ m hv

theorem forcedCpuStep_none (x : Externals F) (q : ClearanceProcessDetail F)
    (m : OccupancyMap F) (k : I16Vec3)
    (h : OccupancyMap.region x m k ((q.query_flags &&& x.kQfInstantiateUnknown) != 0)
      = (none, m)) :
    forcedCpuStep x q m k = m := by
  unfold forcedCpuStep
  rw [h]

theorem forcedCpuStep_some (x : Externals F) (q : ClearanceProcessDetail F)
    (hread : x.ReadsProcessView ((q.query_flags &&& x.kQfInstantiateUnknown) != 0))
    (hfresh : ((q.query_flags &&& x.kQfInstantiateUnknown) != 0) = true →
      x.FreshChunksUntouched)
    (M m m1 : OccupancyMap F) (k : I16Vec3) (c : MapChunk F)
    (hv1 : processView x ((q.query_flags &&& x.kQfInstantiateUnknown) != 0) m1
      = processView x ((q.query_flags &&& x.kQfInstantiateUnknown) != 0) M)
    (h : OccupancyMap.region x m k ((q.query_flags &&& x.kQfInstantiateUnknown) != 0)
      = (some c, m1)) :
    forcedCpuStep x q m k
      = applyWrite
          (nearestNeighbourOf x q M (x.calculateVoxelSearchHalfExtents M q.search_radius))
          (T_occ M)
          (fun key => decide (key.region_key ∈ x.queryRegionKeys M k q.search_radius) &&
            inBlock ⟨0, 0, 0⟩ M.region_voxel_dimensions key.local_key)
          (fun k2 => decide (k2 = k)) m1 := by
  unfold forcedCpuStep
  rw [h]
  simp only
  rw [T_occ_of_processView x _ hfresh m1 M hv1 k,
    setTouchedStamp_eq_applyWrite
      (nearestNeighbourOf x q M (x.calculateVoxelSearchHalfExtents M q.search_radius)),
    cpuQueryMap_eq_applyWrite x _ hread q M (T_occ M) m1 hv1 k, applyWrite_applyWrite]
  apply applyWrite_congr
  · intro key; simp
  · intro k2; simp
/-! ## The invariant of a forced CPU pass -/

theorem applyWrite_chunk_some (G : OccupancyKey → F) (T : I16Vec3 → Nat)
    (S : OccupancyKey → Bool) (St : I16Vec3 → Bool) (m : OccupancyMap F) (k : I16Vec3)
    (c2 : MapChunk F) (h : (applyWrite G T S St m).chunks k = some c2) :
    ∃ c, m.chunks k = some c ∧
      (∀ l, c2.clearance l = if S ⟨k, l⟩ then G ⟨k, l⟩ else c.clearance l) ∧
      c2.touched_stamps kDlClearance
        = if St k = true then T k else c.touched_stamps kDlClearance := by
  rw [applyWrite_chunks] at h
  cases hc : m.chunks k with
  | none => rw [hc] at h; simp at h
  | some c =>
    rw [hc] at h
    simp only [Option.map_some', Option.some.injEq] at h
    refine ⟨c, rfl, ?_, ?_⟩
    · intro l; rw [← h]
    · rw [← h]; simp

theorem applyWrite_chunk_none (G : OccupancyKey → F) (T : I16Vec3 → Nat)
    (S : OccupancyKey → Bool) (St : I16Vec3 → Bool) (m : OccupancyMap F) (k : I16Vec3)
    (h : (applyWrite G T S St m).chunks k = none) : m.chunks k = none := by
  rw [applyWrite_chunks] at h
  cases hc : m.chunks k with
  | none => rfl
  | some c => rw [hc] at h; simp at h

theorem applyWrite_invariant (x : Externals F) (b : Bool) (M : OccupancyMap F)
    (G : OccupancyKey → F) (T : I16Vec3 → Nat) (Q : I16Vec3 → List I16Vec3) (D : IVec3)
    (m m1 : OccupancyMap F) (L : List I16Vec3) (j : I16Vec3)
    (hinv : PassInvariant x b M G T Q D m L)
    (hv1 : processView x b m1 = processView x b M)
    (hm1 : ∀ k, k ≠ j → m1.chunks k = m.chunks k)
    (hj : m1.chunks j = m.chunks j ∨ j ∈ Q j)
    (hres : m1.chunks j ≠ none) :
    PassInvariant x b M G T Q D
      (applyWrite G T
        (fun key => decide (key.region_key ∈ Q j) && inBlock ⟨0, 0, 0⟩ D key.local_key)
        (fun k2 => decide (k2 = j)) m1) (j :: L) := by
  refine ⟨(processView_applyWrite x b G T _ _ m1).trans hv1, ?_⟩
  intro k hk
  constructor
  · intro c2 hc2
    obtain ⟨c1, hc1, _, hst⟩ := applyWrite_chunk_some G T _ _ m1 k c2 hc2
    constructor
    · rw [hst]
      by_cases hkj : k = j
      · simp [hkj]
      · simp only [decide_eq_true_eq, hkj, if_false]
        have hkL : k ∈ L := by
          rcases List.mem_cons.mp hk with h | h
          · exact absurd h hkj
          · exact h
        rw [hm1 k hkj] at hc1
        exact (((hinv.2 k hkL).1) c1 hc1).1
    · intro k2 hk2 c3 hc3 l hl
      obtain ⟨c4, hc4, hcl, _⟩ := applyWrite_chunk_some G T _ _ m1 k2 c3 hc3
      rw [hcl l]
      by_cases hsel : k2 ∈ Q j
      · simp [hsel, hl]
      · simp only [hsel, decide_False, Bool.false_and, Bool.false_eq_true, if_false]
        have hkj : k ≠ j := by
          intro h
          rw [h] at hk2
          exact hsel hk2
        have hkL : k ∈ L := by
          rcases List.mem_cons.mp hk with h | h
          · exact absurd h hkj
          · exact h
        rw [hm1 k hkj] at hc1
        have hm4 : m.chunks k2 = some c4 := by
          by_cases h2 : k2 = j
          · rcases hj with h | h
            · rw [h2, ← h, ← h2]; exact hc4
            · rw [h2] at hsel
              exact absurd h hsel
          · rw [← hm1 k2 h2]; exact hc4
        exact (((hinv.2 k hkL).1) c1 hc1).2 k2 hk2 c4 hm4 l hl
  · intro hnone
    have h1 := applyWrite_chunk_none G T _ _ m1 k hnone
    have hkj : k ≠ j := by
      intro h
      rw [h] at h1
      exact hres h1
    have hkL : k ∈ L := by
      rcases List.mem_cons.mp hk with h | h
      · exact absurd h hkj
      · exact h
    rw [hm1 k hkj] at h1
    exact (hinv.2 k hkL).2 h1

theorem forcedCpuStep_invariant (x : Externals F) (q : ClearanceProcessDetail F)
    (hread : x.ReadsProcessView ((q.query_flags &&& x.kQfInstantiateUnknown) != 0))
    (hfresh : ((q.query_flags &&& x.kQfInstantiateUnknown) != 0) = true →
      x.FreshChunksUntouched)
    (hself : ((q.query_flags &&& x.kQfInstantiateUnknown) != 0) = true →
      x.QueryVisitsOwnRegion)
    (M m : OccupancyMap F) (L : List I16Vec3) (j : I16Vec3)
    (hinv : PassInvariant x ((q.query_flags &&& x.kQfInstantiateUnknown) != 0) M
      (nearestNeighbourOf x q M (x.calculateVoxelSearchHalfExtents M q.search_radius))
      (T_occ M) (fun k => x.queryRegionKeys M k q.search_radius) M.region_voxel_dimensions
      m L) :
    PassInvariant x ((q.query_flags &&& x.kQfInstantiateUnknown) != 0) M
      (nearestNeighbourOf x q M (x.calculateVoxelSearchHalfExtents M q.search_radius))
      (T_occ M) (fun k => x.queryRegionKeys M k q.search_radius) M.region_voxel_dimensions
      (forcedCpuStep x q m j) (j :: L) := by
  rcases region_cases x m j ((q.query_flags &&& x.kQfInstantiateUnknown) != 0) with
    ⟨hc, hun, hr⟩ | ⟨c, hc, hr⟩ | ⟨c, hc, hb, hn, hr⟩
  · rw [forcedCpuStep_none x q m j hr]
    refine ⟨hinv.1, ?_⟩
    intro k hk
    rcases List.mem_cons.mp hk with h | h
    · rw [h]
      refine ⟨?_, fun _ => hun⟩
      intro c2 hc2
      rw [hc] at hc2
      simp at hc2
    · exact hinv.2 k h
  · rw [forcedCpuStep_some x q hread hfresh M m m j c hinv.1 hr]
    exact applyWrite_invariant x _ M _ _ (fun k => x.queryRegionKeys M k q.search_radius) _
      m m L j hinv hinv.1 (fun _ _ => rfl) (Or.inl rfl) (by rw [hc]; simp)
  · have hv1 : processView x ((q.query_flags &&& x.kQfInstantiateUnknown) != 0) (m.insert j c)
        = processView x ((q.query_flags &&& x.kQfInstantiateUnknown) != 0) M := by
      rw [← hinv.1, hb]
      exact processView_insert x m j c hc hn
    rw [forcedCpuStep_some x q hread hfresh M m (m.insert j c) j c hv1 hr]
    refine applyWrite_invariant x _ M _ _ (fun k => x.queryRegionKeys M k q.search_radius) _
      m (m.insert j c) L j hinv hv1 ?_ (Or.inr (hself hb M j q.search_radius)) ?_
    · intro k hk
      simp [OccupancyMap.insert, hk]
    · simp [OccupancyMap.insert]

theorem foldl_forcedCpuStep_invariant (x : Externals F) (q : ClearanceProcessDetail F)
    (hread : x.ReadsProcessView ((q.query_flags &&& x.kQfInstantiateUnknown) != 0))
    (hfresh : ((q.query_flags &&& x.kQfInstantiateUnknown) != 0) = true →
      x.FreshChunksUntouched)
    (hself : ((q.query_flags &&& x.kQfInstantiateUnknown) != 0) = true →
      x.QueryVisitsOwnRegion)
    (M : OccupancyMap F) (K : List I16Vec3) (m : OccupancyMap F) (L : List I16Vec3)
    (hinv : PassInvariant x ((q.query_flags &&& x.kQfInstantiateUnknown) != 0) M
      (nearestNeighbourOf x q M (x.calculateVoxelSearchHalfExtents M q.search_radius))
      (T_occ M) (fun k => x.queryRegionKeys M k q.search_radius) M.region_voxel_dimensions
      m L) :
    PassInvariant x ((q.query_flags &&& x.kQfInstantiateUnknown) != 0) M
      (nearestNeighbourOf x q M (x.calculateVoxelSearchHalfExtents M q.search_radius))
      (T_occ M) (fun k => x.queryRegionKeys M k q.search_radius) M.region_voxel_dimensions
      (K.foldl (forcedCpuStep x q) m) (K.reverse ++ L) := by
  induction K generalizing m L with
  | nil => exact hinv
  | cons j K ih =>
    have h := ih (forcedCpuStep x q m j) (j :: L)
      (forcedCpuStep_invariant x q hread hfresh hself M m L j hinv)
    simp only [List.foldl_cons, List.reverse_cons, List.append_assoc, List.singleton_append]
    exact h

theorem forcedCpuStep_fixed (x : Externals F) (q : ClearanceProcessDetail F)
    (hread : x.ReadsProcessView ((q.query_flags &&& x.kQfInstantiateUnknown) != 0))
    (hfresh : ((q.query_flags &&& x.kQfInstantiateUnknown) != 0) = true →
      x.FreshChunksUntouched)
    (M m : OccupancyMap F) (L : List I16Vec3) (j : I16Vec3) (hj : j ∈ L)
    (hinv : PassInvariant x ((q.query_flags &&& x.kQfInstantiateUnknown) != 0) M
      (nearestNeighbourOf x q M (x.calculateVoxelSearchHalfExtents M q.search_radius))
      (T_occ M) (fun k => x.queryRegionKeys M k q.search_radius) M.region_voxel_dimensions
      m L) :
    forcedCpuStep x q m j = m := by
  rcases region_cases x m j ((q.query_flags &&& x.kQfInstantiateUnknown) != 0) with
    ⟨hc, hun, hr⟩ | ⟨c, hc, hr⟩ | ⟨c, hc, hb, hn, hr⟩
  · exact forcedCpuStep_none x q m j hr
  · rw [forcedCpuStep_some x q hread hfresh M m m j c hinv.1 hr]
    apply applyWrite_eq_self
    intro k2 c2 hc2
    have hrec := (hinv.2 j hj).1 c hc
    constructor
    · intro l hl
      simp only [Bool.and_eq_true, decide_eq_true_eq] at hl
      exact hrec.2 k2 hl.1 c2 hc2 l hl.2
    · intro hst
      simp only [decide_eq_true_eq] at hst
      rw [hst, hc] at hc2
      simp only [Option.some.injEq] at hc2
      rw [hst, ← hc2]
      exact hrec.1
  · rcases (hinv.2 j hj).2 hc with h | h
    · rw [h] at hb; simp at hb
    · rw [h] at hn; simp at hn

theorem foldl_forcedCpuStep_fixed (x : Externals F) (q : ClearanceProcessDetail F)
    (hread : x.ReadsProcessView ((q.query_flags &&& x.kQfInstantiateUnknown) != 0))
    (hfresh : ((q.query_flags &&& x.kQfInstantiateUnknown) != 0) = true →
      x.FreshChunksUntouched)
    (M m : OccupancyMap F) (L K : List I16Vec3) (hK : ∀ k ∈ K, k ∈ L)
    (hinv : PassInvariant x ((q.query_flags &&& x.kQfInstantiateUnknown) != 0) M
      (nearestNeighbourOf x q M (x.calculateVoxelSearchHalfExtents M q.search_radius))
      (T_occ M) (fun k => x.queryRegionKeys M k q.search_radius) M.region_voxel_dimensions
      m L) :
    K.foldl (forcedCpuStep x q) m = m := by
  induction K with
  | nil => rfl
  | cons j K ih =>
    rw [List.foldl_cons,
      forcedCpuStep_fixed x q hread hfresh M m L j (hK j (List.mem_cons_self j K)) hinv]
    exact ih fun k hk => hK k (List.mem_cons_of_mem j hk)

/-- A forced CPU pass over the regions `K`, run a second time on its own result, changes
nothing. -/
theorem foldl_forcedCpuStep_idempotent (x : Externals F) (q : ClearanceProcessDetail F)
    (hread : x.ReadsProcessView ((q.query_flags &&& x.kQfInstantiateUnknown) != 0))
    (hfresh : ((q.query_flags &&& x.kQfInstantiateUnknown) != 0) = true →
      x.FreshChunksUntouched)
    (hself : ((q.query_flags &&& x.kQfInstantiateUnknown) != 0) = true →
      x.QueryVisitsOwnRegion)
    (K : List I16Vec3) (M : OccupancyMap F) :
    K.foldl (forcedCpuStep x q) (K.foldl (forcedCpuStep x q) M) = K.foldl (forcedCpuStep x q) M ∧
      processView x ((q.query_flags &&& x.kQfInstantiateUnknown) != 0)
          (K.foldl (forcedCpuStep x q) M)
        = processView x ((q.query_flags &&& x.kQfInstantiateUnknown) != 0) M := by
  have h0 : PassInvariant x ((q.query_flags &&& x.kQfInstantiateUnknown) != 0) M
      (nearestNeighbourOf x q M (x.calculateVoxelSearchHalfExtents M q.search_radius))
      (T_occ M) (fun k => x.queryRegionKeys M k q.search_radius) M.region_voxel_dimensions
      M [] := ⟨rfl, fun k hk => by simp at hk⟩
  have h1 := foldl_forcedCpuStep_invariant x q hread hfresh hself M K M [] h0
  refine ⟨foldl_forcedCpuStep_fixed x q hread hfresh M _ _ K ?_ h1, h1.1⟩
  intro k hk
  simp [hk]
/-! ## C11: idempotence of the forced recomputation on the CPU path -/

/-- C11. On the CPU path (`kQfGpuEvaluate` not set or the GPU query not valid), when the
flush of the GPU cache changes nothing and the absent code reads nothing but the process
view of the map (and, with `kQfInstantiateUnknown` set, a fresh chunk has occupancy stamp 0
and the region query of a region visits that region), running
`calculateForExtents(map, min, max, true)` twice in succession leaves the map after the
second call identical to the map after the first call, so every clearance voxel value and
every clearance stamp is the same; the configuration is the same before both calls. -/
theorem calculateForExtents_forced_cpu_idempotent (x : Externals F) (w : World F)
    (min_extents max_extents : Vec3 Rat)
    (hcpu : gpuSelected x w.imp = false)
    (hflush : ∀ m, flushClearanceCache x m = m)
    (hread : x.ReadsProcessView ((w.imp.query_flags &&& x.kQfInstantiateUnknown) != 0))
    (hfresh : ((w.imp.query_flags &&& x.kQfInstantiateUnknown) != 0) = true →
      x.FreshChunksUntouched)
    (hself : ((w.imp.query_flags &&& x.kQfInstantiateUnknown) != 0) = true →
      x.QueryVisitsOwnRegion) :
    (calculateForExtents x (calculateForExtents x w min_extents max_extents true)
        min_extents max_extents true).map
      = (calculateForExtents x w min_extents max_extents true).map ∧
    (calculateForExtents x w min_extents max_extents true).imp = w.imp := by
  obtain ⟨hm1, hi1⟩ := calculateForExtents_forced_cpu x w min_extents max_extents hcpu
  obtain ⟨hm2, _⟩ := calculateForExtents_forced_cpu x
    (calculateForExtents x w min_extents max_extents true) min_extents max_extents
    (by rw [hi1]; exact hcpu)
  refine ⟨?_, hi1⟩
  rw [hflush] at hm1 hm2
  rw [hi1] at hm2
  obtain ⟨hfix, hview⟩ := foldl_forcedCpuStep_idempotent x w.imp hread hfresh hself
    (boxKeys (x.regionKey w.map min_extents) (x.regionKey w.map max_extents)) w.map
  rw [← hm1] at hfix hview
  rw [hm2, (hread _ _ hview).2.2.2, (hread _ _ hview).2.2.2]
  exact hfix

theorem exampleAllocExternals_fresh : exampleAllocExternals.FreshChunksUntouched := by
  intro k c h
  simp only [exampleAllocExternals] at h
  split at h
  · simp only [Option.some.injEq] at h
    rw [← h]
    rfl
  · simp at h

theorem calculateForExtents_forced_cpu_idempotent_witness :
    (calculateForExtents exampleAllocExternals
        (calculateForExtents exampleAllocExternals (exampleWorld exampleTileMap 64 [])
          ⟨0, 0, 0⟩ ⟨1, 0, 0⟩ true) ⟨0, 0, 0⟩ ⟨1, 0, 0⟩ true).map
      = (calculateForExtents exampleAllocExternals (exampleWorld exampleTileMap 64 [])
          ⟨0, 0, 0⟩ ⟨1, 0, 0⟩ true).map ∧
    (calculateForExtents exampleAllocExternals (exampleWorld exampleTileMap 64 [])
        ⟨0, 0, 0⟩ ⟨1, 0, 0⟩ true).imp = (exampleWorld exampleTileMap 64 []).imp :=
  calculateForExtents_forced_cpu_idempotent exampleAllocExternals
    (exampleWorld exampleTileMap 64 []) ⟨0, 0, 0⟩ ⟨1, 0, 0⟩ (by decide) (fun _ => rfl)
    (fun _ _ _ => ⟨fun _ _ _ _ _ _ _ => rfl, fun _ => rfl, fun _ _ => rfl, fun _ => rfl⟩)
    (fun _ => exampleAllocExternals_fresh)
    (fun _ m k r => List.mem_singleton.mpr rfl)
/-! ## C16: the half extents of the search box -/

theorem regionClearanceProcessCpuVoxel_congr (x : Externals F)
    (nn2 : OccupancyKey → OccupancyMap F → IVec3 → Bool → Bool → F → Vec3 F → Bool → F)
    (q : ClearanceProcessDetail F) (chunk : Option (MapChunk F)) (h : IVec3)
    (hagree : ∀ key m2 a b r s u,
      nn2 key m2 h a b r s u = x.calculateNearestNeighbour key m2 h a b r s u)
    (m : OccupancyMap F) (key : OccupancyKey) :
    regionClearanceProcessCpuVoxel { x with calculateNearestNeighbour := nn2 } q chunk h m key
      = regionClearanceProcessCpuVoxel x q chunk h m key := by
  simp only [regionClearanceProcessCpuVoxel, hagree]

/-- C16, counterexample. The half extents handed to `calculateNearestNeighbour` are not
`ceil(search_radius / resolution / axis_scaling[a])`: whatever the absent
`calculateVoxelSearchHalfExtents` computes and whatever the positive resolution of a map is,
the value it returns for one of two queries that differ in the axis scaling only differs
from the formula. -/
theorem voxelSearchHalfExtents_not_scaled :
    ¬ ∃ (x : Externals Rat) (resolution : OccupancyMap Rat → Rat),
      (∀ m, 0 < resolution m) ∧
      ∀ (m : OccupancyMap Rat) (q : ClearanceProcessDetail Rat),
        0 < q.search_radius → 0 < q.axis_scaling.x → 0 < q.axis_scaling.y →
        0 < q.axis_scaling.z →
        voxelSearchHalfExtents x m q =
          ⟨specVoxelSearchHalfExtent q.search_radius (resolution m) q.axis_scaling.x,
            specVoxelSearchHalfExtent q.search_radius (resolution m) q.axis_scaling.y,
            specVoxelSearchHalfExtent q.search_radius (resolution m) q.axis_scaling.z⟩ := by
  rintro ⟨x, resolution, hres, h⟩
  have hr := hres ⟨fun _ => none, ⟨1, 1, 1⟩⟩
  have hpos : (0 : Rat) < 2 * resolution ⟨fun _ => none, ⟨1, 1, 1⟩⟩ := by linarith
  have h1 := h ⟨fun _ => none, ⟨1, 1, 1⟩⟩
    (exampleRatDetail (2 * resolution ⟨fun _ => none, ⟨1, 1, 1⟩⟩) ⟨1, 1, 1⟩) hpos
    (by show (0 : Rat) < 1; decide) (by show (0 : Rat) < 1; decide)
    (by show (0 : Rat) < 1; decide)
  have h2 := h ⟨fun _ => none, ⟨1, 1, 1⟩⟩
    (exampleRatDetail (2 * resolution ⟨fun _ => none, ⟨1, 1, 1⟩⟩) ⟨2, 2, 2⟩) hpos
    (by show (0 : Rat) < 2; decide) (by show (0 : Rat) < 2; decide)
    (by show (0 : Rat) < 2; decide)
  have h3 : voxelSearchHalfExtents x ⟨fun _ => none, ⟨1, 1, 1⟩⟩
      (exampleRatDetail (2 * resolution ⟨fun _ => none, ⟨1, 1, 1⟩⟩) ⟨1, 1, 1⟩)
      = voxelSearchHalfExtents x ⟨fun _ => none, ⟨1, 1, 1⟩⟩
      (exampleRatDetail (2 * resolution ⟨fun _ => none, ⟨1, 1, 1⟩⟩) ⟨2, 2, 2⟩) := rfl
  rw [h1, h2] at h3
  have h4 := congrArg IVec3.x h3
  simp only [specVoxelSearchHalfExtent, exampleRatDetail] at h4
  have e1 : 2 * resolution ⟨fun _ => none, ⟨1, 1, 1⟩⟩ / resolution ⟨fun _ => none, ⟨1, 1, 1⟩⟩ / 1
      = ((2 : Int) : Rat) := by
    field_simp
  have e2 : 2 * resolution ⟨fun _ => none, ⟨1, 1, 1⟩⟩ / resolution ⟨fun _ => none, ⟨1, 1, 1⟩⟩ / 2
      = ((1 : Int) : Rat) := by
    field_simp
  rw [e1, e2, Int.ceil_intCast, Int.ceil_intCast] at h4
  exact absurd h4 (by decide)

/-- C16, amended. The half extents `regionClearanceProcessCpu` hands to
`calculateNearestNeighbour` are `calculateVoxelSearchHalfExtents(map, search_radius)` of the
map on entry: they are the same for every axis scaling and every setting of the query flags,
and the result of the worker depends on `calculateNearestNeighbour` through its values at
these half extents only. -/
theorem regionClearanceProcessCpu_half_extents (x : Externals F) (m : OccupancyMap F)
    (q : ClearanceProcessDetail F) (r : I16Vec3)
    (nn2 : OccupancyKey → OccupancyMap F → IVec3 → Bool → Bool → F → Vec3 F → Bool → F)
    (hagree : ∀ key m2 a b rr s u,
      nn2 key m2 (voxelSearchHalfExtents x m q) a b rr s u
        = x.calculateNearestNeighbour key m2 (voxelSearchHalfExtents x m q) a b rr s u) :
    regionClearanceProcessCpu { x with calculateNearestNeighbour := nn2 } m q r
        = regionClearanceProcessCpu x m q r ∧
      ∀ (s : Vec3 F) (flags : Nat),
        voxelSearchHalfExtents x m { q with axis_scaling := s, query_flags := flags }
          = x.calculateVoxelSearchHalfExtents m q.search_radius := by
  refine ⟨?_, fun _ _ => rfl⟩
  unfold regionClearanceProcessCpu
  cases m.findRegion r with
  | none => rfl
  | some c =>
    simp only [Prod.mk.injEq, and_true]
    rw [regionClearanceProcessCpuBlock_eq_foldl, regionClearanceProcessCpuBlock_eq_foldl]
    congr 1
    funext m2 l
    exact regionClearanceProcessCpuVoxel_congr x nn2 q (some c) _ hagree m2 _

theorem regionClearanceProcessCpu_half_extents_witness :
    regionClearanceProcessCpu
        { exampleExternals with calculateNearestNeighbour := exampleUnitBoxSearch }
        exampleMap (exampleDetail 0 []) (i16vec3 0 0 0)
        = regionClearanceProcessCpu exampleExternals exampleMap (exampleDetail 0 [])
            (i16vec3 0 0 0) ∧
      ∀ (s : Vec3 Nat) (flags : Nat),
        voxelSearchHalfExtents exampleExternals exampleMap
            { exampleDetail 0 [] with axis_scaling := s, query_flags := flags }
          = exampleExternals.calculateVoxelSearchHalfExtents exampleMap
              (exampleDetail 0 []).search_radius :=
  regionClearanceProcessCpu_half_extents exampleExternals exampleMap (exampleDetail 0 [])
    (i16vec3 0 0 0) exampleUnitBoxSearch (fun _ _ _ _ _ _ _ => rfl)

/-! ## C21: `probabilityToValue` inverts `valueToProbability` -/

/-- C21. Over exact real arithmetic `probabilityToValue` is the inverse of
`valueToProbability`: for every probability `p` with `0 < p < 1`,
`valueToProbability(probabilityToValue(p)) = p`, and for every finite value `v`,
`probabilityToValue(valueToProbability(v)) = v`. -/
theorem probabilityToValue_inverse_of_valueToProbability :
    (∀ p : ℝ, 0 < p → p < 1 →
      valueToProbability Real.exp ((probabilityToValue Real.log p : ℝ) : WithBot ℝ) = p) ∧
    ∀ v : ℝ, probabilityToValue Real.log (valueToProbability Real.exp (v : WithBot ℝ)) = v := by
  constructor
  · intro p h0 h1
    have h1p : 0 < 1 - p := by linarith
    have hq : 0 < p / (1 - p) := div_pos h0 h1p
    show 1 - 1 / (1 + Real.exp (Real.log (p / (1 - p)))) = p
    rw [Real.exp_log hq]
    field_simp
  · intro v
    show Real.log ((1 - 1 / (1 + Real.exp v)) / (1 - (1 - 1 / (1 + Real.exp v)))) = v
    have he : 0 < Real.exp v := Real.exp_pos v
    have h : (1 - 1 / (1 + Real.exp v)) / (1 - (1 - 1 / (1 + Real.exp v))) = Real.exp v := by
      field_simp
    rw [h, Real.log_exp]

theorem probabilityToValue_inverse_of_valueToProbability_witness :
    (0 : ℝ) < 1 / 2 ∧ (1 / 2 : ℝ) < 1 ∧
      valueToProbability Real.exp
        ((probabilityToValue Real.log (1 / 2) : ℝ) : WithBot ℝ) = 1 / 2 :=
  ⟨by norm_num, by norm_num,
    probabilityToValue_inverse_of_valueToProbability.1 (1 / 2) (by norm_num) (by norm_num)⟩

/-! ## C22: the vertical axis index -/

/-- C22. For every up axis id in the range -3..2, after `updateAxis()` the field
`vertical_axis_index` lies in `[0, 2]`, equals the id when the id is not negative, and is
0, 1, 2 for the ids -1, -2, -3. -/
theorem updateAxis_vertical_axis_index {V : Type} (upAxisNormal : Int → V)
    (d : HeightmapDetail V) (hlo : -3 ≤ d.up_axis_id) (hhi : d.up_axis_id ≤ 2) :
    0 ≤ (d.updateAxis upAxisNormal).vertical_axis_index ∧
      (d.updateAxis upAxisNormal).vertical_axis_index ≤ 2 ∧
      (0 ≤ d.up_axis_id → (d.updateAxis upAxisNormal).vertical_axis_index = d.up_axis_id) ∧
      (d.up_axis_id = -1 → (d.updateAxis upAxisNormal).vertical_axis_index = 0) ∧
      (d.up_axis_id = -2 → (d.updateAxis upAxisNormal).vertical_axis_index = 1) ∧
      (d.up_axis_id = -3 → (d.updateAxis upAxisNormal).vertical_axis_index = 2) := by
  simp only [HeightmapDetail.updateAxis]
  split <;> refine ⟨?_, ?_, ?_, ?_, ?_, ?_⟩ <;> intros <;> omega

theorem updateAxis_vertical_axis_index_witness :
    0 ≤ ((⟨0, -3, 2⟩ : HeightmapDetail Nat).updateAxis fun _ => 1).vertical_axis_index ∧
      ((⟨0, -3, 2⟩ : HeightmapDetail Nat).updateAxis fun _ => 1).vertical_axis_index ≤ 2 ∧
      (0 ≤ (⟨0, -3, 2⟩ : HeightmapDetail Nat).up_axis_id →
        ((⟨0, -3, 2⟩ : HeightmapDetail Nat).updateAxis fun _ => 1).vertical_axis_index
          = (⟨0, -3, 2⟩ : HeightmapDetail Nat).up_axis_id) ∧
      ((⟨0, -3, 2⟩ : HeightmapDetail Nat).up_axis_id = -1 →
        ((⟨0, -3, 2⟩ : HeightmapDetail Nat).updateAxis fun _ => 1).vertical_axis_index = 0) ∧
      ((⟨0, -3, 2⟩ : HeightmapDetail Nat).up_axis_id = -2 →
        ((⟨0, -3, 2⟩ : HeightmapDetail Nat).updateAxis fun _ => 1).vertical_axis_index = 1) ∧
      ((⟨0, -3, 2⟩ : HeightmapDetail Nat).up_axis_id = -3 →
        ((⟨0, -3, 2⟩ : HeightmapDetail Nat).updateAxis fun _ => 1).vertical_axis_index = 2) :=
  updateAxis_vertical_axis_index (fun _ => 1) ⟨0, -3, 2⟩ (by decide) (by decide)

/-! ## C28: the index of the terminating NUL in `printf` -/

/-- C28. For every `int` value `written` that `vsnprintf` returns, the index
`min<unsigned>(written, kBufferSize)` at which `printf` stores the terminating NUL is
strictly below `kBufferSize` if and only if `0 <= written < kBufferSize`; when `written` is
`kBufferSize` or more (the formatted text has `kBufferSize` or more characters) or negative,
the index equals `kBufferSize`, one past the last element of the buffer. The comment line
of the header is such a text for every comment of 1015 or more characters: `vsnprintf`
returns the length of the line, and the index is `kBufferSize`. -/
theorem printfTerminatorIndex_in_buffer_iff (written : Int)
    (hlo : -2147483648 ≤ written) (hhi : written ≤ 2147483647) :
    (printfTerminatorIndex written < kBufferSize ↔
        0 ≤ written ∧ written < (kBufferSize : Int)) ∧
      ((kBufferSize : Int) ≤ written ∨ written < 0 →
        printfTerminatorIndex written = kBufferSize) ∧
      ∀ comment : String, 1015 ≤ comment.length → comment.length ≤ 2147483638 →
        printfTerminatorIndex ((commentLine comment).length : Int) = kBufferSize := by
  refine ⟨?_, ?_, ?_⟩
  · simp only [printfTerminatorIndex, intToU32, kBufferSize]
    omega
  · simp only [printfTerminatorIndex, intToU32, kBufferSize]
    omega
  · intro comment h1 h2
    have hlen : (commentLine comment).length = comment.length + 9 := by
      simp only [commentLine, String.length_append]
      have e1 : "comment ".length = 8 := by decide
      have e2 : "\n".length = 1 := by decide
      omega
    rw [hlen]
    simp only [printfTerminatorIndex, intToU32, kBufferSize]
    omega

theorem printfTerminatorIndex_in_buffer_iff_witness :
    (printfTerminatorIndex 2000 < kBufferSize ↔
        (0 : Int) ≤ 2000 ∧ (2000 : Int) < (kBufferSize : Int)) ∧
      ((kBufferSize : Int) ≤ 2000 ∨ (2000 : Int) < 0 →
        printfTerminatorIndex 2000 = kBufferSize) ∧
      ∀ comment : String, 1015 ≤ comment.length → comment.length ≤ 2147483638 →
        printfTerminatorIndex ((commentLine comment).length : Int) = kBufferSize :=
  printfTerminatorIndex_in_buffer_iff 2000 (by decide) (by decide)

/-- C30. `PlyMesh::clear()` empties the vertex, edge and triangle lists, sets the vertex,
edge and face colour flags to false and drops the index mapper, and leaves the normals, the
polygon records, the polygon index list and the comments exactly as they were. -/
theorem clear_keeps_normals_and_polygons {V C : Type} (m : PlyMesh V C) :
    m.clear.vertices_ = [] ∧ m.clear.edges_ = [] ∧ m.clear.triangles_ = [] ∧
      m.clear.vertex_colours_ = false ∧ m.clear.edge_colours_ = false ∧
      m.clear.face_colours_ = false ∧ m.clear.index_mapper_ = none ∧
      m.clear.normals_ = m.normals_ ∧ m.clear.polygons_ = m.polygons_ ∧
      m.clear.polygon_indices_ = m.polygon_indices_ ∧ m.clear.comments_ = m.comments_ :=
  ⟨rfl, rfl, rfl, rfl, rfl, rfl, rfl, rfl, rfl, rfl, rfl⟩

/-! ## C29: the order of a mapped polygon -/

theorem foldl_push_indices {V C : Type} (f : Nat → Nat) (l : List Nat) (m : PlyMesh V C) :
    (l.foldl (fun m i =>
        ({ m with polygon_indices_ := m.polygon_indices_ ++ [f i] } : PlyMesh V C)) m)
      = { m with polygon_indices_ := m.polygon_indices_ ++ l.map f } := by
  induction l generalizing m with
  | nil => simp
  | cons i l ih => simp [List.foldl_cons, ih]

theorem addVerticesT_polygons {V C : Type} (kWhite : C) (m : PlyMesh V C) (verts : Nat → V)
    (count : Nat) (colours : Option (Nat → C)) :
    (PlyMesh.addVerticesT kWhite m verts count colours).2.polygons_ = m.polygons_ ∧
      (PlyMesh.addVerticesT kWhite m verts count colours).2.polygon_indices_
        = m.polygon_indices_ := by
  unfold PlyMesh.addVerticesT
  simp only
  generalize List.range count = l
  induction l generalizing m with
  | nil => exact ⟨rfl, rfl⟩
  | cons i l ih =>
    rw [List.foldl_cons]
    cases colours with
    | none => exact ih _
    | some cs => exact ih _

theorem addMappedPolygonStep_foldl {V C : Type} (addVertex : PlyMesh V C → V → PlyMesh V C)
    (hframe : AddVertexKeepsPolygons addVertex) (verts : Nat → V) (vert_ids : Nat → Nat)
    (l : List Nat) (m : PlyMesh V C) :
    (l.foldl (PlyMesh.addMappedPolygonStep addVertex verts vert_ids) m).polygons_
        = m.polygons_ ∧
      ∃ added : List Nat, added.length = l.length ∧
        (l.foldl (PlyMesh.addMappedPolygonStep addVertex verts vert_ids) m).polygon_indices_
          = m.polygon_indices_ ++ added := by
  induction l generalizing m with
  | nil => exact ⟨rfl, [], rfl, by simp⟩
  | cons i l ih =>
    rw [List.foldl_cons]
    obtain ⟨hp, added, hlen, hadd⟩ :=
      ih (PlyMesh.addMappedPolygonStep addVertex verts vert_ids m i)
    have hstep : (PlyMesh.addMappedPolygonStep addVertex verts vert_ids m i).polygons_
          = m.polygons_ ∧
        ∃ a, (PlyMesh.addMappedPolygonStep addVertex verts vert_ids m i).polygon_indices_
          = m.polygon_indices_ ++ [a] := by
      unfold PlyMesh.addMappedPolygonStep
      cases indexMapperFind (m.index_mapper_.getD []) (vert_ids i) with
      | none =>
        obtain ⟨hf1, hf2⟩ := hframe
          { m with polygon_indices_ := m.polygon_indices_ ++ [toU32 m.vertices_.length] }
          (verts i)
        exact ⟨hf1, _, hf2⟩
      | some second => exact ⟨rfl, _, rfl⟩
    obtain ⟨hs1, a, hs2⟩ := hstep
    refine ⟨hp.trans hs1, a :: added, by simp [hlen], ?_⟩
    rw [hadd, hs2]
    simp

theorem addMappedPolygonT_polygons {V C : Type} (kDefaultColour : C)
    (addVertex : PlyMesh V C → V → PlyMesh V C) (hframe : AddVertexKeepsPolygons addVertex)
    (m : PlyMesh V C) (verts : Nat → V) (vert_ids : Nat → Nat) (n : Nat) (colour : Option C) :
    (m.addMappedPolygonT kDefaultColour addVertex verts vert_ids n colour).polygon_indices_.length
        = m.polygon_indices_.length + n ∧
      (m.addMappedPolygonT kDefaultColour addVertex verts vert_ids n colour).polygons_
        = m.polygons_ ++ [⟨m.polygon_indices_.length, 0, colour.getD kDefaultColour⟩] := by
  have hm0 : ∀ m0 : PlyMesh V C, m0.polygon_indices_ = m.polygon_indices_ →
      m0.polygons_ = m.polygons_ →
      ((List.range n).foldl (PlyMesh.addMappedPolygonStep addVertex verts vert_ids)
          { m0 with face_colours_ := m0.face_colours_ || colour.isSome }).polygon_indices_.length
          = m.polygon_indices_.length + n ∧
        ((List.range n).foldl (PlyMesh.addMappedPolygonStep addVertex verts vert_ids)
          { m0 with face_colours_ := m0.face_colours_ || colour.isSome }).polygons_ ++
            [(⟨m0.polygon_indices_.length, 0, colour.getD kDefaultColour⟩ : Poly C)]
          = m.polygons_ ++ [⟨m.polygon_indices_.length, 0, colour.getD kDefaultColour⟩] := by
    intro m0 hi hp
    obtain ⟨hp2, added, hlen, hadd⟩ := addMappedPolygonStep_foldl addVertex hframe verts
      vert_ids (List.range n) { m0 with face_colours_ := m0.face_colours_ || colour.isSome }
    rw [hadd, hp2]
    constructor
    · show (m0.polygon_indices_ ++ added).length = _
      rw [List.length_append, hlen, List.length_range, hi]
    · show m0.polygons_ ++ _ = _
      rw [hp, hi]
  unfold PlyMesh.addMappedPolygonT
  cases hmap : m.index_mapper_ with
  | none => exact hm0 { m with index_mapper_ := some [] } rfl rfl
  | some mp => exact hm0 m rfl rfl

/-- C29. When the absent `addVertex` leaves the polygon data alone, `addMappedPolygon` of
order `n` appends `n` entries to the polygon index list and one polygon record, whose order
is 0 and whose `indices_start` is the previous length of the index list, so that `save`
writes this face with a vertex count of 0 and none of its indices, in ASCII and in binary
mode. `addPolygon` (index and vertex overloads) with `n > 0` appends `n` entries and one
record whose order is `n` and whose `indices_start` is the previous length of the polygon
index list. -/
theorem addMappedPolygon_order_zero {V C : Type} [DecidableEq C] (kWhite kDefaultColour : C)
    (addVertex : PlyMesh V C → V → PlyMesh V C) (m : PlyMesh V C) (verts : Nat → V)
    (vert_ids indices : Nat → Nat) (n : Nat) (colour : Option C) (colour2 : C)
    (hframe : AddVertexKeepsPolygons addVertex) :
    ((m.addMappedPolygonT kDefaultColour addVertex verts vert_ids n colour).polygon_indices_.length
        = m.polygon_indices_.length + n ∧
      (m.addMappedPolygonT kDefaultColour addVertex verts vert_ids n colour).polygons_
        = m.polygons_ ++ [⟨m.polygon_indices_.length, 0, colour.getD kDefaultColour⟩] ∧
      savePolygonAscii (m.addMappedPolygonT kDefaultColour addVertex verts vert_ids n colour)
        ⟨m.polygon_indices_.length, 0, colour.getD kDefaultColour⟩ = (0, []) ∧
      savePolygonBinary (m.addMappedPolygonT kDefaultColour addVertex verts vert_ids n colour)
        ⟨m.polygon_indices_.length, 0, colour.getD kDefaultColour⟩ = (0, [])) ∧
    (0 < n →
      ((m.addPolygon kWhite indices n colour2).polygons_
          = m.polygons_ ++ [⟨m.polygon_indices_.length, n, colour2⟩] ∧
        (m.addPolygon kWhite indices n colour2).polygon_indices_.length
          = m.polygon_indices_.length + n) ∧
      ((m.addPolygonT kWhite verts n colour2).polygons_
          = m.polygons_ ++ [⟨m.polygon_indices_.length, n, colour2⟩] ∧
        (m.addPolygonT kWhite verts n colour2).polygon_indices_.length
          = m.polygon_indices_.length + n)) := by
  constructor
  · have hmain := addMappedPolygonT_polygons kDefaultColour addVertex hframe m verts vert_ids n
      colour
    refine ⟨hmain.1, hmain.2, ?_, ?_⟩
    · simp [savePolygonAscii]
    · simp [savePolygonBinary]
  · intro hn
    have hn0 : n ≠ 0 := by omega
    constructor
    · simp only [PlyMesh.addPolygon, hn0, if_false, foldl_push_indices, List.length_append,
        List.length_map, List.length_range]
      exact ⟨trivial, trivial⟩
    · obtain ⟨h1, h2⟩ := addVerticesT_polygons kWhite m verts n none
      simp only [PlyMesh.addPolygonT, hn0, if_false, foldl_push_indices, List.length_append,
        List.length_map, List.length_range, h1, h2]
      exact ⟨trivial, trivial⟩

theorem exampleAddVertex_frame : AddVertexKeepsPolygons exampleAddVertex :=
  fun m v => addVerticesT_polygons 0 m (fun _ => v) 1 none

theorem addMappedPolygon_order_zero_witness :
    ((exampleMesh.addMappedPolygonT 5 exampleAddVertex (fun i => 20 + i) (fun i => i) 2
          none).polygon_indices_.length = exampleMesh.polygon_indices_.length + 2 ∧
      (exampleMesh.addMappedPolygonT 5 exampleAddVertex (fun i => 20 + i) (fun i => i) 2
          none).polygons_
        = exampleMesh.polygons_ ++
          [⟨exampleMesh.polygon_indices_.length, 0, (none : Option Nat).getD 5⟩] ∧
      savePolygonAscii
          (exampleMesh.addMappedPolygonT 5 exampleAddVertex (fun i => 20 + i) (fun i => i) 2 none)
          ⟨exampleMesh.polygon_indices_.length, 0, (none : Option Nat).getD 5⟩ = (0, []) ∧
      savePolygonBinary
          (exampleMesh.addMappedPolygonT 5 exampleAddVertex (fun i => 20 + i) (fun i => i) 2 none)
          ⟨exampleMesh.polygon_indices_.length, 0, (none : Option Nat).getD 5⟩ = (0, [])) ∧
    (0 < 2 →
      ((exampleMesh.addPolygon 0 (fun i => i) 2 1).polygons_
          = exampleMesh.polygons_ ++ [⟨exampleMesh.polygon_indices_.length, 2, 1⟩] ∧
        (exampleMesh.addPolygon 0 (fun i => i) 2 1).polygon_indices_.length
          = exampleMesh.polygon_indices_.length + 2) ∧
      ((exampleMesh.addPolygonT 0 (fun i => 20 + i) 2 1).polygons_
          = exampleMesh.polygons_ ++ [⟨exampleMesh.polygon_indices_.length, 2, 1⟩] ∧
        (exampleMesh.addPolygonT 0 (fun i => 20 + i) 2 1).polygon_indices_.length
          = exampleMesh.polygon_indices_.length + 2)) :=
  addMappedPolygon_order_zero 0 5 exampleAddVertex exampleMesh (fun i => 20 + i) (fun i => i)
    (fun i => i) 2 none 1 exampleAddVertex_frame
/-! ## C23: the export mode names round-trip -/

/-- C23. For each of the six `ExportMode` values `m`, the word `operator<<` writes is read
back by `operator>>` as `m`, whatever the mode variable held before; the six words are
pairwise distinct; and every mode name of the `--mode` help text is read as its own mode. -/
theorem exportMode_round_trip :
    (∀ m current : ExportMode, exportModeExtract (exportModeWord m) current = m) ∧
      (exportModes.map exportModeWord).Nodup ∧
      (∀ m : ExportMode, m ∈ exportModes) ∧
      ∀ current : ExportMode,
        modeHelpNames.map (fun p => exportModeExtract p.1 current)
          = modeHelpNames.map fun p => p.2 := by
  refine ⟨?_, by decide, ?_, ?_⟩
  · intro m current
    cases m <;> rfl
  · intro m
    cases m <;> decide
  · intro current
    rfl
/-! ## C25: the regions `calculateForExtents` visits -/

theorem foldl_updateRegion_calls (x : Externals F) (force : Bool) (ks : List I16Vec3)
    (w : World F) :
    (ks.foldl (fun w k => (updateRegion x w k force).2) w).calls
      = w.calls ++ ks.map fun k => (k, force) := by
  induction ks generalizing w with
  | nil => simp
  | cons k ks ih =>
    rw [List.foldl_cons, ih, (updateRegion_frame x w k force).2.2.2]
    simp

theorem toI16_val_of_range (v : Int) (hlo : -32768 ≤ v) (hhi : v ≤ 32767) :
    (toI16 v).val = v := by
  simp only [toI16]
  omega

theorem intRange_pairwise (lo hi : Int) : (intRange lo hi).Pairwise (· < ·) := by
  unfold intRange
  rw [List.pairwise_map]
  exact (List.pairwise_lt_range _).imp (by intro a b h; omega)

theorem boxKeys_mem_iff (mn mx r : I16Vec3) : r ∈ boxKeys mn mx ↔ inBox mn mx r := by
  constructor
  · intro h
    simp only [boxKeys, List.mem_flatMap, List.mem_map, mem_intRange] at h
    obtain ⟨z, hz, y, hy, xv, hx, rfl⟩ := h
    have h1 := mn.x.property
    have h2 := mx.x.property
    have h3 := mn.y.property
    have h4 := mx.y.property
    have h5 := mn.z.property
    have h6 := mx.z.property
    simp only [inBox]
    rw [toI16_val_of_range xv (by omega) (by omega), toI16_val_of_range y (by omega) (by omega),
      toI16_val_of_range z (by omega) (by omega)]
    omega
  · exact mem_boxKeys mn mx r

theorem boxKeys_pairwise (mn mx : I16Vec3) : (boxKeys mn mx).Pairwise visitedBefore := by
  have h1 := mn.x.property
  have h2 := mx.x.property
  have h3 := mn.y.property
  have h4 := mx.y.property
  have h5 := mn.z.property
  have h6 := mx.z.property
  unfold boxKeys
  rw [List.pairwise_flatMap]
  constructor
  · intro z hz
    rw [mem_intRange] at hz
    rw [List.pairwise_flatMap]
    constructor
    · intro y hy
      rw [mem_intRange] at hy
      rw [List.pairwise_map]
      refine (intRange_pairwise _ _).imp_of_mem ?_
      intro a b ha hb hab
      rw [mem_intRange] at ha hb
      refine Or.inr ⟨rfl, Or.inr ⟨rfl, ?_⟩⟩
      show (toI16 a).val < (toI16 b).val
      rw [toI16_val_of_range a (by omega) (by omega), toI16_val_of_range b (by omega) (by omega)]
      exact hab
    · refine (intRange_pairwise _ _).imp_of_mem ?_
      intro y1 y2 hy1 hy2 hlt a ha b hb
      rw [mem_intRange] at hy1 hy2
      simp only [List.mem_map] at ha hb
      obtain ⟨xa, _, rfl⟩ := ha
      obtain ⟨xb, _, rfl⟩ := hb
      refine Or.inr ⟨rfl, Or.inl ?_⟩
      show (toI16 y1).val < (toI16 y2).val
      rw [toI16_val_of_range y1 (by omega) (by omega),
        toI16_val_of_range y2 (by omega) (by omega)]
      exact hlt
  · refine (intRange_pairwise _ _).imp_of_mem ?_
    intro z1 z2 hz1 hz2 hlt a ha b hb
    rw [mem_intRange] at hz1 hz2
    simp only [List.mem_flatMap, List.mem_map] at ha hb
    obtain ⟨ya, _, xa, _, rfl⟩ := ha
    obtain ⟨yb, _, xb, _, rfl⟩ := hb
    refine Or.inl ?_
    show (toI16 z1).val < (toI16 z2).val
    rw [toI16_val_of_range z1 (by omega) (by omega), toI16_val_of_range z2 (by omega) (by omega)]
    exact hlt

theorem visitedBefore_ne (a b : I16Vec3) (h : visitedBefore a b) : a ≠ b := by
  intro hab
  subst hab
  rcases h with h | ⟨_, h | ⟨_, h⟩⟩ <;> omega

theorem boxKeys_empty (mn mx : I16Vec3)
    (h : mx.z.val < mn.z.val ∨ mx.y.val < mn.y.val ∨ mx.x.val < mn.x.val) :
    boxKeys mn mx = [] := by
  apply List.eq_nil_iff_forall_not_mem.mpr
  intro r hr
  rw [boxKeys_mem_iff] at hr
  obtain ⟨hx, hy, hz⟩ := hr
  omega

/-- C25. `calculateForExtents(map, min_extents, max_extents, force)` calls `updateRegion`,
with the given `force`, for the keys of the list `boxKeys` in order and makes no other call.
A key is in that list exactly when it lies between `regionKey(min_extents)` and
`regionKey(max_extents)` on every axis, both ends inclusive; the list is strictly ascending
in the order `z` outermost, `x` innermost, so every key occurs exactly once; and when the
maximum key is below the minimum on some axis the list is empty and no call is made. -/
theorem calculateForExtents_visits_box_once (x : Externals F) (w : World F)
    (min_extents max_extents : Vec3 Rat) (force : Bool) :
    (calculateForExtents x w min_extents max_extents force).calls
        = w.calls ++ (boxKeys (x.regionKey w.map min_extents)
            (x.regionKey w.map max_extents)).map (fun k => (k, force)) ∧
      (∀ r, r ∈ boxKeys (x.regionKey w.map min_extents) (x.regionKey w.map max_extents) ↔
        inBox (x.regionKey w.map min_extents) (x.regionKey w.map max_extents) r) ∧
      (boxKeys (x.regionKey w.map min_extents)
        (x.regionKey w.map max_extents)).Pairwise visitedBefore ∧
      (boxKeys (x.regionKey w.map min_extents) (x.regionKey w.map max_extents)).Nodup ∧
      ((x.regionKey w.map max_extents).z.val < (x.regionKey w.map min_extents).z.val ∨
          (x.regionKey w.map max_extents).y.val < (x.regionKey w.map min_extents).y.val ∨
          (x.regionKey w.map max_extents).x.val < (x.regionKey w.map min_extents).x.val →
        (calculateForExtents x w min_extents max_extents force).calls = w.calls) := by
  have hcalls : (calculateForExtents x w min_extents max_extents force).calls
      = w.calls ++ (boxKeys (x.regionKey w.map min_extents)
          (x.regionKey w.map max_extents)).map (fun k => (k, force)) := by
    unfold calculateForExtents
    simp only [calculateForExtentsLoop_eq_foldl]
    exact foldl_updateRegion_calls x force _ { w with map := flushClearanceCache x w.map }
  refine ⟨hcalls, fun r => boxKeys_mem_iff _ _ r, boxKeys_pairwise _ _, ?_, ?_⟩
  · exact (boxKeys_pairwise _ _).imp fun {a b} h => visitedBefore_ne a b h
  · intro h
    rw [hcalls, boxKeys_empty _ _ h]
    simp

theorem calculateForExtents_visits_box_once_witness :
    (calculateForExtents exampleExternals (exampleWorld exampleMap 0 []) ⟨1, 0, 0⟩ ⟨0, 0, 0⟩
        false).calls
        = (exampleWorld exampleMap 0 []).calls ++
          (boxKeys (exampleExternals.regionKey (exampleWorld exampleMap 0 []).map ⟨1, 0, 0⟩)
            (exampleExternals.regionKey (exampleWorld exampleMap 0 []).map ⟨0, 0, 0⟩)).map
            (fun k => (k, false)) ∧
      (∀ r, r ∈ boxKeys (exampleExternals.regionKey (exampleWorld exampleMap 0 []).map ⟨1, 0, 0⟩)
            (exampleExternals.regionKey (exampleWorld exampleMap 0 []).map ⟨0, 0, 0⟩) ↔
        inBox (exampleExternals.regionKey (exampleWorld exampleMap 0 []).map ⟨1, 0, 0⟩)
          (exampleExternals.regionKey (exampleWorld exampleMap 0 []).map ⟨0, 0, 0⟩) r) ∧
      (boxKeys (exampleExternals.regionKey (exampleWorld exampleMap 0 []).map ⟨1, 0, 0⟩)
        (exampleExternals.regionKey (exampleWorld exampleMap 0 []).map
          ⟨0, 0, 0⟩)).Pairwise visitedBefore ∧
      (boxKeys (exampleExternals.regionKey (exampleWorld exampleMap 0 []).map ⟨1, 0, 0⟩)
        (exampleExternals.regionKey (exampleWorld exampleMap 0 []).map ⟨0, 0, 0⟩)).Nodup ∧
      ((exampleExternals.regionKey (exampleWorld exampleMap 0 []).map ⟨0, 0, 0⟩).z.val
            < (exampleExternals.regionKey (exampleWorld exampleMap 0 []).map ⟨1, 0, 0⟩).z.val ∨
          (exampleExternals.regionKey (exampleWorld exampleMap 0 []).map ⟨0, 0, 0⟩).y.val
            < (exampleExternals.regionKey (exampleWorld exampleMap 0 []).map ⟨1, 0, 0⟩).y.val ∨
          (exampleExternals.regionKey (exampleWorld exampleMap 0 []).map ⟨0, 0, 0⟩).x.val
            < (exampleExternals.regionKey (exampleWorld exampleMap 0 []).map ⟨1, 0, 0⟩).x.val →
        (calculateForExtents exampleExternals (exampleWorld exampleMap 0 []) ⟨1, 0, 0⟩ ⟨0, 0, 0⟩
          false).calls = (exampleWorld exampleMap 0 []).calls) :=
  calculateForExtents_visits_box_once exampleExternals (exampleWorld exampleMap 0 [])
    ⟨1, 0, 0⟩ ⟨0, 0, 0⟩ false
/-! ## C24: the values the CPU path writes -/

theorem updateRegion_cpu_recomputed_map (x : Externals F) (w : World F) (r : I16Vec3)
    (force : Bool) (c : MapChunk F) (hcpu : gpuSelected x w.imp = false)
    (hrun : (updateRegion x w r force).1 = true) (hres : w.map.chunks r = some c) :
    (updateRegion x w r force).2.map
      = (cpuQueryMap x w.imp w.map r).setTouchedStamp r kDlClearance (T_occ w.map r) := by
  have hreg := region_resident x w.map r
    ((w.imp.query_flags &&& x.kQfInstantiateUnknown) != 0) c hres
  rw [updateRegion_some x w r force c w.map hreg] at hrun ⊢
  split at hrun
  · simp at hrun
  · rename_i hcond
    rw [if_neg hcond]
    simp only
    rw [updateRegionWork_cpu x
      { w with calls := w.calls ++ [(r, force)], map := w.map } r hcpu, updateRegionCpu_map]

/-- C24. Let `updateRegion` recompute (return true for) a resident region `r` through the
CPU path, let the region query around `r` visit `r` (its box reaches `search_radius >= 0`
beyond the region) and let the absent code read no clearance data. Then on return every
voxel of `r`, that is every local key of the grid `[0, dim)`, holds the value
`calculateNearestNeighbour(key, map, half_extents, unknown_as_occupied, false,
search_radius, axis_scaling, report_unscaled)` for its own key, with the map on entry,
`half_extents = calculateVoxelSearchHalfExtents(map, search_radius)`,
`unknown_as_occupied = ((query_flags & kQfUnknownAsOccupied) != 0)` and
`report_unscaled = ((query_flags & kQfReportUnscaledResults) != 0)`. -/
theorem updateRegion_cpu_writes_every_voxel (x : Externals F) (w : World F) (r : I16Vec3)
    (force : Bool) (c : MapChunk F)
    (hcpu : gpuSelected x w.imp = false)
    (hrun : (updateRegion x w r force).1 = true)
    (hres : w.map.chunks r = some c)
    (hvisit : r ∈ x.queryRegionKeys w.map r w.imp.search_radius)
    (hread : x.ReadsProcessView false)
    (l : IVec3) (hl : inBlock ⟨0, 0, 0⟩ w.map.region_voxel_dimensions l = true) :
    ∃ c2, (updateRegion x w r force).2.map.chunks r = some c2 ∧
      c2.clearance l = x.calculateNearestNeighbour ⟨r, l⟩ w.map
        (x.calculateVoxelSearchHalfExtents w.map w.imp.search_radius)
        ((w.imp.query_flags &&& x.kQfUnknownAsOccupied) != 0) false w.imp.search_radius
        w.imp.axis_scaling ((w.imp.query_flags &&& x.kQfReportUnscaledResults) != 0) := by
  rw [updateRegion_cpu_recomputed_map x w r force c hcpu hrun hres,
    setTouchedStamp_eq_applyWrite
      (nearestNeighbourOf x w.imp w.map
        (x.calculateVoxelSearchHalfExtents w.map w.imp.search_radius)) (T_occ w.map),
    cpuQueryMap_eq_applyWrite x false hread w.imp w.map (T_occ w.map) w.map rfl r,
    applyWrite_applyWrite, applyWrite_chunks, hres]
  refine ⟨_, rfl, ?_⟩
  simp only [hvisit, hl, decide_True, Bool.and_self, Bool.or_true, Bool.false_or, if_true,
    nearestNeighbourOf]

theorem exampleTileExternals_readsProcessView : exampleTileExternals.ReadsProcessView false := by
  intro m m2 hv
  have h1 : ∀ m : OccupancyMap Nat,
      occupancyView m = processView exampleTileExternals false m := by
    intro m
    simp only [occupancyView, processView, obtainableChunk]
    congr 1
    funext k
    cases m.chunks k <;> rfl
  refine ⟨fun key h a b r s u => exampleTileExternals_reads m m2 ?_ key h a b r s u,
    fun _ => rfl, fun _ _ => rfl, fun _ => rfl⟩
  rw [h1, h1, hv]

theorem updateRegion_cpu_writes_every_voxel_witness :
    inBlock ⟨0, 0, 0⟩ (exampleWorld exampleTileMap 0 []).map.region_voxel_dimensions ⟨1, 0, 0⟩
        = true ∧
      ∃ c2, (updateRegion exampleTileExternals (exampleWorld exampleTileMap 0 [])
            (i16vec3 0 0 0) true).2.map.chunks (i16vec3 0 0 0) = some c2 ∧
        c2.clearance ⟨1, 0, 0⟩
          = exampleTileExternals.calculateNearestNeighbour ⟨i16vec3 0 0 0, ⟨1, 0, 0⟩⟩
            (exampleWorld exampleTileMap 0 []).map
            (exampleTileExternals.calculateVoxelSearchHalfExtents
              (exampleWorld exampleTileMap 0 []).map
              (exampleWorld exampleTileMap 0 []).imp.search_radius)
            (((exampleWorld exampleTileMap 0 []).imp.query_flags &&&
              exampleTileExternals.kQfUnknownAsOccupied) != 0) false
            (exampleWorld exampleTileMap 0 []).imp.search_radius
            (exampleWorld exampleTileMap 0 []).imp.axis_scaling
            (((exampleWorld exampleTileMap 0 []).imp.query_flags &&&
              exampleTileExternals.kQfReportUnscaledResults) != 0) :=
  ⟨by decide, updateRegion_cpu_writes_every_voxel exampleTileExternals
    (exampleWorld exampleTileMap 0 []) (i16vec3 0 0 0) true (exampleChunk 1 0) (by decide)
    (by decide) (by rfl) (List.mem_singleton.mpr rfl) exampleTileExternals_readsProcessView
    ⟨1, 0, 0⟩ (by decide)⟩
/-! ## C26: the flood fill step writes nothing -/

theorem foldl_same {α β : Type} (f : α → β → α) (h : ∀ a b, f a b = a) (l : List β) (a : α) :
    l.foldl f a = a := by
  induction l generalizing a with
  | nil => rfl
  | cons b l ih => rw [List.foldl_cons, h, ih]

theorem regionFloodFillStepCpuNeighbour_same [LinearOrderedRing F] (x : FloodFillExternals F)
    (node_key : OccupancyKey) (node_range : F) (map : OccupancyMap F) (nx ny nz : Int) :
    regionFloodFillStepCpuNeighbour x node_key node_range map nx ny nz = map := by
  unfold regionFloodFillStepCpuNeighbour
  by_cases h0 : nx ≠ 0 ∨ ny ≠ 0 ∨ nz ≠ 0
  · rw [if_pos h0]
    by_cases hnull :
        OccupancyNode.isNull (x.node map (x.moveKey map node_key nx ny nz)) = true
    · simp [hnull]
    · have hneg : ¬ ((-1 : F) ≥ 0) := by
        intro h
        have h1 : (-1 : F) < 0 := neg_one_lt_zero
        exact absurd h (not_le.mpr h1)
      simp only [hnull, Bool.not_eq_true] at hnull ⊢
      simp [hnull, hneg]
  · rw [if_neg h0]

theorem regionFloodFillStepCpuVoxel_same [LinearOrderedRing F] (x : FloodFillExternals F)
    (chunk : Option (MapChunk F)) (map : OccupancyMap F) (node_key : OccupancyKey) :
    regionFloodFillStepCpuVoxel x chunk map node_key = map := by
  unfold regionFloodFillStepCpuVoxel
  split
  · simp only
    apply foldl_same
    intro m nz
    apply foldl_same
    intro m ny
    apply foldl_same
    intro m nx
    exact regionFloodFillStepCpuNeighbour_same x _ _ m nx ny nz
  · rfl

/-- C26. The flood fill step never changes the map, so every clearance value stays exactly
as it was: for every map, query, block, region and chunk pointer,
`regionFloodFillStepCpuBlock` returns the map it was given. The neighbour range is read in
the branch where the neighbour is not null, where the guard
`neighbour.isNull() ? neighbour.clearance() : -1.0f` gives -1, so the test
`neighbour_range >= 0` fails and `setClearance` is never reached. -/
theorem regionFloodFillStepCpuBlock_changes_nothing [LinearOrderedRing F]
    (x : FloodFillExternals F) (map : OccupancyMap F) (query : ClearanceProcessDetail F)
    (block_start block_end : IVec3) (region_key : I16Vec3) (chunk : Option (MapChunk F))
    (voxel_search_half_extents : IVec3) :
    regionFloodFillStepCpuBlock x map query block_start block_end region_key chunk
      voxel_search_half_extents = map := by
  unfold regionFloodFillStepCpuBlock
  simp only
  apply foldl_same
  intro m z
  apply foldl_same
  intro m y
  apply foldl_same
  intro m xv
  exact regionFloodFillStepCpuVoxel_same x chunk m _
/-! ## C27: `fillWithValue` does not read the map -/

theorem forLoop_spec {S : Type} (cond : S → Bool) (incr : S → S) (body : S → Outcome S)
    (I : S → Prop) (P : Outcome S → Prop)
    (hdone : ∀ s, I s → P (.done s)) (hfuel : ∀ s, I s → P (.outOfFuel s))
    (hnext : ∀ s, P (.done s) → I (incr s)) (hbody : ∀ s, I s → P (body s)) :
    ∀ fuel s, I s → P (forLoop cond incr body fuel s) := by
  intro fuel
  induction fuel with
  | zero =>
    intro s hs
    unfold forLoop
    split
    · exact hfuel s hs
    · exact hdone s hs
  | succ n ih =>
    intro s hs
    unfold forLoop
    split
    · have hb := hbody s hs
      cases hbs : body s with
      | done s2 =>
        rw [hbs] at hb
        exact ih (incr s2) (hnext s2 hb)
      | threw s2 => rw [hbs] at hb; exact hb
      | assertFailed s2 => rw [hbs] at hb; exact hb
      | outOfFuel s2 => rw [hbs] at hb; exact hb
    · exact hdone s hs

theorem fillWithValueZ_spec {M K F : Type} (x : OhmGenExternals M K F) (min_key max_key : K)
    (fill_value : F) (expect_value : Option F) (step : Int)
    (I : FillState M K → Prop) (P : Outcome (FillState M K) → Prop)
    (hdone : ∀ s, I s → P (.done s)) (hfuel : ∀ s, I s → P (.outOfFuel s))
    (hPI : ∀ s, P (.done s) → I s)
    (hkey : ∀ s k, I s → I { s with key := k })
    (hbody : ∀ s, I s → P (fillWithValueVoxel x fill_value expect_value s)) :
    ∀ fuel s, I s →
      P (fillWithValueZ x min_key max_key fill_value expect_value step fuel s) := by
  intro fuel
  have hX : ∀ s, I s →
      P (fillWithValueX x min_key max_key fill_value expect_value step fuel s) := by
    intro s hs
    unfold fillWithValueX
    exact forLoop_spec _ _ _ I P hdone hfuel (fun s h => hkey s _ (hPI s h)) hbody fuel s hs
  have hY : ∀ s, I s →
      P (fillWithValueY x min_key max_key fill_value expect_value step fuel s) := by
    intro s hs
    unfold fillWithValueY
    exact forLoop_spec _ _ _ I P hdone hfuel (fun s h => hkey s _ (hPI s h))
      (fun s hs => hX _ (hkey s _ hs)) fuel s hs
  intro s hs
  unfold fillWithValueZ
  exact forLoop_spec _ _ _ I P hdone hfuel (fun s h => hkey s _ (hPI s h))
    (fun s hs => hY _ (hkey s _ hs)) fuel s hs

theorem fillWithValueVoxel_throw_cause {M K F : Type} (x : OhmGenExternals M K F)
    (fill_value : F) (expect_value : Option F) (s : FillState M K)
    (ht : (fillWithValueVoxel x fill_value expect_value s).isThrow = true) :
    (∃ e, expect_value = some e ∧ x.floatNe x.unobservedOccupancyValue e = true) ∧
      (fillWithValueVoxel x fill_value expect_value s).state.visited ≠ [] := by
  have hvis : (fillWithValueVoxel x fill_value expect_value s).state.visited ≠ [] := by
    unfold fillWithValueVoxel
    simp only
    split
    · simp [Outcome.state]
    · split <;> simp [Outcome.state]
  refine ⟨?_, hvis⟩
  unfold fillWithValueVoxel at ht
  simp only at ht
  cases expect_value with
  | none =>
    simp only [Bool.false_eq_true, if_false] at ht
    split at ht <;> simp [Outcome.isThrow] at ht
  | some e =>
    by_cases hne : x.floatNe x.unobservedOccupancyValue e = true
    · exact ⟨e, rfl, hne⟩
    · rw [Bool.not_eq_true] at hne
      simp only [hne, Bool.false_eq_true, if_false] at ht
      split at ht <;> simp [Outcome.isThrow] at ht

theorem fillWithValue_throw_cause {M K F : Type} (x : OhmGenExternals M K F) (map : M)
    (min_key max_key : K) (fill_value : F) (expect_value : Option F) (step : Int)
    (fuel : Nat)
    (h : (fillWithValue x map min_key max_key fill_value expect_value step fuel).isThrow
      = true) :
    (∃ e, expect_value = some e ∧ x.floatNe x.unobservedOccupancyValue e = true) ∧
      (fillWithValue x map min_key max_key fill_value expect_value step fuel).state.visited
        ≠ [] := by
  unfold fillWithValue at h ⊢
  split at h
  · simp [Outcome.isThrow] at h
  · rename_i hv
    rw [if_neg hv]
    refine fillWithValueZ_spec x min_key max_key fill_value expect_value step (fun _ => True)
      (fun o => o.isThrow = true →
        (∃ e, expect_value = some e ∧ x.floatNe x.unobservedOccupancyValue e = true) ∧
          o.state.visited ≠ [])
      ?_ ?_ (fun _ _ => trivial) (fun _ _ _ => trivial) ?_ fuel _ trivial h
    · intro s _ ht
      simp [Outcome.isThrow] at ht
    · intro s _ ht
      simp [Outcome.isThrow] at ht
    · intro s _ ht
      exact fillWithValueVoxel_throw_cause x fill_value expect_value s ht

theorem fillWithValue_throws_at_first_voxel {M K F : Type} (x : OhmGenExternals M K F)
    (map : M) (min_key max_key : K) (fill_value : F) (e : F) (step : Int) (fuel : Nat)
    (hne : x.floatNe x.unobservedOccupancyValue e = true)
    (hvis : (fillWithValue x map min_key max_key fill_value (some e) step fuel).state.visited
      ≠ []) :
    (fillWithValue x map min_key max_key fill_value (some e) step fuel).isThrow = true := by
  unfold fillWithValue at hvis ⊢
  split at hvis
  · simp [Outcome.state] at hvis
  · rename_i hv
    rw [if_neg hv]
    have hP := fillWithValueZ_spec x min_key max_key fill_value (some e) step
      (fun s => s.visited = [])
      (fun o => (o.isThrow = true ∧ o.state.visited ≠ []) ∨
        (o.isThrow = false ∧ o.state.visited = []))
      (fun s hs => Or.inr ⟨rfl, hs⟩) (fun s hs => Or.inr ⟨rfl, hs⟩)
      (fun s h => by
        rcases h with ⟨h1, _⟩ | ⟨_, h2⟩
        · simp [Outcome.isThrow] at h1
        · exact h2)
      (fun s k hs => hs)
      (fun s _ => by
        unfold fillWithValueVoxel
        simp only [hne, if_true]
        exact Or.inl ⟨rfl, by simp [Outcome.state]⟩)
      fuel ⟨min_key, map, []⟩ rfl
    rcases hP with ⟨h1, _⟩ | ⟨_, h2⟩
    · exact h1
    · exact absurd h2 hvis

theorem fillWithValue_writes_visited {M K F : Type} (x : OhmGenExternals M K F) (map : M)
    (min_key max_key : K) (fill_value : F) (expect_value : Option F) (step : Int)
    (fuel : Nat)
    (h : (fillWithValue x map min_key max_key fill_value expect_value step fuel).isRunning
      = true) :
    (fillWithValue x map min_key max_key fill_value expect_value step fuel).state.map
      = writeAll x fill_value map
        (fillWithValue x map min_key max_key fill_value expect_value step fuel).state.visited := by
  unfold fillWithValue at h ⊢
  split
  · rfl
  · rename_i hv
    rw [if_neg hv] at h
    refine fillWithValueZ_spec x min_key max_key fill_value expect_value step
      (fun s => s.map = writeAll x fill_value map s.visited)
      (fun o => o.isRunning = true → o.state.map = writeAll x fill_value map o.state.visited)
      (fun s hs _ => hs) (fun s hs _ => hs) (fun s hs => hs rfl) (fun s k hs => hs) ?_
      fuel _ rfl h
    intro s hs hrun
    unfold fillWithValueVoxel at hrun ⊢
    simp only at hrun ⊢
    split at hrun
    · simp [Outcome.isRunning] at hrun
    · split at hrun
      · simp [Outcome.isRunning] at hrun
      · rename_i h1 h2
        rw [if_neg h1, if_neg h2]
        simp only [Outcome.state, writeAll, List.foldl_append, List.foldl_cons, List.foldl_nil]
        rw [hs]
        rfl

/-- C27. `fillWithValue` decides on the throw without reading a voxel: for every map, key
range, fill value, step and fuel the run ends in the throw of `std::logic_error` if and only
if `expect_value` is not null, the unobserved value differs from `*expect_value` (in the
float comparison `!=`) and at least one voxel is visited. Consequently, the unobserved value
comparing equal to itself, `fillMapWithEmptySpace` never throws, for either value of
`expect_empty_map` and whatever the map holds, and as long as no `assert` fails the map it
reaches is the map on entry with every visited voxel overwritten with `missValue()`. -/
theorem fillWithValue_throw_independent_of_map {M K F : Type} (x : OhmGenExternals M K F)
    (map : M) (min_key max_key : K) (fill_value : F) (expect_value : Option F) (step : Int)
    (x1 y1 z1 x2 y2 z2 : Int) (expect_empty_map : Bool) (fuel : Nat)
    (hself : x.floatNe x.unobservedOccupancyValue x.unobservedOccupancyValue = false) :
    ((fillWithValue x map min_key max_key fill_value expect_value step fuel).isThrow = true ↔
      (∃ e, expect_value = some e ∧ x.floatNe x.unobservedOccupancyValue e = true) ∧
        (fillWithValue x map min_key max_key fill_value expect_value step fuel).state.visited
          ≠ []) ∧
    (fillMapWithEmptySpace x map x1 y1 z1 x2 y2 z2 expect_empty_map fuel).isThrow = false ∧
    ((fillMapWithEmptySpace x map x1 y1 z1 x2 y2 z2 expect_empty_map fuel).isRunning = true →
      (fillMapWithEmptySpace x map x1 y1 z1 x2 y2 z2 expect_empty_map fuel).state.map
        = writeAll x (x.missValue map) map
          (fillMapWithEmptySpace x map x1 y1 z1 x2 y2 z2 expect_empty_map
            fuel).state.visited) := by
  refine ⟨⟨fillWithValue_throw_cause x map min_key max_key fill_value expect_value step fuel,
    ?_⟩, ?_, ?_⟩
  · rintro ⟨⟨e, he, hne⟩, hvis⟩
    rw [he] at hvis ⊢
    exact fillWithValue_throws_at_first_voxel x map min_key max_key fill_value e step fuel
      hne hvis
  · cases hthrow : (fillMapWithEmptySpace x map x1 y1 z1 x2 y2 z2 expect_empty_map
        fuel).isThrow with
    | false => rfl
    | true =>
      unfold fillMapWithEmptySpace at hthrow
      obtain ⟨⟨e, he, hne⟩, _⟩ := fillWithValue_throw_cause x map _ _ _ _ _ fuel hthrow
      cases expect_empty_map with
      | false => simp at he
      | true =>
        simp only [if_true, Option.some.injEq] at he
        rw [← he, hself] at hne
        simp at hne
  · intro hrun
    unfold fillMapWithEmptySpace at hrun ⊢
    exact fillWithValue_writes_visited x map _ _ _ _ _ fuel hrun

theorem fillWithValue_throw_independent_of_map_witness :
    exampleGenExternals.floatNe exampleGenExternals.unobservedOccupancyValue
        exampleGenExternals.unobservedOccupancyValue = false ∧
    (((fillWithValue exampleGenExternals (fun _ => 3) (0, 0, 0) (1, 0, 1) 7 (some 5) 1
          4).isThrow = true ↔
      (∃ e, some 5 = some e ∧
          exampleGenExternals.floatNe exampleGenExternals.unobservedOccupancyValue e = true) ∧
        (fillWithValue exampleGenExternals (fun _ => 3) (0, 0, 0) (1, 0, 1) 7 (some 5) 1
          4).state.visited ≠ []) ∧
    (fillMapWithEmptySpace exampleGenExternals (fun _ => 3) 0 0 0 2 1 2 true 4).isThrow
      = false ∧
    ((fillMapWithEmptySpace exampleGenExternals (fun _ => 3) 0 0 0 2 1 2 true 4).isRunning
        = true →
      (fillMapWithEmptySpace exampleGenExternals (fun _ => 3) 0 0 0 2 1 2 true 4).state.map
        = writeAll exampleGenExternals (exampleGenExternals.missValue fun _ => 3) (fun _ => 3)
          (fillMapWithEmptySpace exampleGenExternals (fun _ => 3) 0 0 0 2 1 2 true
            4).state.visited)) :=
  ⟨by decide, fillWithValue_throw_independent_of_map exampleGenExternals (fun _ => 3)
    (0, 0, 0) (1, 0, 1) 7 (some 5) 1 0 0 0 2 1 2 true 4 (by decide)⟩

end ohm
